import Mathlib

/-!
# driplane: the rule compiler and the rule registry

A shallow embedding of `core/piperule.go`: the registry (`Ruleset`), the rule
compiler (`NewPipeRule`, `addNode`, `newFilter`, `getRuleCall`) and `AddRule`.

Conventions of the embedding.

* The registry is a process-wide singleton in the source; here it is an explicit
  value of type `Ruleset` passed in and returned by every operation.
* A Go function that mutates the registry and returns `error` becomes a function
  returning a `Result` together with the registry after the call. The registry is
  returned also when the call fails, because the source does not roll back.
* A nil-pointer dereference is a run-time panic; it is the outcome `Result.panic`,
  which is not an `error` value.
* `lastId` is an `int32`: it is an `Int` here and every increment goes through
  `wrap32`.
* The filter factory, the feeder factory, the bus and the float formatter are not
  part of the file; they are the fields of `Env`. A factory is a function of the
  kind name, the parameter map and the topic identifier it is handed.
* A node returned by a factory is a `Filter` or a `Feeder` value; what its
  `GetIdentifier()` returns is a field of that value, chosen by the factory.
* `log.*` calls have no effect on the registry and are left out.
-/

namespace Driplane

/-! ## The parsed rule tree -/

/-- A `float64` literal of a rule file, kept as its bit pattern. -/
structure Float64 where
  bits : Nat
deriving DecidableEq, Repr

/-- The value of a parameter: two pointers, `Number` and `String`. -/
structure ParamValue where
  Number : Option Float64
  String : Option String
deriving DecidableEq, Repr

/-- One `name = value` parameter of a filter or of a feeder. -/
structure Param where
  Name : String
  Value : ParamValue
deriving DecidableEq, Repr

mutual
/-- A `*Node`: nil, or a node holding a `*FilterNode` and a `*RuleCall`. -/
inductive Node where
  | nil : Node
  | mk (Filter : FilterNode) (RuleCall : RuleCall) : Node
/-- A `*FilterNode`: nil, or a filter descriptor with its `Next` node. -/
inductive FilterNode where
  | nil : FilterNode
  | mk (Name : String) (Params : List Param) (Next : Node) : FilterNode
/-- A `*RuleCall`: nil, or the name of the called rule with its `Next` node. -/
inductive RuleCall where
  | nil : RuleCall
  | mk (Name : String) (Next : Node) : RuleCall
end

/-- A `FeederNode`: the feeder descriptor at the head of a rule. -/
structure FeederNode where
  Name : String
  Params : List Param
  Next : Node

/-- A `RuleNode`: the root of one parsed rule. -/
structure RuleNode where
  Identifier : String
  Feeder : Option FeederNode
  First : Node

/-! ## Maps with string keys -/

/-- A Go `map[string]string`, as an association list with unique keys. -/
abbrev StrMap := List (String × String)

/-- The assignment `m[k] = v`: overwrite the entry of `k`, or add one. -/
def StrMap.set : StrMap → String → String → StrMap
  | [], k, v => [(k, v)]
  | (k0, v0) :: m, k, v => if k0 = k then (k, v) :: m else (k0, v0) :: StrMap.set m k v

/-- The lookup `m[k]` with its `ok` flag. -/
def StrMap.get? : StrMap → String → Option String
  | [], _ => none
  | (k0, v0) :: m, k => if k0 = k then some v0 else StrMap.get? m k

/-! ## Instantiated nodes and the bus -/

/-- A value of the `filter.Filter` capability, as a factory returns it. -/
structure Filter where
  /-- What `GetIdentifier()` returns: the topic this node publishes on. -/
  GetIdentifier : String
  /-- The rest of the object, which the compiler never inspects. -/
  impl : Nat
deriving DecidableEq, Repr

/-- A value of the `feeder.Feeder` capability, as a factory returns it. -/
structure Feeder where
  /-- What `GetIdentifier()` returns: the topic this node publishes on. -/
  GetIdentifier : String
  /-- The rest of the object, which the compiler never inspects. -/
  impl : Nat
deriving DecidableEq, Repr

/-- A `com.Subscriber` stored in `PipeRule.nodes`: the dynamic value is either a
filter (from the filter factory) or a feeder (from the feeder factory). -/
inductive Subscriber where
  | filter (f : Filter) : Subscriber
  | feeder (f : Feeder) : Subscriber
deriving DecidableEq, Repr

/-- The type assertion `s.(filter.Filter)` with its `ok` flag. -/
def Subscriber.asFilter : Subscriber → Option Filter
  | .filter f => some f
  | .feeder _ => none

/-- The type assertion `s.(feeder.Feeder)` with its `ok` flag. -/
def Subscriber.asFeeder : Subscriber → Option Feeder
  | .filter _ => none
  | .feeder f => some f

/-- The handler closure passed to `SubscribeAsync`: the rule and node names it
logs, and the node whose `DoFilter` and `Propagate` it calls. -/
structure Handler where
  rule : String
  label : String
  target : Subscriber
deriving DecidableEq, Repr

/-- One subscription held by the bus. -/
structure Subscription where
  topic : String
  handler : Handler
deriving DecidableEq, Repr

/-- The bus, as the list of its subscriptions, oldest first. -/
abbrev Bus := List Subscription

/-- A record of one factory invocation: which factory, the kind name, the
parameter map, the topic identifier handed over, and whether it returned a node. -/
structure FactoryCall where
  isFeeder : Bool
  kind : String
  params : StrMap
  id : Int
  ok : Bool
deriving DecidableEq, Repr

/-- A compiled rule. -/
structure PipeRule where
  Name : String
  HasFeeder : Bool
  nodes : List Subscriber
deriving DecidableEq, Repr

/-- The registry. `calls` is a ghost field: the log of every factory invocation
made so far, oldest first. -/
structure Ruleset where
  rules : List (String × PipeRule)
  feedRules : List String
  bus : Bus
  lastId : Int
  calls : List FactoryCall
deriving DecidableEq, Repr

/-- The configuration provider: `GetConfig()` returns a key/value map. -/
structure Configuration where
  GetConfig : StrMap

/-- The external collaborators of the compiler. -/
structure Env where
  /-- The call `strconv.FormatFloat(x, 'E', -1, 64)`. -/
  FormatFloat : Float64 → String
  /-- The call `filter.NewFilter(kind, params, bus, id)`: an error text or a filter.
  The bus argument is the one bus object of the registry in every call. -/
  NewFilter : String → StrMap → Int → Except String Filter
  /-- The call `feeder.NewFeeder(kind, config, bus, id)`: an error text or a feeder.
  The bus argument is the one bus object of the registry in every call. -/
  NewFeeder : String → StrMap → Int → Except String Feeder
  /-- The call `bus.SubscribeAsync(topic, handler, false)`: `some e` is its error. -/
  SubscribeAsync : Bus → String → Handler → Option String

/-! ## Outcomes -/

/-- The `error` values the registry and the compiler return. -/
inductive Err where
  /-- "Ruleset.AddRule: rules without name are not supported" -/
  | unnamed : Err
  /-- "Ruleset.AddRule: rule '%s' redefined previously" -/
  | redefined (name : String) : Err
  /-- An error returned by the filter factory or the feeder factory. -/
  | factory (text : String) : Err
  /-- An error returned by `SubscribeAsync`. -/
  | subscribe (text : String) : Err
  /-- "rule '%s' not found...you need to define it" -/
  | notFound (name : String) : Err
  /-- "rule '%s' contains a feeder and cannot be here" -/
  | feederHere (name : String) : Err
  /-- "found an unknown node type" -/
  | unknownNodeType : Err
deriving DecidableEq, Repr

/-- The text of an error value. -/
def Err.text : Err → String
  | .unnamed => "Ruleset.AddRule: rules without name are not supported"
  | .redefined n => "Ruleset.AddRule: rule '" ++ n ++ "' redefined previously"
  | .factory t => t
  | .subscribe t => t
  | .notFound n => "rule '" ++ n ++ "' not found...you need to define it"
  | .feederHere n => "rule '" ++ n ++ "' contains a feeder and cannot be here"
  | .unknownNodeType => "found an unknown node type"

/-- How a call ends: it returns a value, it returns an error, or it panics on a
nil-pointer dereference. -/
inductive Result (α : Type) where
  | ok (a : α) : Result α
  | error (e : Err) : Result α
  | panic : Result α
deriving DecidableEq, Repr

/-- The call returned without an error. -/
def Result.isOk {α : Type} : Result α → Bool
  | .ok _ => true
  | _ => false

/-- The call returned an error value. -/
def Result.isError {α : Type} : Result α → Bool
  | .error _ => true
  | _ => false

/-! ## The registry and the compiler -/

/-- Addition on `int32`: the sum wraps around at `2^31`. -/
def wrap32 (x : Int) : Int :=
  (x + 2147483648) % 4294967296 - 2147483648

/-- The registry `RuleSetInstance()` creates on first use. -/
def RuleSetInstance : Ruleset :=
  { rules := [], feedRules := [], bus := [], lastId := 0, calls := [] }

/-- The lookup `r.rules[name]` with its `ok` flag. -/
def lookupRule : List (String × PipeRule) → String → Option PipeRule
  | [], _ => none
  | (k, pr) :: m, name => if k = name then some pr else lookupRule m name

/-- The assignment `r.rules[name] = pr`. -/
def storeRule : List (String × PipeRule) → String → PipeRule → List (String × PipeRule)
  | [], name, pr => [(name, pr)]
  | (k, old) :: m, name, pr =>
    if k = name then (name, pr) :: m else (k, old) :: storeRule m name pr

/-- The method `getLastNode`: `none` is the nil pointer. -/
def PipeRule.getLastNode (p : PipeRule) : Option Subscriber :=
  p.nodes.getLast?

/-- The method `getFirstNode`: `none` is the nil pointer. -/
def PipeRule.getFirstNode (p : PipeRule) : Option Subscriber :=
  p.nodes.head?

/-- The string a parameter value is turned into: the formatted number when
`Number` is set, otherwise `*String`; `none` is the dereference of a nil
`String`. -/
def paramString (env : Env) (v : ParamValue) : Option String :=
  match v.Number with
  | some x => some (env.FormatFloat x)
  | none => v.String

/-- The loop of `newFilter` that fills the parameter map; `none` when it
panics. -/
def filterParams (env : Env) : List Param → StrMap → Option StrMap
  | [], m => some m
  | par :: rest, m =>
    match paramString env par.Value with
    | some v => filterParams env rest (StrMap.set m par.Name v)
    | none => none

/-- The loop of `NewPipeRule` that writes the feeder's parameters into the
configuration map under `<feeder>.<param>`; `none` when it panics. -/
def feederConfig (env : Env) (feeder : String) : List Param → StrMap → Option StrMap
  | [], m => some m
  | par :: rest, m =>
    match paramString env par.Value with
    | some v => feederConfig env feeder rest (StrMap.set m (feeder ++ "." ++ par.Name) v)
    | none => none

/-- The method `newFilter`: build the parameter map, call the filter factory with
`lastId + 1`, and increment `lastId` when it succeeds. -/
def newFilter (env : Env) (name : String) (params : List Param) (rs : Ruleset) :
    Result Filter × Ruleset :=
  match filterParams env params [] with
  | none => (.panic, rs)
  | some m =>
    match env.NewFilter (name ++ "filter") m (wrap32 (rs.lastId + 1)) with
    | .error e =>
      (.error (.factory e),
        { rs with
            calls := rs.calls ++ [⟨false, name ++ "filter", m, wrap32 (rs.lastId + 1), false⟩] })
    | .ok f =>
      (.ok f,
        { rs with
            lastId := wrap32 (rs.lastId + 1),
            calls := rs.calls ++ [⟨false, name ++ "filter", m, wrap32 (rs.lastId + 1), true⟩] })

/-- The method `getRuleCall`. -/
def getRuleCall (rs : Ruleset) (name : String) : Except Err PipeRule :=
  match lookupRule rs.rules name with
  | some r => .ok r
  | none => .error (.notFound name)

/-- The call `rs.bus.SubscribeAsync(topic, handler, false)`: on success the bus
holds one more subscription. -/
def subscribe (env : Env) (topic : String) (h : Handler) (rs : Ruleset) :
    Option String × Ruleset :=
  match env.SubscribeAsync rs.bus topic h with
  | some e => (some e, rs)
  | none => (none, { rs with bus := rs.bus ++ [⟨topic, h⟩] })

/-- What `addNode` does at one node: it returns (`ret`), or it calls itself on the
node's `Next` with a new upstream topic (`next`). Both carry the registry and the
rule under construction as they are at that point. -/
inductive Step where
  | ret (r : Result Unit) (rs : Ruleset) (p : PipeRule) : Step
  | next (prev : String) (rs : Ruleset) (p : PipeRule) : Step

/-- The filter branch of `addNode`, up to the recursive call. -/
def addFilter (env : Env) (name : String) (params : List Param) (prev : String)
    (rs : Ruleset) (p : PipeRule) : Step :=
  match newFilter env name params rs with
  | (.panic, rs1) => .ret .panic rs1 p
  | (.error e, rs1) => .ret (.error e) rs1 p
  | (.ok f, rs1) =>
    if prev ≠ "" then
      match subscribe env prev ⟨p.Name, name, .filter f⟩ rs1 with
      | (some e, rs2) => .ret (.error (.subscribe e)) rs2 p
      | (none, rs2) => .next f.GetIdentifier rs2 { p with nodes := p.nodes ++ [.filter f] }
    else
      .next f.GetIdentifier rs1 { p with nodes := p.nodes ++ [.filter f] }

/-- The end of the rule-call branch of `addNode`: dereference the target's last
node and continue with its topic. -/
def leaveRuleCall (r : PipeRule) (rs : Ruleset) (p : PipeRule) : Step :=
  match r.getLastNode with
  | none => .ret .panic rs p
  | some last =>
    match last.asFilter with
    | some lf => .next lf.GetIdentifier rs p
    | none =>
      match last.asFeeder with
      | some lf => .next lf.GetIdentifier rs p
      | none => .ret (.error .unknownNodeType) rs p

/-- The rule-call branch of `addNode`, up to the recursive call. -/
def addRuleCall (env : Env) (name : String) (prev : String) (rs : Ruleset) (p : PipeRule) :
    Step :=
  match getRuleCall rs name with
  | .error e => .ret (.error e) rs p
  | .ok r =>
    if prev ≠ "" then
      if r.HasFeeder then .ret (.error (.feederHere name)) rs p
      else
        match r.getFirstNode with
        | none => .ret .panic rs p
        | some first =>
          match subscribe env prev ⟨p.Name, name, first⟩ rs with
          | (some e, rs1) => .ret (.error (.subscribe e)) rs1 p
          | (none, rs1) => leaveRuleCall r rs1 p
    else
      leaveRuleCall r rs p

/-- The method `addNode`: walk the chain from `node` with `prev` as the upstream
topic, on the rule `p` under construction. -/
def addNode (env : Env) : Node → String → Ruleset → PipeRule → Result Unit × Ruleset × PipeRule
  | .nil, _, rs, p => (.ok (), rs, p)
  | .mk (.mk name params next) _, prev, rs, p =>
    match addFilter env name params prev rs p with
    | .ret r rs1 p1 => (r, rs1, p1)
    | .next topic rs1 p1 => addNode env next topic rs1 p1
  | .mk .nil (.mk name next), prev, rs, p =>
    match addRuleCall env name prev rs p with
    | .ret r rs1 p1 => (r, rs1, p1)
    | .next topic rs1 p1 => addNode env next topic rs1 p1
  | .mk .nil .nil, _, rs, p => (.ok (), rs, p)

/-- The feeder branch of `NewPipeRule`, up to the call of `addNode`: merge the
feeder's parameters into the configuration, call the feeder factory with
`lastId + 1`, increment `lastId` and start the rule with the feeder as its head. -/
def addFeeder (env : Env) (ident : String) (fd : FeederNode) (config : Configuration)
    (rs : Ruleset) : Step :=
  match feederConfig env fd.Name fd.Params config.GetConfig with
  | none => .ret .panic rs ⟨ident, false, []⟩
  | some cfg =>
    match env.NewFeeder (fd.Name ++ "feeder") cfg (wrap32 (rs.lastId + 1)) with
    | .error e =>
      .ret (.error (.factory e))
        { rs with
            calls := rs.calls ++ [⟨true, fd.Name ++ "feeder", cfg, wrap32 (rs.lastId + 1), false⟩] }
        ⟨ident, false, []⟩
    | .ok f =>
      .next f.GetIdentifier
        { rs with
            lastId := wrap32 (rs.lastId + 1),
            calls := rs.calls ++ [⟨true, fd.Name ++ "feeder", cfg, wrap32 (rs.lastId + 1), true⟩] }
        ⟨ident, true, [.feeder f]⟩

/-- The result of `NewPipeRule` from the result of its walk: the rule on success,
nil otherwise. -/
def finish : Result Unit × Ruleset × PipeRule → Result PipeRule × Ruleset
  | (.ok _, rs, p) => (.ok p, rs)
  | (.error e, rs, _) => (.error e, rs)
  | (.panic, rs, _) => (.panic, rs)

/-- The function `NewPipeRule`: compile one rule tree. The rule is returned only
on success; the registry is returned in every case. -/
def NewPipeRule (env : Env) (node : RuleNode) (config : Configuration) (rs : Ruleset) :
    Result PipeRule × Ruleset :=
  match node.Feeder with
  | some fd =>
    match addFeeder env node.Identifier fd config rs with
    | .ret r rs1 p => finish (r, rs1, p)
    | .next topic rs1 p => finish (addNode env fd.Next topic rs1 p)
  | none => finish (addNode env node.First "" rs ⟨node.Identifier, false, []⟩)

/-- The method `AddRule`; `node = none` is the nil `*RuleNode`. -/
def AddRule (env : Env) (node : Option RuleNode) (config : Configuration) (rs : Ruleset) :
    Result Unit × Ruleset :=
  match node with
  | none => (.error .unnamed, rs)
  | some n =>
    if n.Identifier = "" then (.error .unnamed, rs)
    else
      match lookupRule rs.rules n.Identifier with
      | some _ => (.error (.redefined n.Identifier), rs)
      | none =>
        match NewPipeRule env n config rs with
        | (.panic, rs1) => (.panic, rs1)
        | (.error e, rs1) => (.error e, rs1)
        | (.ok pr, rs1) =>
          (.ok (),
            { rs1 with
                rules := storeRule rs1.rules pr.Name pr,
                feedRules :=
                  if pr.HasFeeder then rs1.feedRules ++ [n.Identifier] else rs1.feedRules })

/-! ## Runs of the registry -/

/-- A sequence of `AddRule` calls, one after the other, on the registry `rs`. -/
def run (env : Env) : List (Option RuleNode × Configuration) → Ruleset → Ruleset
  | [], rs => rs
  | (node, config) :: rest, rs => run env rest (AddRule env node config rs).2

/-- The value of `lastId` before the first call and after each call of a run. -/
def lastIds (env : Env) : List (Option RuleNode × Configuration) → Ruleset → List Int
  | [], rs => [rs.lastId]
  | (node, config) :: rest, rs => rs.lastId :: lastIds env rest (AddRule env node config rs).2

/-- The registries that sequences of `AddRule` calls build from the initial one. -/
inductive Reachable (env : Env) : Ruleset → Prop where
  | init : Reachable env RuleSetInstance
  | step (rs : Ruleset) (node : Option RuleNode) (config : Configuration) :
      Reachable env rs → Reachable env (AddRule env node config rs).2

/-- The topic identifiers handed to the factories in the calls that returned a
node, in the order of the calls. -/
def instantiatedIds (rs : Ruleset) : List Int :=
  (rs.calls.filter (fun c => c.ok)).map (fun c => c.id)

/-- What `GetIdentifier()` returns on a stored node. -/
def Subscriber.GetIdentifier : Subscriber → String
  | .filter f => f.GetIdentifier
  | .feeder f => f.GetIdentifier

/-! ## Steps of the walk -/

/-- The registry and the rule a step ends with. -/
def Step.state : Step → Ruleset × PipeRule
  | .ret _ rs p => (rs, p)
  | .next _ rs p => (rs, p)

/-! ## Invariants, and the concrete environment and rules used as instances -/

/-- The number of factory calls that returned a node. -/
def numInstantiated (rs : Ruleset) : Nat :=
  (instantiatedIds rs).length

/-- The identifier the `i`-th instantiation (counted from 0) is handed when the
counter started at 0. -/
def nthId (i : Nat) : Int :=
  wrap32 ((i : Int) + 1)

/-- The allocation invariant: after `n` instantiations `lastId` is `n` reduced to
`int32`, and the `i`-th instantiated node was handed `i` reduced to `int32`. -/
def Counted (rs : Ruleset) : Prop :=
  rs.lastId = wrap32 (numInstantiated rs) ∧
  instantiatedIds rs = (List.range (numInstantiated rs)).map nthId

/-- The log of factory calls only grows. -/
def CallsGrow (a b : Ruleset) : Prop :=
  ∃ cs, b.calls = a.calls ++ cs

/-- Everything the walk keeps or extends, in one relation between the state
before and the state after: the rules map and `feedRules` are untouched, the
rule under construction keeps its name and flag and gains only filters, the bus
and the call log only grow, and the allocation invariant is kept. -/
def Walks (a b : Ruleset × PipeRule) : Prop :=
  b.1.rules = a.1.rules ∧ b.1.feedRules = a.1.feedRules ∧
  b.2.Name = a.2.Name ∧ b.2.HasFeeder = a.2.HasFeeder ∧
  (∃ fs : List Filter, b.2.nodes = a.2.nodes ++ fs.map Subscriber.filter) ∧
  (∃ subs, b.1.bus = a.1.bus ++ subs) ∧
  CallsGrow a.1 b.1 ∧ (Counted a.1 → Counted b.1)

/-- The shape of the nodes of a compiled rule: a feeder at the head exactly when
the flag is set, and filters everywhere else. -/
def WellShaped (pr : PipeRule) : Prop :=
  (pr.HasFeeder = true → ∃ f fs, pr.nodes = Subscriber.feeder f :: List.map Subscriber.filter fs) ∧
  (pr.HasFeeder = false → ∃ fs, pr.nodes = List.map Subscriber.filter fs)

/-- Every registered rule of a registry is well shaped and is stored under its
own name. -/
def Registered (rs : Ruleset) : Prop :=
  ∀ name pr, lookupRule rs.rules name = some pr → pr.Name = name ∧ WellShaped pr

/-- An environment in which every factory call and every subscription succeeds;
a node's topic is "topic:" followed by its kind name. -/
def demoEnv : Env where
  FormatFloat := fun x => if x.bits = 4617315517961601024 then "5E+00" else "NaN"
  NewFilter := fun kind _ id => .ok ⟨"topic:" ++ kind, id.toNat⟩
  NewFeeder := fun kind _ id => .ok ⟨"topic:" ++ kind, id.toNat⟩
  SubscribeAsync := fun _ _ _ => none

/-- The empty configuration. -/
def noConfig : Configuration := ⟨[]⟩

/-- A chain node that holds the filter `name` with parameters `params`. -/
def filterNode (name : String) (params : List Param) (next : Node) : Node :=
  .mk (.mk name params next) .nil

/-- A chain node that holds a call of the rule `name`. -/
def callNode (name : String) (next : Node) : Node :=
  .mk .nil (.mk name next)

/-- The rule `r`: filter `x`, then a call of the rule `missing`. -/
def danglingRule : RuleNode :=
  ⟨"r", none, filterNode "x" [] (callNode "missing" .nil)⟩

/-- A linear chain of filter nodes, from the list of their names and parameters. -/
def filterChain : List (String × List Param) → Node
  | [] => .nil
  | (name, params) :: rest => filterNode name params (filterChain rest)

/-- The subscriptions the walk of a rule makes along a chain of filters: each
filter is subscribed to the topic before it, unless that topic is empty. -/
def chainSubs (rule : String) : String → List ((String × List Param) × Filter) → Bus
  | _, [] => []
  | prev, (d, f) :: rest =>
    (if prev ≠ "" then [⟨prev, ⟨rule, d.1, .filter f⟩⟩] else []) ++
      chainSubs rule f.GetIdentifier rest

/-- The input contract on parameters: a value has its `Number` or its `String`. -/
def Param.wellFormed (par : Param) : Prop :=
  par.Value.Number.isSome = true ∨ par.Value.String.isSome = true

/-- The number 5 as a `float64`. -/
def five : Float64 := ⟨4617315517961601024⟩

/-- Rule `A`: feeder `F`, then filter `X` with `threshold = 5`. -/
def ruleA : RuleNode :=
  ⟨"A", some ⟨"F", [], filterNode "X" [⟨"threshold", ⟨some five, none⟩⟩] .nil⟩, .nil⟩

/-- Rule `B`: a call of rule `A`, then filter `Y`. -/
def ruleB : RuleNode :=
  ⟨"B", none, callNode "A" (filterNode "Y" [] .nil)⟩

/-- Rule `C`: filter `Z`, then a call of rule `B`. -/
def ruleC : RuleNode :=
  ⟨"C", none, filterNode "Z" [] (callNode "B" .nil)⟩

/-- Rule `P`: the single filter `X`. -/
def ruleP : RuleNode :=
  ⟨"P", none, filterNode "X" [] .nil⟩

/-- Rule `Q`: nothing but a call of rule `P`. -/
def ruleQ : RuleNode :=
  ⟨"Q", none, callNode "P" .nil⟩

/-- Rule `R`: a call of rule `Q`, then filter `Y`. -/
def ruleR : RuleNode :=
  ⟨"R", none, callNode "Q" (filterNode "Y" [] .nil)⟩

/-- The walk from this node reaches a call of a rule that is not in `rules`,
unless an earlier node ends the walk. It follows the chain the way `addNode`
does: through `Filter.Next` when the node has a filter, through `RuleCall.Next`
otherwise. -/
def callsUnknown (rules : List (String × PipeRule)) : Node → Prop
  | .nil => False
  | .mk (.mk _ _ next) _ => callsUnknown rules next
  | .mk .nil (.mk name next) => lookupRule rules name = none ∨ callsUnknown rules next
  | .mk .nil .nil => False

/-- The chain of a rule tree: the feeder's `Next` when it has a feeder, `First`
otherwise. -/
def RuleNode.chain (node : RuleNode) : Node :=
  match node.Feeder with
  | some fd => fd.Next
  | none => node.First

/-- Rule `E`: filter `X`, then a node with neither a filter nor a rule call. -/
def ruleE : RuleNode :=
  ⟨"E", none, filterNode "X" [] (.mk .nil .nil)⟩

/-! ## Counters, run-time handlers, the format filter, and walk records -/

/-- The value of an `int32` counter after `k` increments. -/
def bump : Int → Nat → Int
  | x, 0 => x
  | x, k + 1 => wrap32 (bump x k + 1)

/-- The counter has moved by `k` increments and `k` more nodes are instantiated. -/
def Bumps (a b : Ruleset) : Prop :=
  ∃ k : Nat, b.lastId = bump a.lastId k ∧ numInstantiated b = numInstantiated a + k

/-- A `com.DataMessage`; the handlers only pass it on. -/
structure DataMessage where
  text : String
deriving DecidableEq, Repr

/-- The run-time behaviour of the filters: the call `f.DoFilter(&msg)` returns a
boolean and an error (`none` is the nil error) and leaves the message as the
filter rewrote it. -/
structure Behaviour where
  DoFilter : Filter → DataMessage → Bool × Option String × DataMessage

/-- Modelled from the spec: `Propagate` is a method of the node types, which are
not part of the file; by section 4.3 it publishes the message on the node's own
topic. The result is the list of publications, each a topic with a message. -/
def Subscriber.Propagate (s : Subscriber) (msg : DataMessage) : List (String × DataMessage) :=
  [(s.GetIdentifier, msg)]

/-- The body of the handler closures `addNode` passes to `SubscribeAsync`, run on
one delivered message: the result is what the handler publishes. The closure of
the filter branch calls `f.DoFilter` on its filter; the closure of the rule-call
branch calls `first.(filter.Filter).DoFilter`, a type assertion that panics when
the node is not a filter. Both propagate when the boolean is true and discard the
error value. -/
def Handler.run (b : Behaviour) (h : Handler) (msg : DataMessage) :
    Result (List (String × DataMessage)) :=
  match h.target.asFilter with
  | none => .panic
  | some f =>
    match b.DoFilter f msg with
    | (true, _, msg1) => .ok (h.target.Propagate msg1)
    | (false, _, _) => .ok []

/-- A behaviour whose `DoFilter` reports a match together with an error. -/
def matchWithError : Behaviour where
  DoFilter := fun _ msg => (true, some "failed", msg)

/-- Every subscription of the bus has a filter as the target of its handler. -/
def FilterTargets (bus : Bus) : Prop :=
  ∀ s ∈ bus, ∃ f, s.handler.target = Subscriber.filter f

/-- The walk keeps the rules map, and with well-shaped registered rules it keeps
the handlers' targets filters. -/
def KeepsTargets (a b : Ruleset × PipeRule) : Prop :=
  b.1.rules = a.1.rules ∧ (Registered a.1 → FilterTargets a.1.bus → FilterTargets b.1.bus)

/-- A parsed template, `*text.Template` or `*html.Template`. -/
structure Template where
  html : Bool
  source : String
deriving DecidableEq, Repr

/-- The `Format` filter. `template = none` is the nil interface value. -/
structure Format where
  template : Option Template
  templateType : String
  params : StrMap
deriving DecidableEq, Repr

/-- What the constructor of the format filter calls outside the file. -/
structure FormatEnv where
  /-- The call `text.New("formatFilterTemplate").Parse(v)`. -/
  parseText : String → Except String Template
  /-- The call `html.New("formatFilterTemplate").Parse(v)`. -/
  parseHtml : String → Except String Template
  /-- The call `filepath.Join(dir, file)`. -/
  join : String → String → String
  /-- The call `ioutil.ReadFile(path)`, the content as a string. -/
  readFile : String → Except String String

/-- The two parse branches: the parser is chosen by `templateType`. -/
def parseTemplate (env : FormatEnv) (templateType : String) (v : String) :
    Except String Template :=
  if templateType = "html" then env.parseHtml v else env.parseText v

/-- The path of the template file: under `general.templates_path` if that key is
set, otherwise under `general.rules_path`, otherwise an error. -/
def templatePath (env : FormatEnv) (p : StrMap) (file : String) : Except String String :=
  match StrMap.get? p "general.templates_path" with
  | none =>
    match StrMap.get? p "general.rules_path" with
    | none => .error "NewJsFilter: rules_path or js_path configs not found"
    | some r => .ok (env.join r file)
  | some v => .ok (env.join v file)

/-- The function `NewFormatFilter`: the filter, or the error it returns. -/
def NewFormatFilter (env : FormatEnv) (p : StrMap) : Except String Format :=
  let templateType :=
    match StrMap.get? p "type" with
    | some v => if v = "html" then "html" else "text"
    | none => "text"
  let fromKey : Except String (Option Template) :=
    match StrMap.get? p "template" with
    | some v =>
      match parseTemplate env templateType v with
      | .error e => .error e
      | .ok t => .ok (some t)
    | none => .ok none
  match fromKey with
  | .error e => .error e
  | .ok t1 =>
    match StrMap.get? p "file" with
    | some v =>
      match templatePath env p v with
      | .error e => .error e
      | .ok fpath =>
        match env.readFile fpath with
        | .error e => .error e
        | .ok content =>
          match parseTemplate env templateType content with
          | .error e => .error e
          | .ok t => .ok ⟨some t, templateType, p⟩
    | none => .ok ⟨t1, templateType, p⟩

/-- A format environment in which parsing succeeds and no file can be read. -/
def demoFormatEnv : FormatEnv where
  parseText := fun v => .ok ⟨false, v⟩
  parseHtml := fun v => .ok ⟨true, v⟩
  join := fun d x => d ++ "/" ++ x
  readFile := fun _ => .error "no such file"

/-- The names of the rules called along the walk of a chain, in the order of the
walk. The walk goes through `Filter.Next` when the node has a filter and through
`RuleCall.Next` otherwise, as `addNode` does. -/
def callees : Node → List String
  | .nil => []
  | .mk (.mk _ _ next) _ => callees next
  | .mk .nil (.mk name next) => name :: callees next
  | .mk .nil .nil => []

/-- Rule `S`: a call of rule `Q`, then a call of rule `S` itself. -/
def ruleS : RuleNode :=
  ⟨"S", none, callNode "Q" (callNode "S" .nil)⟩

/-- Rule `T`: filter `Z`, then a call of rule `Q`. -/
def ruleT : RuleNode :=
  ⟨"T", none, filterNode "Z" [] (callNode "Q" .nil)⟩

/-- What a successful walk did at one node: it appended the filter `f`, built
for the filter node `name`, to the nodes of the rule (`own`), or it resolved the
call of the rule `name` to the registered rule `T` (`call`). Both carry the
upstream topic `up` the node was compiled with. -/
inductive Wire where
  | own (name : String) (f : Filter) (up : String) : Wire
  | call (name : String) (T : PipeRule) (up : String) : Wire

/-- The upstream topic the node was compiled with. -/
def Wire.up : Wire → String
  | .own _ _ up => up
  | .call _ _ up => up

/-- The topic the walk goes on with after the node: the topic of the new filter,
or the topic of the last node of the called rule. -/
def Wire.topic : Wire → String
  | .own _ f _ => f.GetIdentifier
  | .call _ T _ =>
    match T.getLastNode with
    | some last => last.GetIdentifier
    | none => ""

/-- The subscription `addNode` makes at the node for the rule `rule`: none when
the upstream topic is empty; otherwise one on the upstream topic, whose handler
targets the new filter, or the first node of the called rule. -/
def Wire.sub (rule : String) : Wire → Option Subscription
  | .own name f up => if up ≠ "" then some ⟨up, ⟨rule, name, .filter f⟩⟩ else none
  | .call name T up =>
    if up ≠ "" then
      match T.getFirstNode with
      | some first => some ⟨up, ⟨rule, name, first⟩⟩
      | none => none
    else none

/-- The nodes a walk appended to the rule. -/
def wireNodes : List Wire → List Subscriber
  | [] => []
  | .own _ f _ :: rest => .filter f :: wireNodes rest
  | .call _ _ _ :: rest => wireNodes rest

/-- The subscriptions a walk of the rule `rule` added to the bus, oldest first. -/
def wireSubs (rule : String) : List Wire → List Subscription
  | [] => []
  | w :: rest => (w.sub rule).toList ++ wireSubs rule rest

/-- The upstream topic of the first entry is `prev`, and the upstream topic of
every later entry is the topic the entry before it left. -/
def Chained : String → List Wire → Prop
  | _, [] => True
  | prev, w :: rest => w.up = prev ∧ Chained w.topic rest

/-- The record follows the chain node by node, the way `addNode` walks it: one
`own` entry with the filter's name for a filter node, one `call` entry with the
rule that `rules` holds under the called name for a rule call, and nothing after
the end of the chain or a node with neither. -/
def Follows (rules : List (String × PipeRule)) : Node → List Wire → Prop
  | .nil, ws => ws = []
  | .mk (.mk name _ next) _, ws =>
    ∃ f up rest, ws = .own name f up :: rest ∧ Follows rules next rest
  | .mk .nil (.mk name next), ws =>
    ∃ T up rest, lookupRule rules name = some T ∧ ws = .call name T up :: rest ∧
      Follows rules next rest
  | .mk .nil .nil, ws => ws = []

/-- The contract of the factories on topics: a node's topic is not the empty
string, which the compiler uses for "no upstream". -/
def TopicContract (env : Env) : Prop :=
  (∀ kind m id f, env.NewFilter kind m id = .ok f → f.GetIdentifier ≠ "") ∧
  (∀ kind m id f, env.NewFeeder kind m id = .ok f → f.GetIdentifier ≠ "")

/-- Every node of every registered rule has a non-empty topic. -/
def Topical (rs : Ruleset) : Prop :=
  ∀ name pr, lookupRule rs.rules name = some pr → ∀ n ∈ pr.nodes, n.GetIdentifier ≠ ""

/-! ## The walk, one step at a time -/

/-- A relation between the state before and the state after that is reflexive,
transitive and holds across the filter step and the rule-call step, holds across
the whole walk. -/
theorem addNode_rel (env : Env) (R : Ruleset × PipeRule → Ruleset × PipeRule → Prop)
    (hrefl : ∀ a, R a a) (htrans : ∀ a b c, R a b → R b c → R a c)
    (hF : ∀ name params prev rs p, R (rs, p) (addFilter env name params prev rs p).state)
    (hC : ∀ name prev rs p, R (rs, p) (addRuleCall env name prev rs p).state) :
    ∀ (node : Node) (prev : String) (rs : Ruleset) (p : PipeRule),
      R (rs, p) (addNode env node prev rs p).2 := by
  intro node prev rs p
  induction node, prev, rs, p using addNode.induct env with
  | case1 prev rs p => simpa [addNode] using hrefl _
  | case2 name params next rc prev rs p r rs1 p1 h =>
    have := hF name params prev rs p
    simp only [addNode, h, Step.state] at this ⊢
    exact this
  | case3 name params next rc prev rs p topic rs1 p1 h ih =>
    have := hF name params prev rs p
    simp only [addNode, h, Step.state] at this ⊢
    exact htrans _ _ _ this ih
  | case4 name next prev rs p r rs1 p1 h =>
    have := hC name prev rs p
    simp only [addNode, h, Step.state] at this ⊢
    exact this
  | case5 name next prev rs p topic rs1 p1 h ih =>
    have := hC name prev rs p
    simp only [addNode, h, Step.state] at this ⊢
    exact htrans _ _ _ this ih
  | case6 prev rs p => simpa [addNode] using hrefl _

/-! ## Identifier allocation -/

theorem wrap32_succ (x : Int) : wrap32 (wrap32 x + 1) = wrap32 (x + 1) := by
  unfold wrap32
  omega

theorem wrap32_of_small (x : Int) (h0 : 0 ≤ x) (h1 : x < 2147483648) : wrap32 x = x := by
  unfold wrap32
  omega

theorem counted_congr {rs rs1 : Ruleset} (h : Counted rs) (hl : rs1.lastId = rs.lastId)
    (hc : rs1.calls = rs.calls) : Counted rs1 := by
  unfold Counted numInstantiated instantiatedIds at *
  rw [hl, hc]
  exact h

theorem counted_failed {rs rs1 : Ruleset} (h : Counted rs) (c : FactoryCall) (hok : c.ok = false)
    (hl : rs1.lastId = rs.lastId) (hc : rs1.calls = rs.calls ++ [c]) : Counted rs1 := by
  unfold Counted numInstantiated instantiatedIds at *
  rw [hl, hc]
  simpa [List.filter_append, hok] using h

theorem counted_pushed {rs rs1 : Ruleset} (h : Counted rs) (c : FactoryCall) (hok : c.ok = true)
    (hid : c.id = wrap32 (rs.lastId + 1))
    (hl : rs1.lastId = wrap32 (rs.lastId + 1)) (hc : rs1.calls = rs.calls ++ [c]) :
    Counted rs1 := by
  unfold Counted numInstantiated instantiatedIds at *
  obtain ⟨h1, h2⟩ := h
  have hlen : (List.map (fun c => c.id) (List.filter (fun c => c.ok) (rs.calls ++ [c]))).length
      = (List.map (fun c => c.id) (List.filter (fun c => c.ok) rs.calls)).length + 1 := by
    simp [List.filter_append, hok]
  rw [hl, hc, hlen]
  constructor
  · rw [h1, wrap32_succ]
    push_cast
    rfl
  · rw [List.range_succ, List.map_append, ← h2]
    simp only [List.filter_append, List.map_append, hok, List.filter_cons_of_pos,
      List.filter_nil, List.map_cons, List.map_nil, hid, nthId]
    rw [h1, wrap32_succ]

theorem counted_init : Counted RuleSetInstance := by
  unfold Counted numInstantiated instantiatedIds RuleSetInstance
  simp [wrap32]

theorem callsGrow_refl (a : Ruleset) : CallsGrow a a := ⟨[], by simp⟩

theorem callsGrow_trans {a b c : Ruleset} (h1 : CallsGrow a b) (h2 : CallsGrow b c) :
    CallsGrow a c := by
  obtain ⟨x, hx⟩ := h1
  obtain ⟨y, hy⟩ := h2
  exact ⟨x ++ y, by rw [hy, hx, List.append_assoc]⟩

theorem callsGrow_numInstantiated_le {a b : Ruleset} (h : CallsGrow a b) :
    numInstantiated a ≤ numInstantiated b := by
  obtain ⟨cs, hcs⟩ := h
  unfold numInstantiated instantiatedIds
  rw [hcs]
  simp [List.filter_append]

theorem walks_refl (a : Ruleset × PipeRule) : Walks a a :=
  ⟨rfl, rfl, rfl, rfl, ⟨[], by simp⟩, ⟨[], by simp⟩, callsGrow_refl _, id⟩

theorem walks_trans (a b c : Ruleset × PipeRule) (h1 : Walks a b) (h2 : Walks b c) :
    Walks a c := by
  obtain ⟨a1, a2, a3, a4, ⟨fs, a5⟩, ⟨s1, a6⟩, a7, a8⟩ := h1
  obtain ⟨b1, b2, b3, b4, ⟨gs, b5⟩, ⟨s2, b6⟩, b7, b8⟩ := h2
  refine ⟨b1.trans a1, b2.trans a2, b3.trans a3, b4.trans a4, ⟨fs ++ gs, ?_⟩, ⟨s1 ++ s2, ?_⟩,
    callsGrow_trans a7 b7, fun h => b8 (a8 h)⟩
  · rw [b5, a5, List.map_append, List.append_assoc]
  · rw [b6, a6, List.append_assoc]

theorem newFilter_spec (env : Env) (name : String) (params : List Param) (rs : Ruleset) :
    (newFilter env name params rs = (.panic, rs)) ∨
    (∃ e c, c.ok = false ∧
      newFilter env name params rs = (.error (.factory e), { rs with calls := rs.calls ++ [c] })) ∨
    (∃ f m c, c.ok = true ∧ c.id = wrap32 (rs.lastId + 1) ∧
      filterParams env params [] = some m ∧
      env.NewFilter (name ++ "filter") m (wrap32 (rs.lastId + 1)) = .ok f ∧
      c = ⟨false, name ++ "filter", m, wrap32 (rs.lastId + 1), true⟩ ∧
      newFilter env name params rs =
        (.ok f, { rs with lastId := wrap32 (rs.lastId + 1), calls := rs.calls ++ [c] })) := by
  cases hp : filterParams env params [] with
  | none => left; simp only [newFilter, hp]
  | some m =>
    cases hf : env.NewFilter (name ++ "filter") m (wrap32 (rs.lastId + 1)) with
    | error e =>
      right; left
      exact ⟨e, ⟨false, name ++ "filter", m, wrap32 (rs.lastId + 1), false⟩, rfl,
        by simp only [newFilter, hp, hf]⟩
    | ok f =>
      right; right
      exact ⟨f, m, _, rfl, rfl, rfl, hf, rfl, by simp only [newFilter, hp, hf]⟩

theorem subscribe_spec (env : Env) (topic : String) (h : Handler) (rs : Ruleset) :
    (∃ e, env.SubscribeAsync rs.bus topic h = some e ∧ subscribe env topic h rs = (some e, rs)) ∨
    (env.SubscribeAsync rs.bus topic h = none ∧
      subscribe env topic h rs = (none, { rs with bus := rs.bus ++ [⟨topic, h⟩] })) := by
  cases hs : env.SubscribeAsync rs.bus topic h with
  | none => right; exact ⟨rfl, by simp only [subscribe, hs]⟩
  | some e => left; exact ⟨e, rfl, by simp only [subscribe, hs]⟩

theorem addFilter_walks (env : Env) (name : String) (params : List Param) (prev : String)
    (rs : Ruleset) (p : PipeRule) : Walks (rs, p) (addFilter env name params prev rs p).state := by
  unfold addFilter
  rcases newFilter_spec env name params rs with h | ⟨e, c, hc, h⟩ | ⟨f, m, c, hc, hid, -, -, -, h⟩
  · rw [h]; exact walks_refl _
  · rw [h]
    exact ⟨rfl, rfl, rfl, rfl, ⟨[], by simp [Step.state]⟩, ⟨[], by simp [Step.state]⟩,
      ⟨[c], rfl⟩, fun hk => counted_failed hk c hc rfl rfl⟩
  · rw [h]
    generalize hrs1 : ({ rs with lastId := wrap32 (rs.lastId + 1), calls := rs.calls ++ [c] } :
      Ruleset) = rs1
    have e1 : rs1.rules = rs.rules := by rw [← hrs1]
    have e2 : rs1.feedRules = rs.feedRules := by rw [← hrs1]
    have e3 : rs1.bus = rs.bus := by rw [← hrs1]
    have e4 : rs1.calls = rs.calls ++ [c] := by rw [← hrs1]
    have e5 : rs1.lastId = wrap32 (rs.lastId + 1) := by rw [← hrs1]
    have hk : Counted rs → Counted rs1 := fun hk => counted_pushed hk c hc hid e5 e4
    by_cases hprev : prev = ""
    · simp only [hprev, ne_eq, not_true_eq_false, if_false, Step.state]
      exact ⟨e1, e2, rfl, rfl, ⟨[f], by simp⟩, ⟨[], by simp [e3]⟩, ⟨[c], e4⟩, hk⟩
    · simp only [ne_eq, hprev, not_false_eq_true, if_true]
      rcases subscribe_spec env prev ⟨p.Name, name, .filter f⟩ rs1 with ⟨e, -, hs⟩ | ⟨-, hs⟩
      · rw [hs]
        exact ⟨e1, e2, rfl, rfl, ⟨[], by simp [Step.state]⟩, ⟨[], by simp [Step.state, e3]⟩,
          ⟨[c], e4⟩, hk⟩
      · rw [hs]
        exact ⟨e1, e2, rfl, rfl, ⟨[f], by simp [Step.state]⟩,
          ⟨[⟨prev, ⟨p.Name, name, .filter f⟩⟩], by simp [Step.state, e3]⟩,
          ⟨[c], e4⟩, fun h0 => counted_congr (hk h0) rfl rfl⟩

theorem leaveRuleCall_state (r : PipeRule) (rs : Ruleset) (p : PipeRule) :
    (leaveRuleCall r rs p).state = (rs, p) := by
  unfold leaveRuleCall
  cases r.getLastNode with
  | none => rfl
  | some last => cases last <;> rfl

theorem addRuleCall_walks (env : Env) (name : String) (prev : String)
    (rs : Ruleset) (p : PipeRule) : Walks (rs, p) (addRuleCall env name prev rs p).state := by
  unfold addRuleCall
  cases getRuleCall rs name with
  | error e => exact walks_refl _
  | ok r =>
    by_cases hprev : prev = ""
    · simp only [hprev, ne_eq, not_true_eq_false, if_false, leaveRuleCall_state]
      exact walks_refl _
    · simp only [ne_eq, hprev, not_false_eq_true, if_true]
      cases r.HasFeeder with
      | true => exact walks_refl _
      | false =>
        simp only [Bool.false_eq_true, if_false]
        cases r.getFirstNode with
        | none => exact walks_refl _
        | some first =>
          simp only
          rcases subscribe_spec env prev ⟨p.Name, name, first⟩ rs with ⟨e, -, hs⟩ | ⟨-, hs⟩
          · rw [hs]; exact walks_refl _
          · rw [hs]
            simp only [leaveRuleCall_state]
            exact ⟨rfl, rfl, rfl, rfl, ⟨[], by simp⟩, ⟨[_], rfl⟩, callsGrow_refl _,
              fun h0 => counted_congr h0 rfl rfl⟩

theorem addNode_walks (env : Env) (node : Node) (prev : String) (rs : Ruleset) (p : PipeRule) :
    Walks (rs, p) (addNode env node prev rs p).2 :=
  addNode_rel env Walks walks_refl walks_trans (addFilter_walks env) (addRuleCall_walks env)
    node prev rs p

/-! ## Compiling and registering one rule -/

theorem finish_snd (x : Result Unit × Ruleset × PipeRule) : (finish x).2 = x.2.1 := by
  obtain ⟨r, rs, p⟩ := x
  cases r <;> rfl

theorem finish_ok (x : Result Unit × Ruleset × PipeRule) (pr : PipeRule)
    (h : (finish x).1 = .ok pr) : pr = x.2.2 ∧ x.1 = .ok () := by
  obtain ⟨r, rs, p⟩ := x
  cases r with
  | ok u => simp only [finish, Result.ok.injEq] at h; exact ⟨h.symm, rfl⟩
  | error e => simp [finish] at h
  | panic => simp [finish] at h

theorem addFeeder_spec (env : Env) (ident : String) (fd : FeederNode) (config : Configuration)
    (rs : Ruleset) :
    (addFeeder env ident fd config rs = .ret .panic rs ⟨ident, false, []⟩) ∨
    (∃ e c, c.ok = false ∧ addFeeder env ident fd config rs =
      .ret (.error (.factory e)) { rs with calls := rs.calls ++ [c] } ⟨ident, false, []⟩) ∨
    (∃ f cfg c, c.ok = true ∧ c.id = wrap32 (rs.lastId + 1) ∧
      feederConfig env fd.Name fd.Params config.GetConfig = some cfg ∧
      env.NewFeeder (fd.Name ++ "feeder") cfg (wrap32 (rs.lastId + 1)) = .ok f ∧
      c = ⟨true, fd.Name ++ "feeder", cfg, wrap32 (rs.lastId + 1), true⟩ ∧
      addFeeder env ident fd config rs =
        .next f.GetIdentifier
          { rs with lastId := wrap32 (rs.lastId + 1), calls := rs.calls ++ [c] }
          ⟨ident, true, [.feeder f]⟩) := by
  cases hp : feederConfig env fd.Name fd.Params config.GetConfig with
  | none => left; simp only [addFeeder, hp]
  | some cfg =>
    cases hf : env.NewFeeder (fd.Name ++ "feeder") cfg (wrap32 (rs.lastId + 1)) with
    | error e =>
      right; left
      exact ⟨e, ⟨true, fd.Name ++ "feeder", cfg, wrap32 (rs.lastId + 1), false⟩, rfl,
        by simp only [addFeeder, hp, hf]⟩
    | ok f =>
      right; right
      exact ⟨f, cfg, _, rfl, rfl, rfl, hf, rfl, by simp only [addFeeder, hp, hf]⟩

/-- What `NewPipeRule` keeps and what it returns: it never touches the rules map
or `feedRules`, the bus and the call log only grow, the allocation invariant is
kept, and a returned rule carries the tree's name, has its flag set exactly when
the tree declares a feeder, and is well shaped. -/
theorem NewPipeRule_spec (env : Env) (node : RuleNode) (config : Configuration) (rs : Ruleset) :
    (NewPipeRule env node config rs).2.rules = rs.rules ∧
    (NewPipeRule env node config rs).2.feedRules = rs.feedRules ∧
    (∃ subs, (NewPipeRule env node config rs).2.bus = rs.bus ++ subs) ∧
    CallsGrow rs (NewPipeRule env node config rs).2 ∧
    (Counted rs → Counted (NewPipeRule env node config rs).2) ∧
    (∀ pr, (NewPipeRule env node config rs).1 = .ok pr →
      pr.Name = node.Identifier ∧ pr.HasFeeder = node.Feeder.isSome ∧ WellShaped pr) := by
  cases hfd : node.Feeder with
  | none =>
    have hw := addNode_walks env node.First "" rs ⟨node.Identifier, false, []⟩
    obtain ⟨w1, w2, w3, w4, ⟨fs, w5⟩, w6, w7, w8⟩ := hw
    simp only [NewPipeRule, hfd, finish_snd]
    refine ⟨w1, w2, w6, w7, w8, ?_⟩
    intro pr hpr
    obtain ⟨rfl, -⟩ := finish_ok _ pr hpr
    refine ⟨w3, w4, ?_, ?_⟩
    · intro h; rw [w4] at h; simp at h
    · intro _; exact ⟨fs, by simpa using w5⟩
  | some fd =>
    simp only [NewPipeRule, hfd]
    rcases addFeeder_spec env node.Identifier fd config rs with
      h | ⟨e, c, hc, h⟩ | ⟨f, cfg, c, hc, hid, -, -, -, h⟩
    · rw [h]
      exact ⟨rfl, rfl, ⟨[], by simp [finish]⟩, callsGrow_refl _, id,
        fun pr hpr => by simp [finish] at hpr⟩
    · rw [h]
      exact ⟨rfl, rfl, ⟨[], by simp [finish]⟩, ⟨[c], rfl⟩, fun hk => counted_failed hk c hc rfl rfl,
        fun pr hpr => by simp [finish] at hpr⟩
    · rw [h]
      generalize hrs1 : ({ rs with lastId := wrap32 (rs.lastId + 1), calls := rs.calls ++ [c] } :
        Ruleset) = rs1
      have e1 : rs1.rules = rs.rules := by rw [← hrs1]
      have e2 : rs1.feedRules = rs.feedRules := by rw [← hrs1]
      have e3 : rs1.bus = rs.bus := by rw [← hrs1]
      have e4 : rs1.calls = rs.calls ++ [c] := by rw [← hrs1]
      have e5 : rs1.lastId = wrap32 (rs.lastId + 1) := by rw [← hrs1]
      have hw := addNode_walks env fd.Next f.GetIdentifier rs1 ⟨node.Identifier, true, [.feeder f]⟩
      obtain ⟨w1, w2, w3, w4, ⟨fs, w5⟩, ⟨subs, w6⟩, w7, w8⟩ := hw
      simp only [finish_snd]
      refine ⟨w1.trans e1, w2.trans e2, ⟨subs, by rw [w6, e3]⟩,
        callsGrow_trans ⟨[c], e4⟩ w7, fun hk => w8 (counted_pushed hk c hc hid e5 e4), ?_⟩
      intro pr hpr
      obtain ⟨rfl, -⟩ := finish_ok _ pr hpr
      refine ⟨w3, by simpa using w4, ?_, ?_⟩
      · intro _; exact ⟨f, fs, by simpa using w5⟩
      · intro h; rw [w4] at h; simp at h

theorem lookupRule_storeRule (m : List (String × PipeRule)) (k : String) (v : PipeRule)
    (k1 : String) :
    lookupRule (storeRule m k v) k1 = if k = k1 then some v else lookupRule m k1 := by
  induction m with
  | nil => simp [storeRule, lookupRule]
  | cons hd tl ih =>
    obtain ⟨k0, v0⟩ := hd
    by_cases h0 : k0 = k
    · subst h0
      by_cases h1 : k0 = k1 <;> simp [storeRule, lookupRule, h1]
    · by_cases h1 : k0 = k1
      · subst h1
        have : ¬ k = k0 := fun h => h0 h.symm
        simp [storeRule, lookupRule, h0, this]
      · simp [storeRule, lookupRule, h0, h1, ih]

/-- What every call of `AddRule` keeps: the bus and the call log only grow and
the allocation invariant is kept. -/
theorem AddRule_keeps (env : Env) (node : Option RuleNode) (config : Configuration)
    (rs : Ruleset) :
    CallsGrow rs (AddRule env node config rs).2 ∧
    (Counted rs → Counted (AddRule env node config rs).2) := by
  cases node with
  | none => exact ⟨callsGrow_refl _, id⟩
  | some n =>
    simp only [AddRule]
    by_cases hid : n.Identifier = ""
    · simp only [hid, if_true]; exact ⟨callsGrow_refl _, id⟩
    · simp only [hid, if_false]
      cases hl : lookupRule rs.rules n.Identifier with
      | some pr => exact ⟨callsGrow_refl _, id⟩
      | none =>
        obtain ⟨-, -, -, h4, h5, -⟩ := NewPipeRule_spec env n config rs
        rcases hn : NewPipeRule env n config rs with ⟨r, rs1⟩
        rw [hn] at h4 h5
        cases r with
        | panic => exact ⟨h4, h5⟩
        | error e => exact ⟨h4, h5⟩
        | ok pr =>
          simp only
          exact ⟨⟨h4.choose, h4.choose_spec⟩, fun hk => counted_congr (h5 hk) rfl rfl⟩

theorem AddRule_registered (env : Env) (node : Option RuleNode) (config : Configuration)
    (rs : Ruleset) (h : Registered rs) : Registered (AddRule env node config rs).2 := by
  cases node with
  | none => exact h
  | some n =>
    simp only [AddRule]
    by_cases hid : n.Identifier = ""
    · simp only [hid, if_true]; exact h
    · simp only [hid, if_false]
      cases hl : lookupRule rs.rules n.Identifier with
      | some pr => exact h
      | none =>
        obtain ⟨h1, -, -, -, -, h6⟩ := NewPipeRule_spec env n config rs
        rcases hn : NewPipeRule env n config rs with ⟨r, rs1⟩
        rw [hn] at h1 h6
        have hreg : Registered rs1 := by
          intro name pr hpr
          simp only at h1
          rw [h1] at hpr
          exact h name pr hpr
        cases r with
        | panic => exact hreg
        | error e => exact hreg
        | ok pr =>
          simp only
          intro name q hq
          simp only [lookupRule_storeRule] at hq
          by_cases hk : pr.Name = name
          · simp only [hk, if_true, Option.some.injEq] at hq
            subst hq
            exact ⟨hk, (h6 pr rfl).2.2⟩
          · simp only [hk, if_false] at hq
            exact hreg name q hq

theorem reachable_counted {env : Env} {rs : Ruleset} (h : Reachable env rs) : Counted rs := by
  induction h with
  | init => exact counted_init
  | step rs node config _ ih => exact (AddRule_keeps env node config rs).2 ih

theorem reachable_registered {env : Env} {rs : Ruleset} (h : Reachable env rs) :
    Registered rs := by
  induction h with
  | init => intro name pr hpr; simp [RuleSetInstance, lookupRule] at hpr
  | step rs node config _ ih => exact AddRule_registered env node config rs ih

theorem reachable_run {env : Env} (inputs : List (Option RuleNode × Configuration))
    {rs : Ruleset} (h : Reachable env rs) : Reachable env (run env inputs rs) := by
  induction inputs generalizing rs with
  | nil => exact h
  | cons hd tl ih =>
    obtain ⟨node, config⟩ := hd
    exact ih (Reachable.step rs node config h)

/-! ## C1: a duplicate name is rejected without any effect -/

/-- C1: for every registry and every rule tree whose Identifier is already a key
of the rules map, AddRule returns an error and the registry after the call is the
registry before it: rules, feedRules, lastId, the bus subscriptions and the log of
factory calls (so no factory was invoked) are all unchanged. The error is the
"redefined" one unless the name is empty. -/
theorem AddRule_duplicate_unchanged (env : Env) (node : RuleNode) (config : Configuration)
    (rs : Ruleset) (h : (lookupRule rs.rules node.Identifier).isSome = true) :
    (AddRule env (some node) config rs).1.isError = true ∧
    (AddRule env (some node) config rs).2 = rs ∧
    (node.Identifier ≠ "" →
      (AddRule env (some node) config rs).1 = .error (.redefined node.Identifier)) := by
  obtain ⟨pr, hpr⟩ := Option.isSome_iff_exists.mp h
  by_cases hid : node.Identifier = ""
  · simp [AddRule, hid, Result.isError]
  · simp [AddRule, hid, hpr, Result.isError]

/-- C1 at a concrete registry: the rule `a` is registered and is added again. -/
theorem AddRule_duplicate_unchanged_witness :
    (lookupRule [("a", (⟨"a", false, []⟩ : PipeRule))] "a").isSome = true ∧
    (AddRule demoEnv (some ⟨"a", none, filterNode "x" [] .nil⟩) noConfig
        ⟨[("a", ⟨"a", false, []⟩)], [], [], 0, []⟩).1.isError = true ∧
    (AddRule demoEnv (some ⟨"a", none, filterNode "x" [] .nil⟩) noConfig
        ⟨[("a", ⟨"a", false, []⟩)], [], [], 0, []⟩).2 = ⟨[("a", ⟨"a", false, []⟩)], [], [], 0, []⟩ :=
  ⟨by decide,
    (AddRule_duplicate_unchanged demoEnv ⟨"a", none, filterNode "x" [] .nil⟩ noConfig
      ⟨[("a", ⟨"a", false, []⟩)], [], [], 0, []⟩ (by decide)).1,
    (AddRule_duplicate_unchanged demoEnv ⟨"a", none, filterNode "x" [] .nil⟩ noConfig
      ⟨[("a", ⟨"a", false, []⟩)], [], [], 0, []⟩ (by decide)).2.1⟩

/-! ## C2: topic identifiers -/

theorem run_callsGrow (env : Env) (inputs : List (Option RuleNode × Configuration))
    (rs : Ruleset) : CallsGrow rs (run env inputs rs) := by
  induction inputs generalizing rs with
  | nil => exact callsGrow_refl _
  | cons hd tl ih =>
    obtain ⟨node, config⟩ := hd
    exact callsGrow_trans (AddRule_keeps env node config rs).1 (ih _)

theorem run_counted (env : Env) (inputs : List (Option RuleNode × Configuration))
    (rs : Ruleset) (h : Counted rs) : Counted (run env inputs rs) := by
  induction inputs generalizing rs with
  | nil => exact h
  | cons hd tl ih =>
    obtain ⟨node, config⟩ := hd
    exact ih _ ((AddRule_keeps env node config rs).2 h)

theorem nthId_of_small (i : Nat) (h : i + 1 < 2147483648) : nthId i = (i : Int) + 1 := by
  unfold nthId
  exact wrap32_of_small _ (by omega) (by omega)

theorem lastIds_sorted (env : Env) (inputs : List (Option RuleNode × Configuration))
    (rs : Ruleset) (h : Counted rs) (hb : numInstantiated (run env inputs rs) < 2147483648) :
    List.Pairwise (· ≤ ·) (lastIds env inputs rs) ∧ ∀ x ∈ lastIds env inputs rs, rs.lastId ≤ x := by
  induction inputs generalizing rs with
  | nil => simp [lastIds]
  | cons hd tl ih =>
    obtain ⟨node, config⟩ := hd
    have hk := AddRule_keeps env node config rs
    have h1 := hk.2 h
    simp only [run] at hb
    obtain ⟨ih1, ih2⟩ := ih _ h1 hb
    have hle : numInstantiated rs ≤ numInstantiated (AddRule env node config rs).2 :=
      callsGrow_numInstantiated_le hk.1
    have hle2 : numInstantiated (AddRule env node config rs).2 ≤
        numInstantiated (run env tl (AddRule env node config rs).2) :=
      callsGrow_numInstantiated_le (run_callsGrow env tl _)
    have hstep : rs.lastId ≤ (AddRule env node config rs).2.lastId := by
      rw [h.1, h1.1, wrap32_of_small _ (by omega) (by omega),
        wrap32_of_small _ (by omega) (by omega)]
      exact_mod_cast hle
    simp only [lastIds, List.pairwise_cons, List.mem_cons, forall_eq_or_imp, le_refl, true_and]
    refine ⟨⟨fun x hx => le_trans hstep (ih2 x hx), ih1⟩, fun x hx => le_trans hstep (ih2 x hx)⟩

/-- C2, as the code has it: in every run of AddRule calls from the initial
registry in which at most 2^31 - 1 nodes get instantiated (so that the int32
counter does not overflow), the topic identifiers handed to the factories for the
instantiated nodes are, in instantiation order, strictly increasing and free of
duplicates, and lastId never decreases from one call to the next. -/
theorem ids_increasing_below_overflow (env : Env)
    (inputs : List (Option RuleNode × Configuration))
    (hb : numInstantiated (run env inputs RuleSetInstance) < 2147483648) :
    List.Pairwise (· < ·) (instantiatedIds (run env inputs RuleSetInstance)) ∧
    (instantiatedIds (run env inputs RuleSetInstance)).Nodup ∧
    List.Pairwise (· ≤ ·) (lastIds env inputs RuleSetInstance) := by
  have hc := run_counted env inputs RuleSetInstance counted_init
  have hp : List.Pairwise (· < ·) (instantiatedIds (run env inputs RuleSetInstance)) := by
    rw [hc.2, List.pairwise_map]
    refine List.Pairwise.imp_of_mem ?_ (List.pairwise_lt_range _)
    intro a b ha hb1 hab
    rw [List.mem_range] at ha hb1
    rw [nthId_of_small a (by omega), nthId_of_small b (by omega)]
    omega
  refine ⟨hp, ?_, (lastIds_sorted env inputs _ counted_init hb).1⟩
  exact hp.imp (fun h => ne_of_lt h)

/-- C2 at a concrete run: the rule `r` is added twice to the initial registry. -/
theorem ids_increasing_below_overflow_witness :
    numInstantiated (run demoEnv [(some danglingRule, noConfig), (some danglingRule, noConfig)]
      RuleSetInstance) < 2147483648 ∧
    List.Pairwise (· < ·) (instantiatedIds
      (run demoEnv [(some danglingRule, noConfig), (some danglingRule, noConfig)]
        RuleSetInstance)) :=
  ⟨by decide,
    (ids_increasing_below_overflow demoEnv
      [(some danglingRule, noConfig), (some danglingRule, noConfig)] (by decide)).1⟩

theorem AddRule_danglingRule (rs : Ruleset) (h : rs.rules = []) :
    (AddRule demoEnv (some danglingRule) noConfig rs).2.rules = [] ∧
    numInstantiated (AddRule demoEnv (some danglingRule) noConfig rs).2 =
      numInstantiated rs + 1 := by
  simp [AddRule, NewPipeRule, addNode, addFilter, newFilter, filterParams, addRuleCall,
    getRuleCall, lookupRule, finish, h, danglingRule, filterNode, callNode, demoEnv,
    numInstantiated, instantiatedIds, List.filter_append]

theorem run_danglingRule (n : Nat) (rs : Ruleset) (h : rs.rules = []) :
    numInstantiated (run demoEnv (List.replicate n (some danglingRule, noConfig)) rs) =
      numInstantiated rs + n := by
  induction n generalizing rs with
  | zero => rfl
  | succ k ih =>
    obtain ⟨h1, h2⟩ := AddRule_danglingRule rs h
    rw [List.replicate_succ, run, ih _ h1, h2]
    omega

/-- C2 as stated fails: when the rule `r` (filter `x`, then a call of an unknown
rule) is added 2^31 times to the initial registry, every call instantiates one
filter; the last one is handed the identifier -2^31 after 2^31 - 1, so the
identifiers are not strictly increasing, and lastId ends below its initial value. -/
theorem ids_not_increasing_after_overflow :
    ¬ List.Pairwise (· < ·) (instantiatedIds
        (run demoEnv (List.replicate 2147483648 (some danglingRule, noConfig)) RuleSetInstance)) ∧
    (run demoEnv (List.replicate 2147483648 (some danglingRule, noConfig)) RuleSetInstance).lastId
      < RuleSetInstance.lastId := by
  have hc := run_counted demoEnv (List.replicate 2147483648 (some danglingRule, noConfig))
    RuleSetInstance counted_init
  have hn := run_danglingRule 2147483648 RuleSetInstance rfl
  have h0 : numInstantiated RuleSetInstance = 0 := rfl
  rw [h0, Nat.zero_add] at hn
  obtain ⟨hc1, hc2⟩ := hc
  rw [hn] at hc1 hc2
  constructor
  · rw [hc2, List.pairwise_map, List.pairwise_iff_getElem]
    intro hall
    have := hall 0 2147483647 (by simp) (by simp) (by omega)
    simp only [List.getElem_range, nthId, wrap32] at this
    omega
  · rw [hc1]
    simp only [RuleSetInstance, wrap32]
    omega

/-! ## C3: a linear chain of filters -/

theorem filterParams_some (env : Env) (params : List Param) (m0 : StrMap)
    (h : ∀ par ∈ params, par.wellFormed) : ∃ m, filterParams env params m0 = some m := by
  induction params generalizing m0 with
  | nil => exact ⟨m0, rfl⟩
  | cons par rest ih =>
    have hp := h par (List.mem_cons_self _ _)
    have hr : ∀ q ∈ rest, q.wellFormed := fun q hq => h q (List.mem_cons_of_mem _ hq)
    obtain ⟨v, hv⟩ : ∃ v, paramString env par.Value = some v := by
      unfold paramString
      cases hn : par.Value.Number with
      | some x => exact ⟨_, rfl⟩
      | none =>
        rcases hp with hp | hp
        · rw [hn] at hp; simp at hp
        · exact Option.isSome_iff_exists.mp hp
    obtain ⟨m, hm⟩ := ih (StrMap.set m0 par.Name v) hr
    exact ⟨m, by simp only [filterParams, hv, hm]⟩

theorem wrap32_add (x y : Int) : wrap32 (wrap32 x + y) = wrap32 (x + y) := by
  unfold wrap32
  omega

theorem addNode_filterChain (env : Env)
    (hfac : ∀ kind m id, ∃ f, env.NewFilter kind m id = .ok f)
    (hsub : ∀ bus topic h, env.SubscribeAsync bus topic h = none)
    (descs : List (String × List Param))
    (hpar : ∀ d ∈ descs, ∀ par ∈ d.2, par.wellFormed)
    (prev : String) (rs : Ruleset) (p : PipeRule) :
    ∃ fs rs1,
      addNode env (filterChain descs) prev rs p =
        (.ok (), rs1, ⟨p.Name, p.HasFeeder, p.nodes ++ fs.map Subscriber.filter⟩) ∧
      fs.length = descs.length ∧
      (∀ (i : Nat) (d : String × List Param), descs[i]? = some d → ∃ m f, filterParams env d.2 [] = some m ∧
        env.NewFilter (d.1 ++ "filter") m (wrap32 (rs.lastId + ((i : Int) + 1))) = .ok f ∧
        fs[i]? = some f) ∧
      rs1.bus = rs.bus ++ chainSubs p.Name prev (descs.zip fs) := by
  induction descs generalizing prev rs p with
  | nil => exact ⟨[], rs, by simp [filterChain, addNode], rfl, by simp, by simp [chainSubs]⟩
  | cons d rest ih =>
    obtain ⟨name, params⟩ := d
    obtain ⟨m, hm⟩ := filterParams_some env params []
      (hpar (name, params) (List.mem_cons_self _ _))
    obtain ⟨f, hf⟩ := hfac (name ++ "filter") m (wrap32 (rs.lastId + 1))
    have hrest : ∀ d ∈ rest, ∀ par ∈ d.2, par.wellFormed :=
      fun d hd => hpar d (List.mem_cons_of_mem _ hd)
    by_cases hprev : prev = ""
    · obtain ⟨fs, rs1, h1, h2, h3, h4⟩ := ih hrest f.GetIdentifier
        { rs with lastId := wrap32 (rs.lastId + 1),
                  calls := rs.calls ++ [⟨false, name ++ "filter", m, wrap32 (rs.lastId + 1), true⟩] }
        { p with nodes := p.nodes ++ [.filter f] }
      refine ⟨f :: fs, rs1, ?_, by simp [h2], ?_, ?_⟩
      · simp only [filterChain, filterNode, addNode, addFilter, newFilter, hm, hf, hprev]
        simpa using h1
      · intro i d hd
        cases i with
        | zero =>
          simp only [List.getElem?_cons_zero, Option.some.injEq] at hd
          subst hd
          exact ⟨m, f, hm, by simpa using hf, by simp⟩
        | succ j =>
          simp only [List.getElem?_cons_succ] at hd
          obtain ⟨m1, f1, e1, e2, e3⟩ := h3 j d hd
          refine ⟨m1, f1, e1, ?_, by simpa using e3⟩
          rw [← e2]
          simp only [wrap32_add]
          congr 2
          push_cast
          ring
      · rw [h4]
        simp only [List.zip_cons_cons, chainSubs, hprev, ne_eq, not_true_eq_false, if_false,
          List.nil_append]
        rfl
    · obtain ⟨fs, rs1, h1, h2, h3, h4⟩ := ih hrest f.GetIdentifier
        { rs with lastId := wrap32 (rs.lastId + 1),
                  bus := rs.bus ++ [⟨prev, ⟨p.Name, name, .filter f⟩⟩],
                  calls := rs.calls ++ [⟨false, name ++ "filter", m, wrap32 (rs.lastId + 1), true⟩] }
        { p with nodes := p.nodes ++ [.filter f] }
      refine ⟨f :: fs, rs1, ?_, by simp [h2], ?_, ?_⟩
      · simp only [filterChain, filterNode, addNode, addFilter, newFilter, hm, hf, subscribe,
          hsub, ne_eq, hprev, not_false_eq_true, if_true]
        simpa using h1
      · intro i d hd
        cases i with
        | zero =>
          simp only [List.getElem?_cons_zero, Option.some.injEq] at hd
          subst hd
          exact ⟨m, f, hm, by simpa using hf, by simp⟩
        | succ j =>
          simp only [List.getElem?_cons_succ] at hd
          obtain ⟨m1, f1, e1, e2, e3⟩ := h3 j d hd
          refine ⟨m1, f1, e1, ?_, by simpa using e3⟩
          rw [← e2]
          simp only [wrap32_add]
          congr 2
          push_cast
          ring
      · rw [h4]
        simp only [List.zip_cons_cons, chainSubs, ne_eq, hprev, not_false_eq_true, if_true,
          List.append_assoc]
        rfl

theorem chainSubs_of_topics (rule : String) (prev : String)
    (l : List ((String × List Param) × Filter)) (hprev : prev ≠ "")
    (h : ∀ x ∈ l, x.2.GetIdentifier ≠ "") :
    chainSubs rule prev l =
      List.zipWith (fun t x => (⟨t, ⟨rule, x.1.1, .filter x.2⟩⟩ : Subscription))
        (prev :: l.map (fun x => x.2.GetIdentifier)) l := by
  induction l generalizing prev with
  | nil => rfl
  | cons x rest ih =>
    obtain ⟨d, f⟩ := x
    have hf : f.GetIdentifier ≠ "" := h (d, f) (List.mem_cons_self _ _)
    have hr : ∀ x ∈ rest, x.2.GetIdentifier ≠ "" := fun x hx => h x (List.mem_cons_of_mem _ hx)
    simp only [chainSubs, ne_eq, hprev, not_false_eq_true, if_true, List.map_cons,
      List.zipWith_cons_cons, List.singleton_append, ih f.GetIdentifier hf hr]

theorem chainSubs_head (rule : String) (descs : List (String × List Param)) (fs : List Filter)
    (hlen : fs.length = descs.length) (hall : ∀ f ∈ fs, f.GetIdentifier ≠ "") :
    chainSubs rule "" (descs.zip fs) =
      List.zipWith
        (fun up x => (⟨up.GetIdentifier, ⟨rule, x.1.1, .filter x.2⟩⟩ : Subscription))
        fs (descs.zip fs).tail := by
  cases descs with
  | nil => simp [chainSubs]
  | cons d rest =>
    cases fs with
    | nil => simp at hlen
    | cons f fs1 =>
      have hf : f.GetIdentifier ≠ "" := hall f (List.mem_cons_self _ _)
      have hr : ∀ x ∈ rest.zip fs1, x.2.GetIdentifier ≠ "" := by
        intro x hx
        obtain ⟨d1, f1⟩ := x
        exact hall f1 (List.mem_cons_of_mem _ (List.of_mem_zip hx).2)
      have hlen1 : fs1.length ≤ rest.length := by
        simp only [List.length_cons] at hlen
        omega
      have hmap : List.map (fun x => x.2.GetIdentifier) (rest.zip fs1) =
          fs1.map (fun f => f.GetIdentifier) := by
        have hfun : (fun x : (String × List Param) × Filter => x.2.GetIdentifier) =
            (fun f : Filter => f.GetIdentifier) ∘ Prod.snd := rfl
        rw [hfun, ← List.map_map, List.map_snd_zip _ _ hlen1]
      show chainSubs rule "" ((d, f) :: rest.zip fs1) = _
      simp only [chainSubs, ne_eq, not_true_eq_false, if_false, List.nil_append]
      rw [chainSubs_of_topics rule f.GetIdentifier _ hf hr, hmap]
      show _ = List.zipWith _ (f :: fs1) (rest.zip fs1)
      rw [← List.map_cons (fun f => f.GetIdentifier) f fs1, List.zipWith_map_left]

/-- C3: for every list of N filter descriptors with well-formed parameters, when
the filter factory succeeds on every call, every subscription succeeds and every
filter's topic is a non-empty string, NewPipeRule on the headless rule whose chain
is these N filter nodes returns a PipeRule with exactly N nodes; the i-th node is
the filter the factory returned for the i-th descriptor (its kind name, its
parameter map and the identifier lastId + i + 1), and the compilation added to the
bus exactly one subscription for each node i > 0, on the topic node i-1 returns
from GetIdentifier, with node i as its target, and none for node 0. -/
theorem NewPipeRule_filterChain (env : Env) (ident : String)
    (descs : List (String × List Param)) (config : Configuration) (rs : Ruleset)
    (hfac : ∀ kind m id, ∃ f, env.NewFilter kind m id = .ok f)
    (hsub : ∀ bus topic h, env.SubscribeAsync bus topic h = none)
    (htopic : ∀ kind m id f, env.NewFilter kind m id = .ok f → f.GetIdentifier ≠ "")
    (hpar : ∀ d ∈ descs, ∀ par ∈ d.2, par.wellFormed) :
    ∃ fs rs1,
      NewPipeRule env ⟨ident, none, filterChain descs⟩ config rs =
        (.ok ⟨ident, false, fs.map Subscriber.filter⟩, rs1) ∧
      (fs.map Subscriber.filter).length = descs.length ∧
      (∀ (i : Nat) (d : String × List Param), descs[i]? = some d →
        ∃ m f, filterParams env d.2 [] = some m ∧
          env.NewFilter (d.1 ++ "filter") m (wrap32 (rs.lastId + ((i : Int) + 1))) = .ok f ∧
          (fs.map Subscriber.filter)[i]? = some (.filter f)) ∧
      rs1.bus = rs.bus ++
        List.zipWith
          (fun up x => (⟨up.GetIdentifier, ⟨ident, x.1.1, .filter x.2⟩⟩ : Subscription))
          fs (descs.zip fs).tail := by
  obtain ⟨fs, rs1, h1, h2, h3, h4⟩ :=
    addNode_filterChain env hfac hsub descs hpar "" rs ⟨ident, false, []⟩
  refine ⟨fs, rs1, ?_, by simpa using h2, ?_, ?_⟩
  · simp only [NewPipeRule, h1, finish, List.nil_append]
  · intro i d hd
    obtain ⟨m, f, e1, e2, e3⟩ := h3 i d hd
    exact ⟨m, f, e1, e2, by simp [e3]⟩
  · rw [h4]
    congr 1
    refine chainSubs_head ident descs fs h2 ?_
    intro f hf
    obtain ⟨i, hi⟩ := List.getElem?_of_mem hf
    have hlt : i < descs.length := by
      have := (List.getElem?_eq_some_iff.mp hi).1
      omega
    obtain ⟨m, f1, -, e2, e3⟩ := h3 i descs[i] (List.getElem?_eq_getElem hlt)
    rw [hi] at e3
    cases e3
    exact htopic _ _ _ _ e2

theorem demoEnv_topics (kind : String) (m : StrMap) (id : Int) (f : Filter)
    (hf : demoEnv.NewFilter kind m id = .ok f) : f.GetIdentifier ≠ "" := by
  simp only [demoEnv, Except.ok.injEq] at hf
  subst hf
  intro h
  have h1 := congrArg String.length h
  simp only [String.length_append] at h1
  have h2 : "topic:".length = 6 := by decide
  have h3 : "".length = 0 := by decide
  omega

/-- C3 at a concrete chain: three filters in the environment where everything
succeeds. -/
theorem NewPipeRule_filterChain_witness :
    ∃ fs rs1,
      NewPipeRule demoEnv ⟨"r", none, filterChain [("a", []), ("b", []), ("c", [])]⟩ noConfig
          RuleSetInstance =
        (.ok ⟨"r", false, fs.map Subscriber.filter⟩, rs1) ∧
      (fs.map Subscriber.filter).length = 3 ∧
      rs1.bus = [] ++
        List.zipWith
          (fun up x => (⟨up.GetIdentifier, ⟨"r", x.1.1, .filter x.2⟩⟩ : Subscription))
          fs (([("a", []), ("b", []), ("c", [])] : List (String × List Param)).zip fs).tail := by
  obtain ⟨fs, rs1, h1, h2, -, h4⟩ :=
    NewPipeRule_filterChain demoEnv "r" [("a", []), ("b", []), ("c", [])] noConfig RuleSetInstance
      (fun _ _ _ => ⟨_, rfl⟩) (fun _ _ _ => rfl)
      demoEnv_topics
      (by simp)
  exact ⟨fs, rs1, h1, h2, h4⟩

/-! ## C4: rules without nodes -/

/-- C4 fails on the code: after rule `P` (one filter) is registered, the rule `Q`
that consists of a call of `P` alone compiles without an error, and its nodes
sequence is empty; AddRule registers it. The compiler relies on the claim all the
same: compiling rule `R`, which calls `Q`, dereferences the missing last node of
`Q` and panics. -/
theorem NewPipeRule_empty_nodes :
    (NewPipeRule demoEnv ruleQ noConfig (run demoEnv [(some ruleP, noConfig)] RuleSetInstance)).1
      = .ok ⟨"Q", false, []⟩ ∧
    (AddRule demoEnv (some ruleQ) noConfig
      (run demoEnv [(some ruleP, noConfig)] RuleSetInstance)).1 = .ok () ∧
    lookupRule (run demoEnv [(some ruleP, noConfig), (some ruleQ, noConfig)] RuleSetInstance).rules
      "Q" = some ⟨"Q", false, []⟩ ∧
    (AddRule demoEnv (some ruleR) noConfig
      (run demoEnv [(some ruleP, noConfig), (some ruleQ, noConfig)] RuleSetInstance)).1
      = .panic := by
  decide

/-! ## C5, C6, C7: rule calls -/

theorem leaveRuleCall_of_last (r : PipeRule) (rs : Ruleset) (p : PipeRule) (last : Subscriber)
    (h : r.getLastNode = some last) : leaveRuleCall r rs p = .next last.GetIdentifier rs p := by
  unfold leaveRuleCall
  rw [h]
  cases last <;> rfl

theorem getRuleCall_of_lookup (rs : Ruleset) (name : String) (T : PipeRule)
    (h : lookupRule rs.rules name = some T) : getRuleCall rs name = .ok T := by
  simp only [getRuleCall, h]

theorem addNode_callNode (env : Env) (name : String) (next : Node) (prev : String)
    (rs : Ruleset) (p : PipeRule) :
    addNode env (callNode name next) prev rs p =
      match addRuleCall env name prev rs p with
      | .ret r rs1 p1 => (r, rs1, p1)
      | .next topic rs1 p1 => addNode env next topic rs1 p1 := by
  simp only [callNode, addNode]

/-- C5: in every registry reachable through AddRule calls and for every
registered rule T whose HasFeeder flag is set, a rule call naming T that addNode
reaches with a non-empty upstream topic returns the feeder-placement error and
leaves the registry and the rule under construction as they were (no subscription
is made); the same rule call reached with the empty upstream topic does not
return at that step: T has a last node, and the walk goes on with the rule call's
Next, the topic of that last node as upstream, and the registry unchanged. -/
theorem ruleCall_to_feeder_rule (env : Env) (rs : Ruleset) (hr : Reachable env rs)
    (name : String) (T : PipeRule) (hT : lookupRule rs.rules name = some T)
    (hF : T.HasFeeder = true) (next : Node) (p : PipeRule) :
    (∀ prev, prev ≠ "" →
      addNode env (callNode name next) prev rs p = (.error (.feederHere name), rs, p)) ∧
    (∃ last, T.getLastNode = some last ∧
      addNode env (callNode name next) "" rs p = addNode env next last.GetIdentifier rs p) := by
  constructor
  · intro prev hprev
    simp only [addNode_callNode, addRuleCall, getRuleCall_of_lookup rs name T hT, ne_eq, hprev,
      not_false_eq_true, if_true, hF]
  · obtain ⟨f, fs, hn⟩ := (reachable_registered hr name T hT).2.1 hF
    have hne : T.nodes ≠ [] := by rw [hn]; simp
    refine ⟨T.nodes.getLast hne, List.getLast?_eq_getLast _ hne, ?_⟩
    simp only [addNode_callNode, addRuleCall, getRuleCall_of_lookup rs name T hT, ne_eq,
      not_true_eq_false, if_false,
      leaveRuleCall_of_last T rs p _ (List.getLast?_eq_getLast _ hne)]

/-- C5 at a concrete registry: rule `A` (feeder `F`, filter `X`) is registered and
is called from the rule `B` under construction. -/
theorem ruleCall_to_feeder_rule_witness :
    (addNode demoEnv (callNode "A" .nil) "topic:Zfilter"
        (run demoEnv [(some ruleA, noConfig)] RuleSetInstance) ⟨"B", false, []⟩).1
      = .error (.feederHere "A") ∧
    (∃ last, PipeRule.getLastNode
        ⟨"A", true, [.feeder ⟨"topic:Ffeeder", 1⟩, .filter ⟨"topic:Xfilter", 2⟩]⟩ = some last ∧
      addNode demoEnv (callNode "A" .nil) ""
        (run demoEnv [(some ruleA, noConfig)] RuleSetInstance) ⟨"B", false, []⟩ =
      addNode demoEnv .nil last.GetIdentifier
        (run demoEnv [(some ruleA, noConfig)] RuleSetInstance) ⟨"B", false, []⟩) :=
  ⟨by
    rw [(ruleCall_to_feeder_rule demoEnv _ (reachable_run [(some ruleA, noConfig)] Reachable.init)
      "A" ⟨"A", true, [.feeder ⟨"topic:Ffeeder", 1⟩, .filter ⟨"topic:Xfilter", 2⟩]⟩
      (by decide) rfl .nil ⟨"B", false, []⟩).1 "topic:Zfilter" (by decide)],
   (ruleCall_to_feeder_rule demoEnv _ (reachable_run [(some ruleA, noConfig)] Reachable.init)
      "A" ⟨"A", true, [.feeder ⟨"topic:Ffeeder", 1⟩, .filter ⟨"topic:Xfilter", 2⟩]⟩
      (by decide) rfl .nil ⟨"B", false, []⟩).2⟩

/-- C6 as stated fails: rule `A` declares a feeder, rule `B` is headless and
starts with a call of `A`, so its filter `Y` is downstream of that feeder; yet
rule `C`, which calls `B` after its filter `Z` (a non-head position, the upstream
topic being the non-empty topic of `Z`), is compiled and registered. -/
theorem call_of_feeder_fed_rule_accepted :
    (lookupRule (run demoEnv [(some ruleA, noConfig), (some ruleB, noConfig)]
      RuleSetInstance).rules "A").map (fun pr => pr.HasFeeder) = some true ∧
    (lookupRule (run demoEnv [(some ruleA, noConfig), (some ruleB, noConfig)]
      RuleSetInstance).rules "B").map (fun pr => pr.HasFeeder) = some false ∧
    (AddRule demoEnv (some ruleC) noConfig
      (run demoEnv [(some ruleA, noConfig), (some ruleB, noConfig)] RuleSetInstance)).1
      = .ok () ∧
    (lookupRule (run demoEnv [(some ruleA, noConfig), (some ruleB, noConfig),
      (some ruleC, noConfig)] RuleSetInstance).rules "C").isSome = true := by
  decide

/-- C6, as the code has it: in every registry reachable through AddRule calls, a
registered rule whose own nodes contain a feeder has its HasFeeder flag set (its
tree declared the feeder itself), and a rule call naming it that addNode reaches
with a non-empty upstream topic returns the feeder-placement error and changes
nothing. -/
theorem call_of_feeder_owner_rejected (env : Env) (rs : Ruleset) (hr : Reachable env rs)
    (name : String) (T : PipeRule) (hT : lookupRule rs.rules name = some T)
    (f : Feeder) (hf : Subscriber.feeder f ∈ T.nodes)
    (next : Node) (prev : String) (hprev : prev ≠ "") (p : PipeRule) :
    T.HasFeeder = true ∧
    addNode env (callNode name next) prev rs p = (.error (.feederHere name), rs, p) := by
  have hflag : T.HasFeeder = true := by
    cases hflag : T.HasFeeder with
    | true => rfl
    | false =>
      obtain ⟨fs, hfs⟩ := (reachable_registered hr name T hT).2.2 hflag
      rw [hfs] at hf
      simp at hf
  refine ⟨hflag, ?_⟩
  simp only [addNode_callNode, addRuleCall, getRuleCall_of_lookup rs name T hT, ne_eq, hprev,
    not_false_eq_true, if_true, hflag]

/-- C6 at a concrete registry: rule `A` is registered and is called after a
filter whose topic is `topic:Zfilter`. -/
theorem call_of_feeder_owner_rejected_witness :
    Subscriber.feeder ⟨"topic:Ffeeder", 1⟩ ∈
      (PipeRule.mk "A" true [.feeder ⟨"topic:Ffeeder", 1⟩, .filter ⟨"topic:Xfilter", 2⟩]).nodes ∧
    addNode demoEnv (callNode "A" .nil) "topic:Zfilter"
        (run demoEnv [(some ruleA, noConfig)] RuleSetInstance) ⟨"C", false, []⟩ =
      (.error (.feederHere "A"), run demoEnv [(some ruleA, noConfig)] RuleSetInstance,
        ⟨"C", false, []⟩) :=
  ⟨by decide,
   (call_of_feeder_owner_rejected demoEnv _ (reachable_run [(some ruleA, noConfig)] Reachable.init)
      "A" ⟨"A", true, [.feeder ⟨"topic:Ffeeder", 1⟩, .filter ⟨"topic:Xfilter", 2⟩]⟩
      (by decide) ⟨"topic:Ffeeder", 1⟩ (by decide) .nil "topic:Zfilter" (by decide)
      ⟨"C", false, []⟩).2⟩

/-- C7: for every rule call that resolves to a registered rule T with a last
node, either the rule-call step returns an error or panics and the call's Next is
not compiled, or the Next node is compiled with exactly GetIdentifier of T's last
node as the upstream topic, whatever the calling rule and the value of lastId
are, and the step changes neither of them. With an empty upstream topic the step
always goes on; with a non-empty one it goes on when T has no feeder flag and the
subscription of T's first node succeeds. -/
theorem ruleCall_continuation_topic (env : Env) (rs : Ruleset) (name : String) (T : PipeRule)
    (last : Subscriber) (hT : lookupRule rs.rules name = some T)
    (hl : T.getLastNode = some last) (next : Node) (prev : String) (p : PipeRule) :
    ((∃ r rs1, r ≠ .ok () ∧ addNode env (callNode name next) prev rs p = (r, rs1, p)) ∨
     (∃ rs1, rs1.lastId = rs.lastId ∧ rs1.rules = rs.rules ∧
        addNode env (callNode name next) prev rs p =
          addNode env next last.GetIdentifier rs1 p)) ∧
    (prev = "" →
      addNode env (callNode name next) prev rs p = addNode env next last.GetIdentifier rs p) ∧
    (∀ first, prev ≠ "" → T.HasFeeder = false → T.getFirstNode = some first →
      env.SubscribeAsync rs.bus prev ⟨p.Name, name, first⟩ = none →
      addNode env (callNode name next) prev rs p =
        addNode env next last.GetIdentifier
          { rs with bus := rs.bus ++ [⟨prev, ⟨p.Name, name, first⟩⟩] } p) := by
  have hg := getRuleCall_of_lookup rs name T hT
  have h2 : prev = "" →
      addNode env (callNode name next) prev rs p = addNode env next last.GetIdentifier rs p := by
    intro hprev
    simp only [addNode_callNode, addRuleCall, hg, hprev, ne_eq, not_true_eq_false, if_false,
      leaveRuleCall_of_last T rs p last hl]
  have h3 : ∀ first, prev ≠ "" → T.HasFeeder = false → T.getFirstNode = some first →
      env.SubscribeAsync rs.bus prev ⟨p.Name, name, first⟩ = none →
      addNode env (callNode name next) prev rs p =
        addNode env next last.GetIdentifier
          { rs with bus := rs.bus ++ [⟨prev, ⟨p.Name, name, first⟩⟩] } p := by
    intro first hprev hF hfirst hs
    simp only [addNode_callNode, addRuleCall, hg, ne_eq, hprev, not_false_eq_true, if_true, hF,
      Bool.false_eq_true, if_false, hfirst, subscribe, hs,
      leaveRuleCall_of_last T _ p last hl]
  refine ⟨?_, h2, h3⟩
  by_cases hprev : prev = ""
  · exact Or.inr ⟨rs, rfl, rfl, h2 hprev⟩
  · cases hF : T.HasFeeder with
    | true =>
      left
      refine ⟨.error (.feederHere name), rs, by simp, ?_⟩
      simp only [addNode_callNode, addRuleCall, hg, ne_eq, hprev, not_false_eq_true, if_true, hF]
    | false =>
      cases hfirst : T.getFirstNode with
      | none =>
        left
        refine ⟨.panic, rs, by simp, ?_⟩
        simp only [addNode_callNode, addRuleCall, hg, ne_eq, hprev, not_false_eq_true, if_true,
          hF, Bool.false_eq_true, if_false, hfirst]
      | some first =>
        cases hs : env.SubscribeAsync rs.bus prev ⟨p.Name, name, first⟩ with
        | some e =>
          left
          refine ⟨.error (.subscribe e), rs, by simp, ?_⟩
          simp only [addNode_callNode, addRuleCall, hg, ne_eq, hprev, not_false_eq_true, if_true,
            hF, Bool.false_eq_true, if_false, hfirst, subscribe, hs]
        | none =>
          right
          exact ⟨{ rs with bus := rs.bus ++ [⟨prev, ⟨p.Name, name, first⟩⟩] }, rfl, rfl,
            h3 first hprev hF hfirst hs⟩

/-- C7 at a concrete registry: rule `A` is registered and called at the head of
rule `B`, whose filter `Y` is then compiled with the topic of `X` as upstream. -/
theorem ruleCall_continuation_topic_witness :
    lookupRule (run demoEnv [(some ruleA, noConfig)] RuleSetInstance).rules "A" =
      some ⟨"A", true, [.feeder ⟨"topic:Ffeeder", 1⟩, .filter ⟨"topic:Xfilter", 2⟩]⟩ ∧
    addNode demoEnv (callNode "A" (filterNode "Y" [] .nil)) ""
        (run demoEnv [(some ruleA, noConfig)] RuleSetInstance) ⟨"B", false, []⟩ =
      addNode demoEnv (filterNode "Y" [] .nil) "topic:Xfilter"
        (run demoEnv [(some ruleA, noConfig)] RuleSetInstance) ⟨"B", false, []⟩ :=
  ⟨by decide,
   (ruleCall_continuation_topic demoEnv (run demoEnv [(some ruleA, noConfig)] RuleSetInstance)
      "A" ⟨"A", true, [.feeder ⟨"topic:Ffeeder", 1⟩, .filter ⟨"topic:Xfilter", 2⟩]⟩
      (.filter ⟨"topic:Xfilter", 2⟩) (by decide) (by decide) (filterNode "Y" [] .nil) ""
      ⟨"B", false, []⟩).2.1 rfl⟩

/-! ## C8: a call of a rule that is not registered -/

theorem addNode_callsUnknown (env : Env) (node : Node) (prev : String) (rs : Ruleset)
    (p : PipeRule) (h : callsUnknown rs.rules node) :
    (addNode env node prev rs p).1 ≠ .ok () := by
  induction node, prev, rs, p using addNode.induct env with
  | case1 prev rs p => simp [callsUnknown] at h
  | case2 name params next rc prev rs p r rs1 p1 hs =>
    simp only [addNode, hs]
    unfold addFilter at hs
    rcases newFilter_spec env name params rs with h1 | ⟨e, c, -, h1⟩ | ⟨f, m, c, -, -, -, -, -, h1⟩
    · rw [h1] at hs; cases hs; simp
    · rw [h1] at hs; cases hs; simp
    · rw [h1] at hs
      by_cases hprev : prev = ""
      · simp [hprev] at hs
      · simp only [ne_eq, hprev, not_false_eq_true, if_true] at hs
        rcases subscribe_spec env prev ⟨p.Name, name, .filter f⟩
          ({ rs with lastId := wrap32 (rs.lastId + 1), calls := rs.calls ++ [c] } : Ruleset)
          with ⟨e, -, h2⟩ | ⟨-, h2⟩
        · rw [h2] at hs; cases hs; simp
        · rw [h2] at hs; cases hs
  | case3 name params next rc prev rs p topic rs1 p1 hs ih =>
    simp only [addNode, hs]
    have hw := addFilter_walks env name params prev rs p
    rw [hs] at hw
    apply ih
    rw [show rs1.rules = rs.rules from hw.1]
    simpa [callsUnknown] using h
  | case4 name next prev rs p r rs1 p1 hs =>
    simp only [addNode, hs]
    unfold addRuleCall at hs
    cases hg : getRuleCall rs name with
    | error e => rw [hg] at hs; cases hs; simp
    | ok T =>
      rw [hg] at hs
      simp only at hs
      have hleave : ∀ rs0 : Ruleset, leaveRuleCall T rs0 p = .ret r rs1 p1 → r ≠ .ok () := by
        intro rs0 h0
        unfold leaveRuleCall at h0
        cases hlast : T.getLastNode with
        | none => rw [hlast] at h0; cases h0; simp
        | some last => rw [hlast] at h0; cases last <;> simp [Subscriber.asFilter,
            Subscriber.asFeeder] at h0
      by_cases hprev : prev = ""
      · simp only [hprev, ne_eq, not_true_eq_false, if_false] at hs
        exact hleave _ hs
      · simp only [ne_eq, hprev, not_false_eq_true, if_true] at hs
        cases hF : T.HasFeeder with
        | true => rw [hF] at hs; cases hs; simp
        | false =>
          rw [hF] at hs
          simp only [Bool.false_eq_true, if_false] at hs
          cases hfirst : T.getFirstNode with
          | none => rw [hfirst] at hs; cases hs; simp
          | some first =>
            rw [hfirst] at hs
            simp only at hs
            rcases subscribe_spec env prev ⟨p.Name, name, first⟩ rs with ⟨e, -, h2⟩ | ⟨-, h2⟩
            · rw [h2] at hs; cases hs; simp
            · rw [h2] at hs; exact hleave _ hs
  | case5 name next prev rs p topic rs1 p1 hs ih =>
    simp only [addNode, hs]
    have hw := addRuleCall_walks env name prev rs p
    rw [hs] at hw
    have hrules : rs1.rules = rs.rules := hw.1
    apply ih
    rw [hrules]
    simp only [callsUnknown] at h
    rcases h with h | h
    · exfalso
      unfold addRuleCall at hs
      simp only [getRuleCall, h] at hs
      cases hs
    · exact h
  | case6 prev rs p => simp [callsUnknown] at h

theorem NewPipeRule_callsUnknown (env : Env) (node : RuleNode) (config : Configuration)
    (rs : Ruleset) (h : callsUnknown rs.rules node.chain) (pr : PipeRule) :
    (NewPipeRule env node config rs).1 ≠ .ok pr := by
  intro hok
  unfold RuleNode.chain at h
  unfold NewPipeRule at hok
  cases hfd : node.Feeder with
  | none =>
    rw [hfd] at h hok
    exact addNode_callsUnknown env _ _ rs _ h (finish_ok _ pr hok).2
  | some fd =>
    rw [hfd] at h hok
    simp only at h hok
    rcases addFeeder_spec env node.Identifier fd config rs with
      h1 | ⟨e, c, -, h1⟩ | ⟨f, cfg, c, -, -, -, -, -, h1⟩
    · rw [h1] at hok; simp [finish] at hok
    · rw [h1] at hok; simp [finish] at hok
    · rw [h1] at hok
      exact addNode_callsUnknown env fd.Next f.GetIdentifier
        ({ rs with lastId := wrap32 (rs.lastId + 1), calls := rs.calls ++ [c] } : Ruleset)
        ⟨node.Identifier, true, [.feeder f]⟩ h (finish_ok _ pr hok).2

/-- C8 as stated fails: the rule `r` has a filter before its call of the unknown
rule `missing`; AddRule returns the "rule not found" error, but the filter has been
instantiated: the filter factory was called and lastId went from 0 to 1. -/
theorem unknown_call_after_filter :
    (AddRule demoEnv (some danglingRule) noConfig RuleSetInstance).1
      = .error (.notFound "missing") ∧
    (AddRule demoEnv (some danglingRule) noConfig RuleSetInstance).2.lastId = 1 ∧
    RuleSetInstance.lastId = 0 ∧
    (AddRule demoEnv (some danglingRule) noConfig RuleSetInstance).2.calls =
      [⟨false, "xfilter", [], 1, true⟩] := by
  decide

/-- C8, as the code has it: a rule call naming a rule that is not in the registry
makes addNode return the "rule not found" error at that node, and that step
changes neither the registry nor the rule under construction; when the call is the
first node of a headless rule with a fresh name, AddRule returns that error and
leaves the whole registry, the log of factory calls included, as it was; and
whenever the walk of a rule tree's chain reaches such a call, AddRule does not
succeed and the rules map and feedRules are what they were before the call
(nodes instantiated and subscriptions made earlier in the chain stay). -/
theorem unknown_call_fails (env : Env) (rs : Ruleset) :
    (∀ name next prev p, lookupRule rs.rules name = none →
      addNode env (callNode name next) prev rs p = (.error (.notFound name), rs, p)) ∧
    (∀ ident config name next, ident ≠ "" → lookupRule rs.rules ident = none →
      lookupRule rs.rules name = none →
      AddRule env (some ⟨ident, none, callNode name next⟩) config rs =
        (.error (.notFound name), rs)) ∧
    (∀ node config, callsUnknown rs.rules node.chain →
      (AddRule env (some node) config rs).1 ≠ .ok () ∧
      (AddRule env (some node) config rs).2.rules = rs.rules ∧
      (AddRule env (some node) config rs).2.feedRules = rs.feedRules) := by
  have h1 : ∀ name next prev p, lookupRule rs.rules name = none →
      addNode env (callNode name next) prev rs p = (.error (.notFound name), rs, p) := by
    intro name next prev p hn
    simp only [addNode_callNode, addRuleCall, getRuleCall, hn]
  refine ⟨h1, ?_, ?_⟩
  · intro ident config name next hid hfresh hn
    simp only [AddRule, hid, if_false, hfresh, NewPipeRule, h1 name next "" _ hn, finish]
  · intro node config hc
    simp only [AddRule]
    by_cases hid : node.Identifier = ""
    · simp [hid]
    · simp only [hid, if_false]
      cases hl : lookupRule rs.rules node.Identifier with
      | some pr => simp
      | none =>
        obtain ⟨e1, e2, -, -, -, -⟩ := NewPipeRule_spec env node config rs
        have hne := NewPipeRule_callsUnknown env node config rs hc
        rcases hn : NewPipeRule env node config rs with ⟨r, rs1⟩
        rw [hn] at e1 e2 hne
        cases r with
        | panic => exact ⟨by simp, e1, e2⟩
        | error e => exact ⟨by simp, e1, e2⟩
        | ok pr => exact absurd rfl (hne pr)

/-- C8 at a concrete registry: the rule `B` calls `A` in the initial registry. -/
theorem unknown_call_fails_witness :
    lookupRule RuleSetInstance.rules "A" = none ∧
    AddRule demoEnv (some ⟨"B", none, callNode "A" (filterNode "Y" [] .nil)⟩) noConfig
      RuleSetInstance = (.error (.notFound "A"), RuleSetInstance) :=
  ⟨by decide,
   (unknown_call_fails demoEnv RuleSetInstance).2.1 "B" noConfig "A" (filterNode "Y" [] .nil)
     (by decide) (by decide) (by decide)⟩

/-! ## C9: a node with neither a filter nor a rule call -/

/-- C9 as stated fails: the chain of rule `E` reaches a node that has neither a
Filter nor a RuleCall descriptor; addNode returns no error there, AddRule
succeeds and the rule is registered. -/
theorem empty_node_accepted :
    (addNode demoEnv (.mk .nil .nil) "topic:Xfilter" RuleSetInstance ⟨"E", false, []⟩).1
      = .ok () ∧
    (AddRule demoEnv (some ruleE) noConfig RuleSetInstance).1 = .ok () ∧
    lookupRule (AddRule demoEnv (some ruleE) noConfig RuleSetInstance).2.rules "E" =
      some ⟨"E", false, [.filter ⟨"topic:Xfilter", 1⟩]⟩ := by
  decide

/-- C9, as the code has it: at a node that has neither a Filter nor a RuleCall
descriptor addNode returns no error and changes nothing: the walk ends there as
at the end of a chain; a headless rule whose first node is such a node compiles
to a rule without nodes. -/
theorem empty_node_ends_walk (env : Env) (prev : String) (rs : Ruleset) (p : PipeRule)
    (ident : String) (config : Configuration) :
    addNode env (.mk .nil .nil) prev rs p = (.ok (), rs, p) ∧
    NewPipeRule env ⟨ident, none, .mk .nil .nil⟩ config rs = (.ok ⟨ident, false, []⟩, rs) := by
  constructor
  · simp only [addNode]
  · simp only [NewPipeRule, addNode, finish]

/-! ## C10: the end-to-end scenario -/

/-- C10 as stated fails: in the environment where everything succeeds, rule `A`
and then rule `B` are registered without an error, and the compiled chain of `B`
has exactly one node, the filter `Y`, not two. -/
theorem scenario_B_has_one_node :
    (AddRule demoEnv (some ruleA) noConfig RuleSetInstance).1 = .ok () ∧
    (AddRule demoEnv (some ruleB) noConfig
      (run demoEnv [(some ruleA, noConfig)] RuleSetInstance)).1 = .ok () ∧
    (lookupRule (run demoEnv [(some ruleA, noConfig), (some ruleB, noConfig)]
      RuleSetInstance).rules "B").map (fun pr => pr.nodes) =
      some [.filter ⟨"topic:Yfilter", 3⟩] ∧
    (lookupRule (run demoEnv [(some ruleA, noConfig), (some ruleB, noConfig)]
      RuleSetInstance).rules "B").map (fun pr => pr.nodes.length) ≠ some 2 := by
  decide

/-- C10, as the code has it: starting from the initial registry, with factories
and a bus that succeed on every call, registering rule `A` (feeder `F`, then
filter `X` with `threshold = 5`) and then rule `B` (a call of `A`, then filter
`Y`) succeeds for both, and the nodes of `B` are exactly one node: the filter the
factory returned for `Y`, with the identifier 3. -/
theorem scenario_A_then_B (env : Env) (configA configB : Configuration)
    (hfilter : ∀ kind m id, ∃ f, env.NewFilter kind m id = .ok f)
    (hfeeder : ∀ kind m id, ∃ f, env.NewFeeder kind m id = .ok f)
    (hsub : ∀ bus topic h, env.SubscribeAsync bus topic h = none) :
    (AddRule env (some ruleA) configA RuleSetInstance).1 = .ok () ∧
    (AddRule env (some ruleB) configB
      (run env [(some ruleA, configA)] RuleSetInstance)).1 = .ok () ∧
    ∃ y, env.NewFilter "Yfilter" [] 3 = .ok y ∧
      lookupRule (run env [(some ruleA, configA), (some ruleB, configB)]
        RuleSetInstance).rules "B" = some ⟨"B", false, [.filter y]⟩ ∧
      (PipeRule.mk "B" false [.filter y]).nodes.length = 1 := by
  obtain ⟨fF, hF⟩ := hfeeder "Ffeeder" configA.GetConfig 1
  obtain ⟨fX, hX⟩ := hfilter "Xfilter" [("threshold", env.FormatFloat five)] 2
  obtain ⟨fY, hY⟩ := hfilter "Yfilter" [] 3
  have w1 : wrap32 1 = 1 := by decide
  have w2 : wrap32 2 = 2 := by decide
  have w3 : wrap32 3 = 3 := by decide
  have w4 : wrap32 (1 + 1) = 2 := by decide
  have w5 : wrap32 (2 + 1) = 3 := by decide
  have hXp : filterParams env [⟨"threshold", ⟨some five, none⟩⟩] [] =
      some [("threshold", env.FormatFloat five)] := rfl
  have hA : AddRule env (some ruleA) configA RuleSetInstance =
      (.ok (), ⟨[("A", ⟨"A", true, [.feeder fF, .filter fX]⟩)], ["A"],
        (if fF.GetIdentifier ≠ "" then [⟨fF.GetIdentifier, ⟨"A", "X", .filter fX⟩⟩] else []), 2,
        [⟨true, "Ffeeder", configA.GetConfig, 1, true⟩,
         ⟨false, "Xfilter", [("threshold", env.FormatFloat five)], 2, true⟩]⟩) := by
    have e1 : lookupRule RuleSetInstance.rules "A" = none := rfl
    have e2 : ("A" : String) ≠ "" := by decide
    by_cases ht : fF.GetIdentifier = ""
    · simp [AddRule, ruleA, e2, RuleSetInstance, lookupRule, NewPipeRule, addFeeder, feederConfig,
        w1, w2, w3, w4, w5, hF, hX, hXp, filterNode, addNode, addFilter, newFilter, ht, finish, storeRule]
    · simp [AddRule, ruleA, e2, RuleSetInstance, lookupRule, NewPipeRule, addFeeder, feederConfig,
        w1, w2, w3, w4, w5, hF, hX, hXp, filterNode, addNode, addFilter, newFilter, ht, finish, storeRule,
        subscribe, hsub]
  have hB : ∀ (feed : List String) (bus : Bus) (calls : List FactoryCall),
      (AddRule env (some ruleB) configB
        ⟨[("A", ⟨"A", true, [.feeder fF, .filter fX]⟩)], feed, bus, 2, calls⟩).1 = .ok () ∧
      (AddRule env (some ruleB) configB
        ⟨[("A", ⟨"A", true, [.feeder fF, .filter fX]⟩)], feed, bus, 2, calls⟩).2.rules =
        [("A", ⟨"A", true, [.feeder fF, .filter fX]⟩), ("B", ⟨"B", false, [.filter fY]⟩)] := by
    intro feed bus calls
    have e2 : ("B" : String) ≠ "" := by decide
    have e3 : ("A" : String) ≠ "B" := by decide
    by_cases ht : fX.GetIdentifier = ""
    · simp [AddRule, ruleB, e2, e3, lookupRule, NewPipeRule, callNode, filterNode, addNode,
        addRuleCall, getRuleCall, leaveRuleCall, PipeRule.getLastNode, Subscriber.asFilter,
        addFilter, newFilter, filterParams, w3, w5, hY, ht, finish, storeRule]
    · simp [AddRule, ruleB, e2, e3, lookupRule, NewPipeRule, callNode, filterNode, addNode,
        addRuleCall, getRuleCall, leaveRuleCall, PipeRule.getLastNode, Subscriber.asFilter,
        addFilter, newFilter, filterParams, w3, w5, hY, ht, finish, storeRule, subscribe, hsub]
  have hrun : run env [(some ruleA, configA)] RuleSetInstance =
      ⟨[("A", ⟨"A", true, [.feeder fF, .filter fX]⟩)], ["A"],
        (if fF.GetIdentifier ≠ "" then [⟨fF.GetIdentifier, ⟨"A", "X", .filter fX⟩⟩] else []), 2,
        [⟨true, "Ffeeder", configA.GetConfig, 1, true⟩,
         ⟨false, "Xfilter", [("threshold", env.FormatFloat five)], 2, true⟩]⟩ := by
    simp only [run, hA]
  refine ⟨by rw [hA], ?_, fY, hY, ?_, rfl⟩
  · rw [hrun]
    exact (hB _ _ _).1
  · have e3 : ("A" : String) ≠ "B" := by decide
    simp only [run, hA, (hB _ _ _).2, lookupRule, e3, if_false, if_true]

/-- C10 at the environment where everything succeeds. -/
theorem scenario_A_then_B_witness :
    (AddRule demoEnv (some ruleA) noConfig RuleSetInstance).1 = .ok () ∧
    (AddRule demoEnv (some ruleB) noConfig
      (run demoEnv [(some ruleA, noConfig)] RuleSetInstance)).1 = .ok () :=
  ⟨(scenario_A_then_B demoEnv noConfig noConfig (fun _ _ _ => ⟨_, rfl⟩) (fun _ _ _ => ⟨_, rfl⟩)
      (fun _ _ _ => rfl)).1,
   (scenario_A_then_B demoEnv noConfig noConfig (fun _ _ _ => ⟨_, rfl⟩) (fun _ _ _ => ⟨_, rfl⟩)
      (fun _ _ _ => rfl)).2.1⟩

/-! ## C12: what a successful AddRule stores -/

theorem storeRule_fresh (m : List (String × PipeRule)) (k : String) (v : PipeRule)
    (h : lookupRule m k = none) : storeRule m k v = m ++ [(k, v)] := by
  induction m with
  | nil => rfl
  | cons hd tl ih =>
    obtain ⟨k0, v0⟩ := hd
    by_cases h0 : k0 = k
    · simp [lookupRule, h0] at h
    · simp only [lookupRule, h0, if_false] at h
      simp only [storeRule, h0, if_false, ih h, List.cons_append]

/-- The shape of a successful `AddRule`: the name is not empty and not yet
registered, `NewPipeRule` returned a rule, and the registry after the call is the
one `NewPipeRule` left with that rule stored and, if its flag is set, its name
appended to `feedRules`. -/
theorem AddRule_ok_inv (env : Env) (node : Option RuleNode) (config : Configuration)
    (rs rs1 : Ruleset) (h : AddRule env node config rs = (.ok (), rs1)) :
    ∃ n pr rs0, node = some n ∧ n.Identifier ≠ "" ∧ lookupRule rs.rules n.Identifier = none ∧
      NewPipeRule env n config rs = (.ok pr, rs0) ∧
      rs1 = { rs0 with
                rules := storeRule rs0.rules pr.Name pr,
                feedRules :=
                  if pr.HasFeeder then rs0.feedRules ++ [n.Identifier] else rs0.feedRules } := by
  cases node with
  | none => simp [AddRule] at h
  | some n =>
    simp only [AddRule] at h
    by_cases hid : n.Identifier = ""
    · simp [hid] at h
    · simp only [hid, if_false] at h
      cases hl : lookupRule rs.rules n.Identifier with
      | some pr => rw [hl] at h; simp at h
      | none =>
        rw [hl] at h
        simp only at h
        rcases hn : NewPipeRule env n config rs with ⟨r, rs0⟩
        rw [hn] at h
        cases r with
        | panic => simp at h
        | error e => simp at h
        | ok pr =>
          simp only [Prod.mk.injEq, true_and] at h
          exact ⟨n, pr, rs0, rfl, hid, hl, hn, h.symm⟩

/-- What a failed `AddRule` leaves: the registry `NewPipeRule` left, or the
registry before the call. -/
theorem AddRule_failed_inv (env : Env) (node : Option RuleNode) (config : Configuration)
    (rs : Ruleset) (h : (AddRule env node config rs).1 ≠ .ok ()) :
    (AddRule env node config rs).2 = rs ∨
    ∃ n, node = some n ∧ (AddRule env node config rs).2 = (NewPipeRule env n config rs).2 := by
  cases node with
  | none => left; rfl
  | some n =>
    simp only [AddRule] at h ⊢
    by_cases hid : n.Identifier = ""
    · left; simp [hid]
    · simp only [hid, if_false] at h ⊢
      cases hl : lookupRule rs.rules n.Identifier with
      | some pr => left; rfl
      | none =>
        rw [hl] at h
        simp only at h ⊢
        right
        refine ⟨n, rfl, ?_⟩
        rcases hn : NewPipeRule env n config rs with ⟨r, rs0⟩
        rw [hn] at h
        cases r with
        | panic => rfl
        | error e => rfl
        | ok pr => simp at h

/-- C12: whenever AddRule returns no error, the tree's Identifier was not a key of
the rules map, and the rules map after the call is the previous one with exactly
one more entry, the compiled PipeRule under the tree's Identifier: every other
name looks up what it looked up before, the count grows by one; and feedRules is
the previous list with the Identifier appended at the end if the tree declares a
feeder, and the previous list otherwise. -/
theorem AddRule_ok_stores (env : Env) (node : RuleNode) (config : Configuration)
    (rs rs1 : Ruleset) (h : AddRule env (some node) config rs = (.ok (), rs1)) :
    lookupRule rs.rules node.Identifier = none ∧
    ∃ pr, (NewPipeRule env node config rs).1 = .ok pr ∧
      rs1.rules = rs.rules ++ [(node.Identifier, pr)] ∧
      rs1.rules.length = rs.rules.length + 1 ∧
      lookupRule rs1.rules node.Identifier = some pr ∧
      (∀ name, name ≠ node.Identifier → lookupRule rs1.rules name = lookupRule rs.rules name) ∧
      rs1.feedRules =
        if node.Feeder.isSome then rs.feedRules ++ [node.Identifier] else rs.feedRules := by
  obtain ⟨n, pr, rs0, hn, -, hfresh, hnew, hrs1⟩ := AddRule_ok_inv env _ config rs rs1 h
  cases hn
  obtain ⟨e1, e2, -, -, -, e6⟩ := NewPipeRule_spec env node config rs
  rw [hnew] at e1 e2 e6
  obtain ⟨hname, hflag, -⟩ := e6 pr rfl
  simp only at e1 e2
  have hstore : rs1.rules = rs.rules ++ [(node.Identifier, pr)] := by
    rw [hrs1]
    simp only
    rw [e1, hname, storeRule_fresh _ _ _ hfresh]
  refine ⟨hfresh, pr, by rw [hnew], hstore, by rw [hstore]; simp, ?_, ?_, ?_⟩
  · rw [hrs1]
    simp only [lookupRule_storeRule, hname, if_true]
  · intro name hne
    rw [hrs1]
    simp only [lookupRule_storeRule, hname, e1]
    rw [if_neg (fun hc => hne hc.symm)]
  · rw [hrs1]
    simp only [hflag, e2]

/-- C12 at a concrete call: rule `A` is added to the initial registry. -/
theorem AddRule_ok_stores_witness :
    lookupRule RuleSetInstance.rules ruleA.Identifier = none ∧
    ∃ pr, (NewPipeRule demoEnv ruleA noConfig RuleSetInstance).1 = .ok pr ∧
      (AddRule demoEnv (some ruleA) noConfig RuleSetInstance).2.rules =
        RuleSetInstance.rules ++ [(ruleA.Identifier, pr)] := by
  obtain ⟨h1, pr, h2, h3, -⟩ := AddRule_ok_stores demoEnv ruleA noConfig RuleSetInstance
    (AddRule demoEnv (some ruleA) noConfig RuleSetInstance).2 (by decide)
  exact ⟨h1, pr, h2, h3⟩

/-! ## C14: where feeders are -/

/-- C14: in every registry reachable through AddRule calls and for every rule
stored in it, a feeder occurs in the nodes only at index 0, it occurs there
exactly when the HasFeeder flag is set, and every node at an index greater than 0
is a filter; and the flag of a rule that AddRule has just stored is set exactly
when its tree declares a Feeder. -/
theorem feeder_only_at_head (env : Env) (rs : Ruleset) (hr : Reachable env rs) :
    (∀ name pr, lookupRule rs.rules name = some pr →
      (∀ (i : Nat) (f : Feeder), pr.nodes[i]? = some (.feeder f) → i = 0) ∧
      (pr.HasFeeder = true ↔ ∃ f, pr.nodes[0]? = some (.feeder f)) ∧
      (∀ (i : Nat) (n : Subscriber), 0 < i → pr.nodes[i]? = some n → n.asFilter.isSome = true)) ∧
    (∀ node config rs1, AddRule env (some node) config rs = (.ok (), rs1) →
      ∃ pr, lookupRule rs1.rules node.Identifier = some pr ∧
        (pr.HasFeeder = true ↔ node.Feeder.isSome = true)) := by
  constructor
  · intro name pr hpr
    obtain ⟨-, hT, hF⟩ := reachable_registered hr name pr hpr
    cases hflag : pr.HasFeeder with
    | true =>
      obtain ⟨f, fs, hn⟩ := hT hflag
      rw [hn]
      refine ⟨?_, ?_, ?_⟩
      · intro i g hg
        cases i with
        | zero => rfl
        | succ j =>
          simp only [List.getElem?_cons_succ, List.getElem?_map] at hg
          cases hfs : fs[j]? with
          | none => rw [hfs] at hg; simp at hg
          | some x => rw [hfs] at hg; simp at hg
      · simp
      · intro i n hi hn1
        cases i with
        | zero => omega
        | succ j =>
          simp only [List.getElem?_cons_succ, List.getElem?_map] at hn1
          cases hfs : fs[j]? with
          | none => rw [hfs] at hn1; simp at hn1
          | some x =>
            rw [hfs] at hn1
            simp only [Option.map_some', Option.some.injEq] at hn1
            subst hn1
            rfl
    | false =>
      obtain ⟨fs, hn⟩ := hF hflag
      rw [hn]
      refine ⟨?_, ?_, ?_⟩
      · intro i g hg
        simp only [List.getElem?_map] at hg
        cases hfs : fs[i]? with
        | none => rw [hfs] at hg; simp at hg
        | some x => rw [hfs] at hg; simp at hg
      · simp only [Bool.false_eq_true, false_iff, not_exists]
        intro g hg
        simp only [List.getElem?_map] at hg
        cases hfs : fs[0]? with
        | none => rw [hfs] at hg; simp at hg
        | some x => rw [hfs] at hg; simp at hg
      · intro i n _ hn1
        simp only [List.getElem?_map] at hn1
        cases hfs : fs[i]? with
        | none => rw [hfs] at hn1; simp at hn1
        | some x =>
          rw [hfs] at hn1
          simp only [Option.map_some', Option.some.injEq] at hn1
          subst hn1
          rfl
  · intro node config rs1 h
    obtain ⟨n, pr, rs0, hn, -, -, hnew, hrs1⟩ := AddRule_ok_inv env _ config rs rs1 h
    cases hn
    obtain ⟨-, -, -, -, -, e6⟩ := NewPipeRule_spec env node config rs
    rw [hnew] at e6
    obtain ⟨hname, hflag, -⟩ := e6 pr rfl
    refine ⟨pr, ?_, by rw [hflag]⟩
    rw [hrs1]
    simp only [lookupRule_storeRule, hname, if_true]

/-- C14 at a concrete registry: rule `A` has been added to the initial registry. -/
theorem feeder_only_at_head_witness :
    lookupRule (run demoEnv [(some ruleA, noConfig)] RuleSetInstance).rules "A" =
      some ⟨"A", true, [.feeder ⟨"topic:Ffeeder", 1⟩, .filter ⟨"topic:Xfilter", 2⟩]⟩ ∧
    ((PipeRule.mk "A" true [.feeder ⟨"topic:Ffeeder", 1⟩, .filter ⟨"topic:Xfilter", 2⟩]).HasFeeder
        = true ↔
      ∃ f, (PipeRule.mk "A" true [.feeder ⟨"topic:Ffeeder", 1⟩,
        .filter ⟨"topic:Xfilter", 2⟩]).nodes[0]? = some (.feeder f)) :=
  ⟨by decide,
   ((feeder_only_at_head demoEnv (run demoEnv [(some ruleA, noConfig)] RuleSetInstance)
      (reachable_run [(some ruleA, noConfig)] Reachable.init)).1 "A"
      ⟨"A", true, [.feeder ⟨"topic:Ffeeder", 1⟩, .filter ⟨"topic:Xfilter", 2⟩]⟩ (by decide)).2.1⟩

/-! ## C17, C18: what a call of AddRule does to lastId -/

theorem bump_add (x : Int) (j k : Nat) : bump (bump x j) k = bump x (j + k) := by
  induction k with
  | zero => rfl
  | succ n ih =>
    show wrap32 (bump (bump x j) n + 1) = wrap32 (bump x (j + n) + 1)
    rw [ih]

theorem bump_one_add (x : Int) (k : Nat) : bump (wrap32 (x + 1)) k = bump x (1 + k) := by
  have h := bump_add x 1 k
  simpa [bump] using h

theorem bump_of_small (x : Int) (k : Nat) (h0 : -2147483648 ≤ x)
    (h1 : x + k < 2147483648) : bump x k = x + k := by
  induction k with
  | zero => simp [bump]
  | succ n ih =>
    have hn : bump x n = x + n := ih (by push_cast at h1 ⊢; omega)
    simp only [bump, hn]
    push_cast at h1 ⊢
    unfold wrap32
    omega

theorem bumps_refl (a : Ruleset) : Bumps a a := ⟨0, rfl, rfl⟩

theorem bumps_trans {a b c : Ruleset} (h1 : Bumps a b) (h2 : Bumps b c) : Bumps a c := by
  obtain ⟨j, hj1, hj2⟩ := h1
  obtain ⟨k, hk1, hk2⟩ := h2
  exact ⟨j + k, by rw [hk1, hj1, bump_add], by rw [hk2, hj2, Nat.add_assoc]⟩

theorem bumps_of_eq {a b : Ruleset} (hl : b.lastId = a.lastId) (hc : b.calls = a.calls) :
    Bumps a b :=
  ⟨0, hl, by simp only [numInstantiated, instantiatedIds, hc, Nat.add_zero]⟩

theorem bumps_failed {a b : Ruleset} (c : FactoryCall) (hok : c.ok = false)
    (hl : b.lastId = a.lastId) (hc : b.calls = a.calls ++ [c]) : Bumps a b :=
  ⟨0, hl, by simp [numInstantiated, instantiatedIds, hc, List.filter_append, hok]⟩

theorem bumps_pushed {a b : Ruleset} (c : FactoryCall) (hok : c.ok = true)
    (hl : b.lastId = wrap32 (a.lastId + 1)) (hc : b.calls = a.calls ++ [c]) : Bumps a b :=
  ⟨1, by simp only [bump, hl],
    by simp [numInstantiated, instantiatedIds, hc, List.filter_append, hok]⟩

/-! ### The two steps, case by case -/

/-- When the filter step goes on, the factory returned a filter for this node,
the filter is appended to the nodes, `lastId` was incremented once, and the bus
gained one subscription for the filter on the upstream topic when that topic is
not empty, and none otherwise. -/
theorem addFilter_next (env : Env) (name : String) (params : List Param) (prev : String)
    (rs : Ruleset) (p : PipeRule) (t : String) (rs1 : Ruleset) (p1 : PipeRule)
    (h : addFilter env name params prev rs p = .next t rs1 p1) :
    ∃ m f, filterParams env params [] = some m ∧
      env.NewFilter (name ++ "filter") m (wrap32 (rs.lastId + 1)) = .ok f ∧
      t = f.GetIdentifier ∧ p1 = { p with nodes := p.nodes ++ [.filter f] } ∧
      rs1.lastId = wrap32 (rs.lastId + 1) ∧ rs1.rules = rs.rules ∧
      rs1.calls = rs.calls ++ [⟨false, name ++ "filter", m, wrap32 (rs.lastId + 1), true⟩] ∧
      rs1.bus = rs.bus ++
        (if prev ≠ "" then [⟨prev, ⟨p.Name, name, .filter f⟩⟩] else []) := by
  unfold addFilter at h
  rcases newFilter_spec env name params rs with h1 | ⟨e, c, -, h1⟩ | ⟨f, m, c, -, -, hm, hf, hc, h1⟩
  · rw [h1] at h; cases h
  · rw [h1] at h; cases h
  · rw [h1] at h
    subst hc
    by_cases hprev : prev = ""
    · simp only [hprev, ne_eq, not_true_eq_false, if_false, Step.next.injEq] at h
      obtain ⟨e1, e2, e3⟩ := h
      subst e1 e2 e3
      exact ⟨m, f, hm, hf, rfl, rfl, rfl, rfl, rfl, by simp [hprev]⟩
    · simp only [ne_eq, hprev, not_false_eq_true, if_true] at h
      rcases subscribe_spec env prev ⟨p.Name, name, .filter f⟩
        ({ rs with lastId := wrap32 (rs.lastId + 1),
                   calls := rs.calls ++
                     [⟨false, name ++ "filter", m, wrap32 (rs.lastId + 1), true⟩] } : Ruleset)
        with ⟨e, -, h2⟩ | ⟨-, h2⟩
      · rw [h2] at h; cases h
      · rw [h2] at h
        simp only [Step.next.injEq] at h
        obtain ⟨e1, e2, e3⟩ := h
        subst e1 e2 e3
        exact ⟨m, f, hm, hf, rfl, rfl, rfl, rfl, rfl, by simp [hprev]⟩

/-- When the filter step returns, it returns an error or panics. -/
theorem addFilter_ret (env : Env) (name : String) (params : List Param) (prev : String)
    (rs : Ruleset) (p : PipeRule) (r : Result Unit) (rs1 : Ruleset) (p1 : PipeRule)
    (h : addFilter env name params prev rs p = .ret r rs1 p1) : r ≠ .ok () := by
  unfold addFilter at h
  rcases newFilter_spec env name params rs with h1 | ⟨e, c, -, h1⟩ | ⟨f, m, c, -, -, -, -, -, h1⟩
  · rw [h1] at h; cases h; simp
  · rw [h1] at h; cases h; simp
  · rw [h1] at h
    by_cases hprev : prev = ""
    · simp [hprev] at h
    · simp only [ne_eq, hprev, not_false_eq_true, if_true] at h
      rcases subscribe_spec env prev ⟨p.Name, name, .filter f⟩
        ({ rs with lastId := wrap32 (rs.lastId + 1), calls := rs.calls ++ [c] } : Ruleset)
        with ⟨e, -, h2⟩ | ⟨-, h2⟩
      · rw [h2] at h; cases h; simp
      · rw [h2] at h; cases h

theorem leaveRuleCall_cases (r : PipeRule) (rs : Ruleset) (p : PipeRule) :
    (r.getLastNode = none ∧ leaveRuleCall r rs p = .ret .panic rs p) ∨
    (∃ last, r.getLastNode = some last ∧ leaveRuleCall r rs p = .next last.GetIdentifier rs p) := by
  cases h : r.getLastNode with
  | none => left; exact ⟨rfl, by simp only [leaveRuleCall, h]⟩
  | some last => right; exact ⟨last, rfl, leaveRuleCall_of_last r rs p last h⟩

/-- When the rule-call step goes on, the called rule is registered and has a last
node, whose topic is the new upstream; the rule under construction, `lastId`, the
rules map and the call log are untouched; the bus is untouched when the upstream
topic is empty, and otherwise the called rule has no feeder flag and the bus
gained one subscription, for the called rule's first node on the upstream topic. -/
theorem addRuleCall_next (env : Env) (name : String) (prev : String)
    (rs : Ruleset) (p : PipeRule) (t : String) (rs1 : Ruleset) (p1 : PipeRule)
    (h : addRuleCall env name prev rs p = .next t rs1 p1) :
    ∃ T last, lookupRule rs.rules name = some T ∧ T.getLastNode = some last ∧
      t = last.GetIdentifier ∧ p1 = p ∧ rs1.lastId = rs.lastId ∧ rs1.rules = rs.rules ∧
      rs1.calls = rs.calls ∧
      (prev = "" → rs1.bus = rs.bus) ∧
      (prev ≠ "" → T.HasFeeder = false ∧ ∃ first, T.getFirstNode = some first ∧
        rs1.bus = rs.bus ++ [⟨prev, ⟨p.Name, name, first⟩⟩]) := by
  unfold addRuleCall getRuleCall at h
  cases hl : lookupRule rs.rules name with
  | none => rw [hl] at h; cases h
  | some T =>
    rw [hl] at h
    simp only at h
    by_cases hprev : prev = ""
    · simp only [hprev, ne_eq, not_true_eq_false, if_false] at h
      rcases leaveRuleCall_cases T rs p with ⟨-, h2⟩ | ⟨last, hlast, h2⟩
      · rw [h2] at h; cases h
      · rw [h2] at h
        simp only [Step.next.injEq] at h
        obtain ⟨e1, e2, e3⟩ := h
        subst e1 e2 e3
        exact ⟨T, last, rfl, hlast, rfl, rfl, rfl, rfl, rfl, fun _ => rfl,
          fun hne => absurd hprev hne⟩
    · simp only [ne_eq, hprev, not_false_eq_true, if_true] at h
      cases hF : T.HasFeeder with
      | true => rw [hF] at h; cases h
      | false =>
        rw [hF] at h
        simp only [Bool.false_eq_true, if_false] at h
        cases hfirst : T.getFirstNode with
        | none => rw [hfirst] at h; cases h
        | some first =>
          rw [hfirst] at h
          simp only at h
          rcases subscribe_spec env prev ⟨p.Name, name, first⟩ rs with ⟨e, -, h2⟩ | ⟨-, h2⟩
          · rw [h2] at h; cases h
          · rw [h2] at h
            simp only at h
            rcases leaveRuleCall_cases T
              ({ rs with bus := rs.bus ++ [⟨prev, ⟨p.Name, name, first⟩⟩] } : Ruleset) p
              with ⟨-, h3⟩ | ⟨last, hlast, h3⟩
            · rw [h3] at h; cases h
            · rw [h3] at h
              simp only [Step.next.injEq] at h
              obtain ⟨e1, e2, e3⟩ := h
              subst e1 e2 e3
              exact ⟨T, last, rfl, hlast, rfl, rfl, rfl, rfl, rfl, fun he => absurd he hprev,
                fun _ => ⟨hF, first, hfirst, rfl⟩⟩

/-- When the rule-call step returns, it returns an error or panics, and it leaves
`lastId` and the call log as they were. -/
theorem addRuleCall_ret (env : Env) (name : String) (prev : String)
    (rs : Ruleset) (p : PipeRule) (r : Result Unit) (rs1 : Ruleset) (p1 : PipeRule)
    (h : addRuleCall env name prev rs p = .ret r rs1 p1) :
    r ≠ .ok () ∧ rs1.lastId = rs.lastId ∧ rs1.calls = rs.calls := by
  unfold addRuleCall getRuleCall at h
  cases hl : lookupRule rs.rules name with
  | none => rw [hl] at h; cases h; simp
  | some T =>
    rw [hl] at h
    simp only at h
    by_cases hprev : prev = ""
    · simp only [hprev, ne_eq, not_true_eq_false, if_false] at h
      rcases leaveRuleCall_cases T rs p with ⟨-, h2⟩ | ⟨last, hlast, h2⟩
      · rw [h2] at h; cases h; simp
      · rw [h2] at h; cases h
    · simp only [ne_eq, hprev, not_false_eq_true, if_true] at h
      cases hF : T.HasFeeder with
      | true => rw [hF] at h; cases h; simp
      | false =>
        rw [hF] at h
        simp only [Bool.false_eq_true, if_false] at h
        cases hfirst : T.getFirstNode with
        | none => rw [hfirst] at h; cases h; simp
        | some first =>
          rw [hfirst] at h
          simp only at h
          rcases subscribe_spec env prev ⟨p.Name, name, first⟩ rs with ⟨e, -, h2⟩ | ⟨-, h2⟩
          · rw [h2] at h; cases h; simp
          · rw [h2] at h
            simp only at h
            rcases leaveRuleCall_cases T
              ({ rs with bus := rs.bus ++ [⟨prev, ⟨p.Name, name, first⟩⟩] } : Ruleset) p
              with ⟨-, h3⟩ | ⟨last, hlast, h3⟩
            · rw [h3] at h; cases h; simp
            · rw [h3] at h; cases h

theorem addFilter_bumps (env : Env) (name : String) (params : List Param) (prev : String)
    (rs : Ruleset) (p : PipeRule) : Bumps rs (addFilter env name params prev rs p).state.1 := by
  unfold addFilter
  rcases newFilter_spec env name params rs with h | ⟨e, c, hc, h⟩ | ⟨f, m, c, hc, -, -, -, -, h⟩
  · rw [h]; exact bumps_refl _
  · rw [h]; exact bumps_failed c hc rfl rfl
  · rw [h]
    generalize hrs1 : ({ rs with lastId := wrap32 (rs.lastId + 1), calls := rs.calls ++ [c] } :
      Ruleset) = rs1
    have e4 : rs1.calls = rs.calls ++ [c] := by rw [← hrs1]
    have e5 : rs1.lastId = wrap32 (rs.lastId + 1) := by rw [← hrs1]
    by_cases hprev : prev = ""
    · simp only [hprev, ne_eq, not_true_eq_false, if_false, Step.state]
      exact bumps_pushed c hc e5 e4
    · simp only [ne_eq, hprev, not_false_eq_true, if_true]
      rcases subscribe_spec env prev ⟨p.Name, name, .filter f⟩ rs1 with ⟨e, -, hs⟩ | ⟨-, hs⟩
      · rw [hs]; exact bumps_pushed c hc e5 e4
      · rw [hs]; exact bumps_pushed c hc e5 e4

theorem addRuleCall_bumps (env : Env) (name : String) (prev : String)
    (rs : Ruleset) (p : PipeRule) : Bumps rs (addRuleCall env name prev rs p).state.1 := by
  cases h : addRuleCall env name prev rs p with
  | ret r rs1 p1 =>
    obtain ⟨-, h1, h2⟩ := addRuleCall_ret env name prev rs p r rs1 p1 h
    exact bumps_of_eq h1 h2
  | next t rs1 p1 =>
    obtain ⟨T, last, -, -, -, -, h1, -, h2, -, -⟩ := addRuleCall_next env name prev rs p t rs1 p1 h
    exact bumps_of_eq h1 h2

theorem addNode_bumps (env : Env) (node : Node) (prev : String) (rs : Ruleset) (p : PipeRule) :
    Bumps rs (addNode env node prev rs p).2.1 :=
  addNode_rel env (fun a b => Bumps a.1 b.1) (fun a => bumps_refl a.1)
    (fun _ _ _ h1 h2 => bumps_trans h1 h2) (addFilter_bumps env) (addRuleCall_bumps env)
    node prev rs p

theorem NewPipeRule_bumps (env : Env) (node : RuleNode) (config : Configuration) (rs : Ruleset) :
    Bumps rs (NewPipeRule env node config rs).2 := by
  unfold NewPipeRule
  cases hfd : node.Feeder with
  | none =>
    simp only [finish_snd]
    exact addNode_bumps env _ _ rs _
  | some fd =>
    simp only
    rcases addFeeder_spec env node.Identifier fd config rs with
      h | ⟨e, c, hc, h⟩ | ⟨f, cfg, c, hc, -, -, -, -, h⟩
    · rw [h]; exact bumps_refl _
    · rw [h]; exact bumps_failed c hc rfl rfl
    · rw [h]
      simp only [finish_snd]
      exact bumps_trans (bumps_pushed c hc rfl rfl) (addNode_bumps env _ _ _ _)

/-- C17: whenever AddRule does not succeed, for whatever reason, the rules map
and feedRules are exactly what they were before the call; the bus is the bus
before the call with the subscriptions made meanwhile added at its end, and
lastId has been incremented once for each node instantiated meanwhile. -/
theorem AddRule_failed_keeps (env : Env) (node : Option RuleNode) (config : Configuration)
    (rs : Ruleset) (h : (AddRule env node config rs).1 ≠ .ok ()) :
    (AddRule env node config rs).2.rules = rs.rules ∧
    (AddRule env node config rs).2.feedRules = rs.feedRules ∧
    (∃ subs, (AddRule env node config rs).2.bus = rs.bus ++ subs) ∧
    (∃ k : Nat, (AddRule env node config rs).2.lastId = bump rs.lastId k ∧
      numInstantiated (AddRule env node config rs).2 = numInstantiated rs + k) := by
  rcases AddRule_failed_inv env node config rs h with h1 | ⟨n, -, h1⟩
  · rw [h1]; exact ⟨rfl, rfl, ⟨[], by simp⟩, 0, rfl, rfl⟩
  · rw [h1]
    obtain ⟨e1, e2, e3, -, -, -⟩ := NewPipeRule_spec env n config rs
    exact ⟨e1, e2, e3, NewPipeRule_bumps env n config rs⟩

/-- C17 at a concrete call: the rule `r`, whose chain ends in a call of an
unknown rule, is added to the initial registry. -/
theorem AddRule_failed_keeps_witness :
    (AddRule demoEnv (some danglingRule) noConfig RuleSetInstance).1 ≠ .ok () ∧
    (AddRule demoEnv (some danglingRule) noConfig RuleSetInstance).2.rules
      = RuleSetInstance.rules ∧
    (AddRule demoEnv (some danglingRule) noConfig RuleSetInstance).2.feedRules
      = RuleSetInstance.feedRules :=
  ⟨by decide,
   (AddRule_failed_keeps demoEnv (some danglingRule) noConfig RuleSetInstance (by decide)).1,
   (AddRule_failed_keeps demoEnv (some danglingRule) noConfig RuleSetInstance (by decide)).2.1⟩

theorem addNode_ok_count (env : Env) (node : Node) (prev : String) (rs : Ruleset) (p : PipeRule)
    (rs1 : Ruleset) (p1 : PipeRule) (h : addNode env node prev rs p = (.ok (), rs1, p1)) :
    ∃ k : Nat, p1.nodes.length = p.nodes.length + k ∧ rs1.lastId = bump rs.lastId k := by
  induction node, prev, rs, p using addNode.induct env with
  | case1 prev rs p =>
    simp only [addNode, Prod.mk.injEq, true_and] at h
    obtain ⟨e1, e2⟩ := h
    subst e1 e2
    exact ⟨0, rfl, rfl⟩
  | case2 name params next rc prev rs p r rs2 p2 hs =>
    simp only [addNode, hs, Prod.mk.injEq] at h
    exact absurd h.1 (addFilter_ret env name params prev rs p r rs2 p2 hs)
  | case3 name params next rc prev rs p topic rs2 p2 hs ih =>
    simp only [addNode, hs] at h
    obtain ⟨k, hk1, hk2⟩ := ih h
    obtain ⟨m, f, -, -, -, hp2, hl, -, -, -⟩ := addFilter_next env name params prev rs p _ _ _ hs
    refine ⟨1 + k, ?_, ?_⟩
    · rw [hk1, hp2]; simp; omega
    · rw [hk2, hl, bump_one_add]
  | case4 name next prev rs p r rs2 p2 hs =>
    simp only [addNode, hs, Prod.mk.injEq] at h
    exact absurd h.1 (addRuleCall_ret env name prev rs p r rs2 p2 hs).1
  | case5 name next prev rs p topic rs2 p2 hs ih =>
    simp only [addNode, hs] at h
    obtain ⟨k, hk1, hk2⟩ := ih h
    obtain ⟨T, last, -, -, -, hp2, hl, -, -, -, -⟩ := addRuleCall_next env name prev rs p _ _ _ hs
    exact ⟨k, by rw [hk1, hp2], by rw [hk2, hl]⟩
  | case6 prev rs p =>
    simp only [addNode, Prod.mk.injEq, true_and] at h
    obtain ⟨e1, e2⟩ := h
    subst e1 e2
    exact ⟨0, rfl, rfl⟩

theorem finish_ok_eq (x : Result Unit × Ruleset × PipeRule) (pr : PipeRule) (rs1 : Ruleset)
    (h : finish x = (.ok pr, rs1)) : x = (.ok (), rs1, pr) := by
  obtain ⟨r, rs, p⟩ := x
  cases r with
  | ok u => simp only [finish, Prod.mk.injEq, Result.ok.injEq] at h; rw [h.1, h.2]
  | error e => simp [finish] at h
  | panic => simp [finish] at h

theorem NewPipeRule_ok_count (env : Env) (node : RuleNode) (config : Configuration)
    (rs rs1 : Ruleset) (pr : PipeRule) (h : NewPipeRule env node config rs = (.ok pr, rs1)) :
    rs1.lastId = bump rs.lastId pr.nodes.length := by
  unfold NewPipeRule at h
  cases hfd : node.Feeder with
  | none =>
    rw [hfd] at h
    simp only at h
    obtain ⟨k, hk1, hk2⟩ := addNode_ok_count env _ _ _ _ _ _ (finish_ok_eq _ _ _ h)
    simp only [List.length_nil, Nat.zero_add] at hk1
    rw [hk1, hk2]
  | some fd =>
    rw [hfd] at h
    simp only at h
    rcases addFeeder_spec env node.Identifier fd config rs with
      h1 | ⟨e, c, -, h1⟩ | ⟨f, cfg, c, -, -, -, -, -, h1⟩
    · rw [h1] at h; simp [finish] at h
    · rw [h1] at h; simp [finish] at h
    · rw [h1] at h
      simp only at h
      obtain ⟨k, hk1, hk2⟩ := addNode_ok_count env _ _ _ _ _ _ (finish_ok_eq _ _ _ h)
      simp only [List.length_singleton] at hk1
      rw [hk1, hk2, bump_one_add]

/-- C18 as stated fails: in the registry whose lastId is 2147483647, the largest
int32, adding rule `P` (one filter) succeeds and the compiled rule has one node,
but lastId is -2147483648 afterwards: the difference is not 1. -/
theorem lastId_difference_wraps :
    (AddRule demoEnv (some ruleP) noConfig ⟨[], [], [], 2147483647, []⟩).1 = .ok () ∧
    (lookupRule (AddRule demoEnv (some ruleP) noConfig ⟨[], [], [], 2147483647, []⟩).2.rules
      "P").map (fun pr => pr.nodes.length) = some 1 ∧
    (AddRule demoEnv (some ruleP) noConfig ⟨[], [], [], 2147483647, []⟩).2.lastId
      - 2147483647 ≠ 1 := by
  decide

/-- C18, as the code has it: whenever AddRule succeeds, lastId after the call is
lastId before the call incremented, as an int32, once for each node of the
compiled rule: each node appended to nodes consumed exactly one identifier and
rule calls consumed none. When these increments do not overflow the int32, lastId
after the call minus lastId before the call equals the length of the nodes. -/
theorem lastId_advances_by_nodes (env : Env) (node : RuleNode) (config : Configuration)
    (rs rs1 : Ruleset) (h : AddRule env (some node) config rs = (.ok (), rs1)) :
    ∃ pr, lookupRule rs1.rules node.Identifier = some pr ∧
      rs1.lastId = bump rs.lastId pr.nodes.length ∧
      (-2147483648 ≤ rs.lastId → rs.lastId + pr.nodes.length < 2147483648 →
        rs1.lastId - rs.lastId = pr.nodes.length) := by
  obtain ⟨n, pr, rs0, hn, -, -, hnew, hrs1⟩ := AddRule_ok_inv env _ config rs rs1 h
  cases hn
  obtain ⟨-, -, -, -, -, e6⟩ := NewPipeRule_spec env node config rs
  rw [hnew] at e6
  obtain ⟨hname, -, -⟩ := e6 pr rfl
  have hl : rs1.lastId = bump rs.lastId pr.nodes.length := by
    rw [hrs1]
    exact NewPipeRule_ok_count env node config rs rs0 pr hnew
  refine ⟨pr, ?_, hl, ?_⟩
  · rw [hrs1]
    simp only [lookupRule_storeRule, hname, if_true]
  · intro h0 h1
    rw [hl, bump_of_small _ _ h0 h1]
    ring

/-- C18 at a concrete call: rule `A` is added to the initial registry. -/
theorem lastId_advances_by_nodes_witness :
    ∃ pr, lookupRule (AddRule demoEnv (some ruleA) noConfig RuleSetInstance).2.rules "A"
        = some pr ∧
      (AddRule demoEnv (some ruleA) noConfig RuleSetInstance).2.lastId
        = bump RuleSetInstance.lastId pr.nodes.length := by
  obtain ⟨pr, h1, h2, -⟩ := lastId_advances_by_nodes demoEnv ruleA noConfig RuleSetInstance
    (AddRule demoEnv (some ruleA) noConfig RuleSetInstance).2 (by decide)
  exact ⟨pr, h1, h2⟩

/-! ## C15: the configuration handed to the feeder factory -/

theorem StrMap.get?_set (m : StrMap) (k v k1 : String) :
    StrMap.get? (StrMap.set m k v) k1 = if k = k1 then some v else StrMap.get? m k1 := by
  induction m with
  | nil => simp [StrMap.set, StrMap.get?]
  | cons hd tl ih =>
    obtain ⟨k0, v0⟩ := hd
    by_cases h0 : k0 = k
    · subst h0
      by_cases h1 : k0 = k1 <;> simp [StrMap.set, StrMap.get?, h1]
    · by_cases h1 : k0 = k1
      · subst h1
        have : ¬ k = k0 := fun h => h0 h.symm
        simp [StrMap.set, StrMap.get?, h0, this]
      · simp [StrMap.set, StrMap.get?, h0, h1, ih]

theorem paramString_some (env : Env) (par : Param) (h : par.wellFormed) :
    ∃ v, paramString env par.Value = some v := by
  unfold paramString
  cases hn : par.Value.Number with
  | some x => exact ⟨_, rfl⟩
  | none =>
    rcases h with h | h
    · rw [hn] at h; simp at h
    · exact Option.isSome_iff_exists.mp h

theorem feederConfig_some (env : Env) (feeder : String) (params : List Param) (m0 : StrMap)
    (h : ∀ par ∈ params, par.wellFormed) : ∃ m, feederConfig env feeder params m0 = some m := by
  induction params generalizing m0 with
  | nil => exact ⟨m0, rfl⟩
  | cons par rest ih =>
    obtain ⟨v, hv⟩ := paramString_some env par (h par (List.mem_cons_self _ _))
    obtain ⟨m, hm⟩ := ih (StrMap.set m0 (feeder ++ "." ++ par.Name) v)
      (fun q hq => h q (List.mem_cons_of_mem _ hq))
    exact ⟨m, by simp only [feederConfig, hv, hm]⟩

theorem feederConfig_get (env : Env) (feeder : String) (params : List Param) (m cfg : StrMap)
    (h : feederConfig env feeder params m = some cfg) :
    (∀ k, (∀ q ∈ params, feeder ++ "." ++ q.Name ≠ k) → StrMap.get? cfg k = StrMap.get? m k) ∧
    (∀ pre par post, params = pre ++ par :: post →
      (∀ q ∈ post, feeder ++ "." ++ q.Name ≠ feeder ++ "." ++ par.Name) →
      StrMap.get? cfg (feeder ++ "." ++ par.Name) = paramString env par.Value) := by
  induction params generalizing m with
  | nil =>
    simp only [feederConfig, Option.some.injEq] at h
    subst h
    exact ⟨fun _ _ => rfl, fun pre par post hp => by simp at hp⟩
  | cons x rest ih =>
    cases hx : paramString env x.Value with
    | none => simp [feederConfig, hx] at h
    | some v =>
      simp only [feederConfig, hx] at h
      obtain ⟨ih1, ih2⟩ := ih _ h
      constructor
      · intro k hk
        rw [ih1 k (fun q hq => hk q (List.mem_cons_of_mem _ hq)), StrMap.get?_set,
          if_neg (hk x (List.mem_cons_self _ _))]
      · intro pre par post hp hpost
        cases pre with
        | nil =>
          simp only [List.nil_append, List.cons.injEq] at hp
          obtain ⟨e1, e2⟩ := hp
          subst e1 e2
          rw [ih1 _ hpost, StrMap.get?_set, if_pos rfl, hx]
        | cons y pre1 =>
          simp only [List.cons_append, List.cons.injEq] at hp
          exact ih2 pre1 par post hp.2 hpost

/-- C15: for every rule tree that declares a feeder with well-formed parameters,
the feeder factory is called with the kind name `<Feeder.Name>feeder`, with
lastId + 1 (as an int32) as its topic identifier, and with a configuration map in
which every key that is not `<Feeder.Name>.<Param.Name>` for some parameter has
the value GetConfig gives it, and every key `<Feeder.Name>.<Param.Name>` has the
string value of the last parameter in the list with that name; and whenever
NewPipeRule succeeds, the feeder the factory returned is nodes[0] and HasFeeder
is true. -/
theorem feeder_factory_call (env : Env) (node : RuleNode) (fd : FeederNode)
    (config : Configuration) (rs : Ruleset) (hfd : node.Feeder = some fd)
    (hpar : ∀ par ∈ fd.Params, par.wellFormed) :
    ∃ cfg, feederConfig env fd.Name fd.Params config.GetConfig = some cfg ∧
      (∀ k, (∀ q ∈ fd.Params, fd.Name ++ "." ++ q.Name ≠ k) →
        StrMap.get? cfg k = StrMap.get? config.GetConfig k) ∧
      (∀ pre par post, fd.Params = pre ++ par :: post →
        (∀ q ∈ post, fd.Name ++ "." ++ q.Name ≠ fd.Name ++ "." ++ par.Name) →
        StrMap.get? cfg (fd.Name ++ "." ++ par.Name) = paramString env par.Value) ∧
      (∃ ok later, (NewPipeRule env node config rs).2.calls =
        rs.calls ++ ⟨true, fd.Name ++ "feeder", cfg, wrap32 (rs.lastId + 1), ok⟩ :: later) ∧
      (-2147483648 ≤ rs.lastId → rs.lastId < 2147483647 →
        wrap32 (rs.lastId + 1) = rs.lastId + 1) ∧
      (∀ pr rs1, NewPipeRule env node config rs = (.ok pr, rs1) →
        ∃ f, env.NewFeeder (fd.Name ++ "feeder") cfg (wrap32 (rs.lastId + 1)) = .ok f ∧
          pr.HasFeeder = true ∧ pr.nodes[0]? = some (.feeder f)) := by
  obtain ⟨cfg, hcfg⟩ := feederConfig_some env fd.Name fd.Params config.GetConfig hpar
  obtain ⟨g1, g2⟩ := feederConfig_get env fd.Name fd.Params _ cfg hcfg
  refine ⟨cfg, hcfg, g1, g2, ?_, ?_, ?_⟩
  · simp only [NewPipeRule, hfd]
    rcases addFeeder_spec env node.Identifier fd config rs with
      h | ⟨e, c, -, h⟩ | ⟨f, cfg1, c, -, -, hc1, hf, hc, h⟩
    · simp [addFeeder, hcfg] at h
      cases hx : env.NewFeeder (fd.Name ++ "feeder") cfg (wrap32 (rs.lastId + 1)) <;>
        simp [hx] at h
    · rw [h]
      simp only [addFeeder, hcfg] at h
      cases hx : env.NewFeeder (fd.Name ++ "feeder") cfg (wrap32 (rs.lastId + 1)) with
      | ok f => simp [hx] at h
      | error e1 =>
        simp only [hx, Step.ret.injEq] at h
        refine ⟨false, [], ?_⟩
        simp only [finish]
        exact (congrArg Ruleset.calls h.2.1).symm
    · rw [h]
      rw [hcfg] at hc1
      cases hc1
      subst hc
      simp only [finish_snd]
      obtain ⟨cs, hcs⟩ := (addNode_walks env fd.Next f.GetIdentifier
        ({ rs with lastId := wrap32 (rs.lastId + 1),
                   calls := rs.calls ++
                     [⟨true, fd.Name ++ "feeder", cfg, wrap32 (rs.lastId + 1), true⟩] } : Ruleset)
        ⟨node.Identifier, true, [.feeder f]⟩).2.2.2.2.2.2.1
      exact ⟨true, cs, by rw [hcs]; simp⟩
  · intro h0 h1
    unfold wrap32
    omega
  · intro pr rs1 hnew
    simp only [NewPipeRule, hfd] at hnew
    rcases addFeeder_spec env node.Identifier fd config rs with
      h | ⟨e, c, -, h⟩ | ⟨f, cfg1, c, -, -, hc1, hf, hc, h⟩
    · rw [h] at hnew; simp [finish] at hnew
    · rw [h] at hnew; simp [finish] at hnew
    · rw [h] at hnew
      rw [hcfg] at hc1
      cases hc1
      simp only at hnew
      have hx := finish_ok_eq _ _ _ hnew
      obtain ⟨-, -, -, w4, ⟨fs, w5⟩, -, -, -⟩ := addNode_walks env fd.Next f.GetIdentifier
        ({ rs with lastId := wrap32 (rs.lastId + 1), calls := rs.calls ++ [c] } : Ruleset)
        ⟨node.Identifier, true, [.feeder f]⟩
      rw [hx] at w4 w5
      simp only at w4 w5
      exact ⟨f, hf, w4, by rw [w5]; simp⟩

/-- C15 at a feeder `F` with the parameters `a = "old"`, `b = 5` and `a = "newer"`,
in that order, over the configuration `other = v`, `F.a = base`: the factory is
handed a map in which `other` is still `v`, `F.a` is `newer` (the later parameter
wins, and the value of the configuration is overridden) and `F.b` is the
formatted number; its identifier is 1. -/
theorem feeder_factory_call_witness :
    ∃ cfg,
      feederConfig demoEnv "F"
        [⟨"a", ⟨none, some "old"⟩⟩, ⟨"b", ⟨some five, none⟩⟩, ⟨"a", ⟨none, some "newer"⟩⟩]
        [("other", "v"), ("F.a", "base")] = some cfg ∧
      StrMap.get? cfg "other" = some "v" ∧
      StrMap.get? cfg ("F" ++ "." ++ "a") = some "newer" ∧
      StrMap.get? cfg ("F" ++ "." ++ "b") = some "5E+00" ∧
      (∃ ok later,
        (NewPipeRule demoEnv
          ⟨"G", some ⟨"F", [⟨"a", ⟨none, some "old"⟩⟩, ⟨"b", ⟨some five, none⟩⟩,
            ⟨"a", ⟨none, some "newer"⟩⟩], .nil⟩, .nil⟩
          ⟨[("other", "v"), ("F.a", "base")]⟩ RuleSetInstance).2.calls =
        RuleSetInstance.calls ++
          ⟨true, "F" ++ "feeder", cfg, wrap32 (RuleSetInstance.lastId + 1), ok⟩ :: later) := by
  obtain ⟨cfg, h1, g1, g2, h4, -, -⟩ := feeder_factory_call demoEnv
    ⟨"G", some ⟨"F", [⟨"a", ⟨none, some "old"⟩⟩, ⟨"b", ⟨some five, none⟩⟩,
      ⟨"a", ⟨none, some "newer"⟩⟩], .nil⟩, .nil⟩
    ⟨"F", [⟨"a", ⟨none, some "old"⟩⟩, ⟨"b", ⟨some five, none⟩⟩, ⟨"a", ⟨none, some "newer"⟩⟩], .nil⟩
    ⟨[("other", "v"), ("F.a", "base")]⟩ RuleSetInstance rfl
    (by
      intro par hp
      simp only [List.mem_cons, List.mem_singleton, List.not_mem_nil, or_false] at hp
      rcases hp with hp | hp | hp <;> subst hp <;> simp [Param.wellFormed])
  refine ⟨cfg, h1, ?_, ?_, ?_, h4⟩
  · exact (g1 "other" (by decide)).trans (by decide)
  · exact (g2 [⟨"a", ⟨none, some "old"⟩⟩, ⟨"b", ⟨some five, none⟩⟩] ⟨"a", ⟨none, some "newer"⟩⟩ []
      rfl (by decide)).trans rfl
  · exact (g2 [⟨"a", ⟨none, some "old"⟩⟩] ⟨"b", ⟨some five, none⟩⟩ [⟨"a", ⟨none, some "newer"⟩⟩]
      rfl (by decide)).trans (by decide)

/-! ## C13: what a subscription handler does with a message -/

theorem filterTargets_append {bus subs : Bus} (h1 : FilterTargets bus) (h2 : FilterTargets subs) :
    FilterTargets (bus ++ subs) := by
  intro s hs
  rcases List.mem_append.mp hs with h | h
  · exact h1 s h
  · exact h2 s h

theorem registered_congr {a b : Ruleset} (h : b.rules = a.rules) (hr : Registered a) :
    Registered b := by
  intro name pr hpr
  rw [h] at hpr
  exact hr name pr hpr

theorem addFilter_keepsTargets (env : Env) (name : String) (params : List Param) (prev : String)
    (rs : Ruleset) (p : PipeRule) :
    KeepsTargets (rs, p) (addFilter env name params prev rs p).state := by
  have hw := addFilter_walks env name params prev rs p
  refine ⟨hw.1, ?_⟩
  intro _ hb
  cases h : addFilter env name params prev rs p with
  | next t rs1 p1 =>
    obtain ⟨m, f, -, -, -, -, -, -, -, hbus⟩ := addFilter_next env name params prev rs p t rs1 p1 h
    simp only [Step.state]
    rw [hbus]
    refine filterTargets_append hb ?_
    intro s hs
    by_cases hprev : prev = ""
    · simp [hprev] at hs
    · simp only [ne_eq, hprev, not_false_eq_true, if_true, List.mem_singleton] at hs
      subst hs
      exact ⟨f, rfl⟩
  | ret r rs1 p1 =>
    simp only [Step.state]
    unfold addFilter at h
    rcases newFilter_spec env name params rs with h1 | ⟨e, c, -, h1⟩ | ⟨f, m, c, -, -, -, -, -, h1⟩
    · rw [h1] at h; cases h; exact hb
    · rw [h1] at h; cases h; exact hb
    · rw [h1] at h
      by_cases hprev : prev = ""
      · simp [hprev] at h
      · simp only [ne_eq, hprev, not_false_eq_true, if_true] at h
        rcases subscribe_spec env prev ⟨p.Name, name, .filter f⟩
          ({ rs with lastId := wrap32 (rs.lastId + 1), calls := rs.calls ++ [c] } : Ruleset)
          with ⟨e, -, h2⟩ | ⟨-, h2⟩
        · rw [h2] at h; cases h; exact hb
        · rw [h2] at h; cases h

theorem addRuleCall_bus (env : Env) (name : String) (prev : String)
    (rs : Ruleset) (p : PipeRule) :
    (addRuleCall env name prev rs p).state.1.bus = rs.bus ∨
    ∃ T first, lookupRule rs.rules name = some T ∧ T.HasFeeder = false ∧
      T.getFirstNode = some first ∧
      (addRuleCall env name prev rs p).state.1.bus = rs.bus ++ [⟨prev, ⟨p.Name, name, first⟩⟩] := by
  unfold addRuleCall getRuleCall
  cases hl : lookupRule rs.rules name with
  | none => left; rfl
  | some T =>
    simp only
    by_cases hprev : prev = ""
    · left
      simp only [hprev, ne_eq, not_true_eq_false, if_false, leaveRuleCall_state]
    · simp only [ne_eq, hprev, not_false_eq_true, if_true]
      cases hF : T.HasFeeder with
      | true => left; rfl
      | false =>
        simp only [Bool.false_eq_true, if_false]
        cases hfirst : T.getFirstNode with
        | none => left; rfl
        | some first =>
          simp only
          rcases subscribe_spec env prev ⟨p.Name, name, first⟩ rs with ⟨e, -, h2⟩ | ⟨-, h2⟩
          · left; rw [h2]; rfl
          · right
            rw [h2]
            exact ⟨T, first, rfl, hF, hfirst, by simp only [leaveRuleCall_state]⟩

theorem addRuleCall_keepsTargets (env : Env) (name : String) (prev : String)
    (rs : Ruleset) (p : PipeRule) :
    KeepsTargets (rs, p) (addRuleCall env name prev rs p).state := by
  have hw := addRuleCall_walks env name prev rs p
  refine ⟨hw.1, ?_⟩
  intro hreg hb
  rcases addRuleCall_bus env name prev rs p with h | ⟨T, first, hT, hF, hfirst, h⟩
  · rw [h]; exact hb
  · rw [h]
    refine filterTargets_append hb ?_
    intro s hs
    simp only [List.mem_singleton] at hs
    subst hs
    obtain ⟨fs, hfs⟩ := (hreg name T hT).2.2 hF
    simp only [PipeRule.getFirstNode, hfs] at hfirst
    cases fs with
    | nil => simp at hfirst
    | cons f rest =>
      simp only [List.map_cons, List.head?_cons, Option.some.injEq] at hfirst
      exact ⟨f, hfirst.symm⟩

theorem addNode_keepsTargets (env : Env) (node : Node) (prev : String) (rs : Ruleset)
    (p : PipeRule) : KeepsTargets (rs, p) (addNode env node prev rs p).2 :=
  addNode_rel env KeepsTargets (fun _ => ⟨rfl, fun _ h => h⟩)
    (fun _ _ _ h1 h2 => ⟨h2.1.trans h1.1,
      fun hr hb => h2.2 (registered_congr h1.1 hr) (h1.2 hr hb)⟩)
    (addFilter_keepsTargets env) (addRuleCall_keepsTargets env) node prev rs p

theorem NewPipeRule_keepsTargets (env : Env) (node : RuleNode) (config : Configuration)
    (rs : Ruleset) (hr : Registered rs) (hb : FilterTargets rs.bus) :
    FilterTargets (NewPipeRule env node config rs).2.bus := by
  unfold NewPipeRule
  cases hfd : node.Feeder with
  | none =>
    simp only [finish_snd]
    exact (addNode_keepsTargets env _ _ rs _).2 hr hb
  | some fd =>
    simp only
    rcases addFeeder_spec env node.Identifier fd config rs with
      h | ⟨e, c, -, h⟩ | ⟨f, cfg, c, -, -, -, -, -, h⟩
    · rw [h]; exact hb
    · rw [h]; exact hb
    · rw [h]
      simp only [finish_snd]
      exact (addNode_keepsTargets env _ _ _ _).2 (registered_congr rfl hr) hb

theorem AddRule_keepsTargets (env : Env) (node : Option RuleNode) (config : Configuration)
    (rs : Ruleset) (hr : Registered rs) (hb : FilterTargets rs.bus) :
    FilterTargets (AddRule env node config rs).2.bus := by
  by_cases hok : (AddRule env node config rs).1 = .ok ()
  · obtain ⟨n, pr, rs0, -, -, -, hnew, hrs1⟩ :=
      AddRule_ok_inv env node config rs (AddRule env node config rs).2 (by rw [← hok])
    rw [hrs1]
    have := NewPipeRule_keepsTargets env n config rs hr hb
    rw [hnew] at this
    exact this
  · rcases AddRule_failed_inv env node config rs hok with h | ⟨n, -, h⟩
    · rw [h]; exact hb
    · rw [h]; exact NewPipeRule_keepsTargets env n config rs hr hb

theorem reachable_filterTargets {env : Env} {rs : Ruleset} (h : Reachable env rs) :
    FilterTargets rs.bus := by
  induction h with
  | init => intro s hs; simp [RuleSetInstance] at hs
  | step rs node config hr ih =>
    exact AddRule_keepsTargets env node config rs (reachable_registered hr) ih

/-- C13 as stated fails: a filter whose DoFilter reports a match together with an
error has its message propagated by the handler, which discards the error. -/
theorem handler_propagates_despite_error :
    (matchWithError.DoFilter ⟨"topic:Xfilter", 1⟩ ⟨"m"⟩).2.1 = some "failed" ∧
    Handler.run matchWithError ⟨"A", "X", .filter ⟨"topic:Xfilter", 1⟩⟩ ⟨"m"⟩
      = .ok [("topic:Xfilter", ⟨"m"⟩)] := by
  decide

/-- C13, as the code has it: in every registry reachable through AddRule calls,
the handler of every subscription of the bus has a filter as its target, and on
every message it publishes the message, as DoFilter left it, on that filter's own
topic exactly when the boolean DoFilter returns is true, and publishes nothing
when the boolean is false; the error DoFilter returns is not looked at. -/
theorem handler_follows_boolean (env : Env) (rs : Ruleset) (hr : Reachable env rs)
    (s : Subscription) (hs : s ∈ rs.bus) (b : Behaviour) (msg : DataMessage) :
    ∃ f, s.handler.target = .filter f ∧
      ((b.DoFilter f msg).1 = true →
        Handler.run b s.handler msg = .ok [(f.GetIdentifier, (b.DoFilter f msg).2.2)]) ∧
      ((b.DoFilter f msg).1 = false → Handler.run b s.handler msg = .ok []) := by
  obtain ⟨f, hf⟩ := reachable_filterTargets hr s hs
  refine ⟨f, hf, ?_, ?_⟩
  · intro hm
    rcases hd : b.DoFilter f msg with ⟨m, e, msg1⟩
    rw [hd] at hm
    simp only at hm
    subst hm
    simp only [Handler.run, hf, Subscriber.asFilter, hd, Subscriber.Propagate,
      Subscriber.GetIdentifier]
  · intro hm
    rcases hd : b.DoFilter f msg with ⟨m, e, msg1⟩
    rw [hd] at hm
    simp only at hm
    subst hm
    simp only [Handler.run, hf, Subscriber.asFilter, hd]

/-- C13 at a concrete registry: the subscription made for filter `X` of rule `A`,
with a filter behaviour that reports a match with an error. -/
theorem handler_follows_boolean_witness :
    (⟨"topic:Ffeeder", ⟨"A", "X", .filter ⟨"topic:Xfilter", 2⟩⟩⟩ : Subscription) ∈
      (run demoEnv [(some ruleA, noConfig)] RuleSetInstance).bus ∧
    ∃ f, (Subscriber.filter ⟨"topic:Xfilter", 2⟩) = .filter f ∧
      ((matchWithError.DoFilter f ⟨"m"⟩).1 = true →
        Handler.run matchWithError ⟨"A", "X", .filter ⟨"topic:Xfilter", 2⟩⟩ ⟨"m"⟩
          = .ok [(f.GetIdentifier, (matchWithError.DoFilter f ⟨"m"⟩).2.2)]) := by
  obtain ⟨f, h1, h2, -⟩ := handler_follows_boolean demoEnv
    (run demoEnv [(some ruleA, noConfig)] RuleSetInstance)
    (reachable_run [(some ruleA, noConfig)] Reachable.init)
    ⟨"topic:Ffeeder", ⟨"A", "X", .filter ⟨"topic:Xfilter", 2⟩⟩⟩ (by decide) matchWithError ⟨"m"⟩
  exact ⟨by decide, f, h1, h2⟩

/-! ## C16: the constructor of the format filter (`filters/format.go`) -/

/-- C16 fails on the code: for a parameter map with neither a `template` nor a
`file` key, such as the empty map or the map that only sets `type`, the
constructor returns a filter and no error, and the template of that filter is
not set; with one of the two keys present, a filter that is returned has its
template set. -/
theorem NewFormatFilter_without_template (env : FormatEnv) :
    NewFormatFilter env [] = .ok ⟨none, "text", []⟩ ∧
    NewFormatFilter env [("type", "html")] = .ok ⟨none, "html", [("type", "html")]⟩ ∧
    (∀ p, StrMap.get? p "template" = none → StrMap.get? p "file" = none →
      ∃ f, NewFormatFilter env p = .ok f ∧ f.template = none) ∧
    (∀ p f, (StrMap.get? p "template").isSome = true ∨ (StrMap.get? p "file").isSome = true →
      NewFormatFilter env p = .ok f → f.template.isSome = true) := by
  refine ⟨by simp [NewFormatFilter, StrMap.get?], ?_, ?_, ?_⟩
  · have h1 : ("type" : String) ≠ "template" := by decide
    have h2 : ("type" : String) ≠ "file" := by decide
    simp [NewFormatFilter, StrMap.get?, h1, h2]
  · intro p h1 h2
    simp only [NewFormatFilter, h1, h2]
    exact ⟨_, rfl, rfl⟩
  · intro p f hkey hok
    unfold NewFormatFilter at hok
    cases hfile : StrMap.get? p "file" with
    | some v =>
      rw [hfile] at hok
      simp only at hok
      split at hok
      · cases hok
      · split at hok
        · cases hok
        · split at hok
          · cases hok
          · split at hok
            · cases hok
            · simp only [Except.ok.injEq] at hok
              rw [← hok]
              rfl
    | none =>
      rw [hfile] at hok hkey
      simp only [Option.isSome_none, Bool.false_eq_true, or_false] at hkey
      obtain ⟨v, hv⟩ := Option.isSome_iff_exists.mp hkey
      rw [hv] at hok
      simp only at hok
      split at hok
      · cases hok
      · rename_i t1 heq
        simp only [Except.ok.injEq] at hok
        rw [← hok]
        simp only
        split at heq
        · cases heq
        · simp only [Except.ok.injEq] at heq
          rw [← heq]
          rfl

/-- C16 at a concrete map: the template is given inline. -/
theorem NewFormatFilter_without_template_witness :
    NewFormatFilter demoFormatEnv [("template", "hello")] =
      .ok ⟨some ⟨false, "hello"⟩, "text", [("template", "hello")]⟩ ∧
    (Format.mk (some ⟨false, "hello"⟩) "text" [("template", "hello")]).template.isSome = true :=
  ⟨rfl,
   (NewFormatFilter_without_template demoFormatEnv).2.2.2 [("template", "hello")]
     ⟨some ⟨false, "hello"⟩, "text", [("template", "hello")]⟩ (Or.inl (by decide)) rfl⟩

/-! ## C19, C20: rule calls and the rules they find -/

theorem callsUnknown_of_callee (rules : List (String × PipeRule)) (name : String)
    (hl : lookupRule rules name = none) (node : Node) (h : name ∈ callees node) :
    callsUnknown rules node := by
  induction node using callees.induct with
  | case1 => simp [callees] at h
  | case2 n ps next rc ih =>
    simp only [callees] at h
    simp only [callsUnknown]
    exact ih h
  | case3 n next ih =>
    simp only [callees, List.mem_cons] at h
    simp only [callsUnknown]
    rcases h with h | h
    · left; rw [← h]; exact hl
    · right; exact ih h
  | case4 => simp [callees] at h

theorem addNode_ok_callees (env : Env) (node : Node) (prev : String) (rs : Ruleset)
    (p : PipeRule) (rs1 : Ruleset) (p1 : PipeRule)
    (h : addNode env node prev rs p = (.ok (), rs1, p1)) :
    ∀ name ∈ callees node, (lookupRule rs.rules name).isSome = true := by
  induction node, prev, rs, p using addNode.induct env with
  | case1 prev rs p => intro name hn; simp [callees] at hn
  | case2 name params next rc prev rs p r rs2 p2 hs =>
    simp only [addNode, hs, Prod.mk.injEq] at h
    exact absurd h.1 (addFilter_ret env name params prev rs p r rs2 p2 hs)
  | case3 name params next rc prev rs p topic rs2 p2 hs ih =>
    simp only [addNode, hs] at h
    obtain ⟨m, f, -, -, -, -, -, hrules, -, -⟩ := addFilter_next env name params prev rs p _ _ _ hs
    intro n hn
    simp only [callees] at hn
    have := ih h n hn
    rwa [hrules] at this
  | case4 name next prev rs p r rs2 p2 hs =>
    simp only [addNode, hs, Prod.mk.injEq] at h
    exact absurd h.1 (addRuleCall_ret env name prev rs p r rs2 p2 hs).1
  | case5 name next prev rs p topic rs2 p2 hs ih =>
    simp only [addNode, hs] at h
    obtain ⟨T, last, hT, -, -, -, -, hrules, -, -, -⟩ :=
      addRuleCall_next env name prev rs p _ _ _ hs
    intro n hn
    simp only [callees, List.mem_cons] at hn
    rcases hn with hn | hn
    · rw [hn, hT]; rfl
    · have := ih h n hn
      rwa [hrules] at this
  | case6 prev rs p => intro name hn; simp [callees] at hn

theorem NewPipeRule_ok_callees (env : Env) (node : RuleNode) (config : Configuration)
    (rs rs1 : Ruleset) (pr : PipeRule) (h : NewPipeRule env node config rs = (.ok pr, rs1)) :
    ∀ name ∈ callees node.chain, (lookupRule rs.rules name).isSome = true := by
  unfold NewPipeRule at h
  unfold RuleNode.chain
  cases hfd : node.Feeder with
  | none =>
    rw [hfd] at h
    exact addNode_ok_callees env _ _ _ _ _ _ (finish_ok_eq _ _ _ h)
  | some fd =>
    rw [hfd] at h
    simp only at h ⊢
    rcases addFeeder_spec env node.Identifier fd config rs with
      h1 | ⟨e, c, -, h1⟩ | ⟨f, cfg, c, -, -, -, -, -, h1⟩
    · rw [h1] at h; simp [finish] at h
    · rw [h1] at h; simp [finish] at h
    · rw [h1] at h
      exact addNode_ok_callees env fd.Next f.GetIdentifier
        ({ rs with lastId := wrap32 (rs.lastId + 1), calls := rs.calls ++ [c] } : Ruleset)
        ⟨node.Identifier, true, [.feeder f]⟩ _ _ (finish_ok_eq _ _ _ h)

/-- C19 on the code. At the failing input the code panics instead of returning an
error: with rule `P` and the call-only rule `Q` registered, the rule `S` that
calls `Q` and then itself makes AddRule dereference the missing last node of `Q`.
Apart from that: a rule tree whose walk reaches a call of its own, unregistered
name never makes AddRule succeed, and the name is not registered afterwards; and
every rule called in a compilation that succeeds was registered before the call
of AddRule and is not the rule being added. -/
theorem self_call_not_registered :
    (AddRule demoEnv (some ruleS) noConfig
      (run demoEnv [(some ruleP, noConfig), (some ruleQ, noConfig)] RuleSetInstance)).1
      = .panic ∧
    (∀ (env : Env) (rs : Ruleset) (node : RuleNode) (config : Configuration),
      lookupRule rs.rules node.Identifier = none → node.Identifier ∈ callees node.chain →
      (AddRule env (some node) config rs).1 ≠ .ok () ∧
      lookupRule (AddRule env (some node) config rs).2.rules node.Identifier = none) ∧
    (∀ (env : Env) (rs rs1 : Ruleset) (node : RuleNode) (config : Configuration),
      AddRule env (some node) config rs = (.ok (), rs1) →
      ∀ name ∈ callees node.chain,
        (lookupRule rs.rules name).isSome = true ∧ name ≠ node.Identifier) := by
  refine ⟨by decide, ?_, ?_⟩
  · intro env rs node config hfresh hself
    have hu : callsUnknown rs.rules node.chain :=
      callsUnknown_of_callee rs.rules node.Identifier hfresh _ hself
    have hne : (AddRule env (some node) config rs).1 ≠ .ok () := by
      intro hok
      obtain ⟨n, pr, rs0, hn, -, -, hnew, -⟩ :=
        AddRule_ok_inv env (some node) config rs (AddRule env (some node) config rs).2
          (by rw [← hok])
      cases hn
      exact NewPipeRule_callsUnknown env node config rs hu pr (by rw [hnew])
    refine ⟨hne, ?_⟩
    rcases AddRule_failed_inv env (some node) config rs hne with h | ⟨n, hn, h⟩
    · rw [h]; exact hfresh
    · cases hn
      rw [h, (NewPipeRule_spec env node config rs).1]
      exact hfresh
  · intro env rs rs1 node config hok name hname
    obtain ⟨n, pr, rs0, hn, -, hfresh, hnew, -⟩ := AddRule_ok_inv env _ config rs rs1 hok
    cases hn
    have hreg := NewPipeRule_ok_callees env node config rs rs0 pr hnew name hname
    refine ⟨hreg, ?_⟩
    intro heq
    rw [heq, hfresh] at hreg
    simp at hreg

/-- C19 at a concrete tree: the rule `S` that calls itself, in the initial
registry. -/
theorem self_call_not_registered_witness :
    (AddRule demoEnv (some ⟨"S", none, callNode "S" .nil⟩) noConfig RuleSetInstance).1
      ≠ .ok () ∧
    lookupRule (AddRule demoEnv (some ⟨"S", none, callNode "S" .nil⟩) noConfig
      RuleSetInstance).2.rules "S" = none :=
  self_call_not_registered.2.1 demoEnv RuleSetInstance ⟨"S", none, callNode "S" .nil⟩ noConfig
    (by decide) (by decide)

theorem addFilter_ret_cases (env : Env) (name : String) (params : List Param) (prev : String)
    (rs : Ruleset) (p : PipeRule) (r : Result Unit) (rs1 : Ruleset) (p1 : PipeRule)
    (h : addFilter env name params prev rs p = .ret r rs1 p1) :
    r = .panic ∨ (∃ e, r = .error (.factory e)) ∨ (∃ e, r = .error (.subscribe e)) := by
  unfold addFilter at h
  rcases newFilter_spec env name params rs with h1 | ⟨e, c, -, h1⟩ | ⟨f, m, c, -, -, -, -, -, h1⟩
  · rw [h1] at h; cases h; exact Or.inl rfl
  · rw [h1] at h; cases h; exact Or.inr (Or.inl ⟨e, rfl⟩)
  · rw [h1] at h
    by_cases hprev : prev = ""
    · simp [hprev] at h
    · simp only [ne_eq, hprev, not_false_eq_true, if_true] at h
      rcases subscribe_spec env prev ⟨p.Name, name, .filter f⟩
        ({ rs with lastId := wrap32 (rs.lastId + 1), calls := rs.calls ++ [c] } : Ruleset)
        with ⟨e, -, h2⟩ | ⟨-, h2⟩
      · rw [h2] at h; cases h; exact Or.inr (Or.inr ⟨e, rfl⟩)
      · rw [h2] at h; cases h

theorem addRuleCall_ret_cases (env : Env) (name : String) (prev : String)
    (rs : Ruleset) (p : PipeRule) (r : Result Unit) (rs1 : Ruleset) (p1 : PipeRule)
    (h : addRuleCall env name prev rs p = .ret r rs1 p1) :
    r = .panic ∨ r = .error (.notFound name) ∨ r = .error (.feederHere name) ∨
      (∃ e, r = .error (.subscribe e)) := by
  unfold addRuleCall getRuleCall at h
  cases hl : lookupRule rs.rules name with
  | none => rw [hl] at h; cases h; exact Or.inr (Or.inl rfl)
  | some T =>
    rw [hl] at h
    simp only at h
    by_cases hprev : prev = ""
    · simp only [hprev, ne_eq, not_true_eq_false, if_false] at h
      rcases leaveRuleCall_cases T rs p with ⟨-, h2⟩ | ⟨last, hlast, h2⟩
      · rw [h2] at h; cases h; exact Or.inl rfl
      · rw [h2] at h; cases h
    · simp only [ne_eq, hprev, not_false_eq_true, if_true] at h
      cases hF : T.HasFeeder with
      | true => rw [hF] at h; cases h; exact Or.inr (Or.inr (Or.inl rfl))
      | false =>
        rw [hF] at h
        simp only [Bool.false_eq_true, if_false] at h
        cases hfirst : T.getFirstNode with
        | none => rw [hfirst] at h; cases h; exact Or.inl rfl
        | some first =>
          rw [hfirst] at h
          simp only at h
          rcases subscribe_spec env prev ⟨p.Name, name, first⟩ rs with ⟨e, -, h2⟩ | ⟨-, h2⟩
          · rw [h2] at h; cases h; exact Or.inr (Or.inr (Or.inr ⟨e, rfl⟩))
          · rw [h2] at h
            simp only at h
            rcases leaveRuleCall_cases T
              ({ rs with bus := rs.bus ++ [⟨prev, ⟨p.Name, name, first⟩⟩] } : Ruleset) p
              with ⟨-, h3⟩ | ⟨last, hlast, h3⟩
            · rw [h3] at h; cases h; exact Or.inl rfl
            · rw [h3] at h; cases h

theorem addNode_not_unknownNodeType (env : Env) (node : Node) (prev : String) (rs : Ruleset)
    (p : PipeRule) : (addNode env node prev rs p).1 ≠ .error .unknownNodeType := by
  induction node, prev, rs, p using addNode.induct env with
  | case1 prev rs p => simp [addNode]
  | case2 name params next rc prev rs p r rs2 p2 hs =>
    simp only [addNode, hs]
    rcases addFilter_ret_cases env name params prev rs p r rs2 p2 hs with h | ⟨e, h⟩ | ⟨e, h⟩ <;>
      simp [h]
  | case3 name params next rc prev rs p topic rs2 p2 hs ih =>
    simp only [addNode, hs]
    exact ih
  | case4 name next prev rs p r rs2 p2 hs =>
    simp only [addNode, hs]
    rcases addRuleCall_ret_cases env name prev rs p r rs2 p2 hs with h | h | h | ⟨e, h⟩ <;>
      simp [h]
  | case5 name next prev rs p topic rs2 p2 hs ih =>
    simp only [addNode, hs]
    exact ih
  | case6 prev rs p => simp [addNode]

theorem finish_error (x : Result Unit × Ruleset × PipeRule) (e : Err)
    (h : (finish x).1 = .error e) : x.1 = .error e := by
  obtain ⟨r, rs, p⟩ := x
  cases r with
  | ok u => simp [finish] at h
  | error e1 => simpa [finish] using h
  | panic => simp [finish] at h

/-- C20 fails on the code: with rule `P` and the call-only rule `Q` registered,
which is a registry AddRule built from well-formed trees, compiling rule `R` (a
call of `Q`, then filter `Y`) dereferences the missing last node of `Q`, and
compiling rule `T` (filter `Z`, then a call of `Q`) dereferences the missing first
node of `Q`; both panic. The other half of the claim holds: no call of AddRule
returns the "found an unknown node type" error. -/
theorem missing_node_dereferenced :
    (AddRule demoEnv (some ruleR) noConfig
      (run demoEnv [(some ruleP, noConfig), (some ruleQ, noConfig)] RuleSetInstance)).1
      = .panic ∧
    (AddRule demoEnv (some ruleT) noConfig
      (run demoEnv [(some ruleP, noConfig), (some ruleQ, noConfig)] RuleSetInstance)).1
      = .panic ∧
    (∀ (env : Env) (node : Option RuleNode) (config : Configuration) (rs : Ruleset),
      (AddRule env node config rs).1 ≠ .error .unknownNodeType) := by
  refine ⟨by decide, by decide, ?_⟩
  intro env node config rs
  cases node with
  | none => simp [AddRule]
  | some n =>
    simp only [AddRule]
    by_cases hid : n.Identifier = ""
    · simp [hid]
    · simp only [hid, if_false]
      cases hl : lookupRule rs.rules n.Identifier with
      | some pr => simp
      | none =>
        simp only
        have hnew : (NewPipeRule env n config rs).1 ≠ .error .unknownNodeType := by
          intro hc
          unfold NewPipeRule at hc
          cases hfd : n.Feeder with
          | none =>
            rw [hfd] at hc
            exact addNode_not_unknownNodeType env _ _ _ _ (finish_error _ _ hc)
          | some fd =>
            rw [hfd] at hc
            simp only at hc
            rcases addFeeder_spec env n.Identifier fd config rs with
              h1 | ⟨e, c, -, h1⟩ | ⟨f, cfg, c, -, -, -, -, -, h1⟩
            · rw [h1] at hc; simp [finish] at hc
            · rw [h1] at hc; simp [finish] at hc
            · rw [h1] at hc
              exact addNode_not_unknownNodeType env _ _ _ _ (finish_error _ _ hc)
        rcases hn : NewPipeRule env n config rs with ⟨r, rs0⟩
        rw [hn] at hnew
        cases r with
        | panic => simp
        | error e => simpa using hnew
        | ok pr => simp

/-! ## C11: the subscriptions of a compiled rule -/

theorem getLast?_mem {α : Type} (l : List α) (a : α) (h : l.getLast? = some a) : a ∈ l := by
  have hne : l ≠ [] := by
    intro hnil
    rw [hnil] at h
    simp at h
  rw [List.getLast?_eq_getLast _ hne] at h
  cases h
  exact List.getLast_mem hne

theorem chained_up (ws : List Wire) (prev : String) (hw : Chained prev ws) (hprev : prev ≠ "")
    (ht : ∀ w ∈ ws, w.topic ≠ "") : ∀ w ∈ ws, w.up ≠ "" := by
  induction ws generalizing prev with
  | nil => intro w hw1; simp at hw1
  | cons w rest ih =>
    obtain ⟨h1, h2⟩ := hw
    intro x hx
    rcases List.mem_cons.mp hx with hx | hx
    · subst hx; rw [h1]; exact hprev
    · exact ih w.topic h2 (ht w (List.mem_cons_self _ _))
        (fun y hy => ht y (List.mem_cons_of_mem _ hy)) x hx

theorem chained_head (ws : List Wire) (hw : Chained "" ws) (ht : ∀ w ∈ ws, w.topic ≠ "") :
    (∀ w ∈ ws.head?, w.up = "") ∧ ∀ w ∈ ws.tail, w.up ≠ "" := by
  cases ws with
  | nil => simp
  | cons w rest =>
    obtain ⟨h1, h2⟩ := hw
    refine ⟨?_, ?_⟩
    · intro x hx
      simp only [List.head?_cons, Option.mem_def, Option.some.injEq] at hx
      subst hx
      exact h1
    · exact chained_up rest w.topic h2 (ht w (List.mem_cons_self _ _))
        (fun y hy => ht y (List.mem_cons_of_mem _ hy))

theorem chained_consecutive (ws : List Wire) (prev : String) (hw : Chained prev ws)
    (pre : List Wire) (w1 w2 : Wire) (post : List Wire) (h : ws = pre ++ w1 :: w2 :: post) :
    w2.up = w1.topic := by
  induction pre generalizing ws prev with
  | nil =>
    subst h
    exact hw.2.1
  | cons x pre1 ih =>
    subst h
    exact ih _ x.topic hw.2 rfl

/-- A successful walk has a record that follows the chain: the nodes appended and
the subscriptions added are those of the record, the upstream topics are chained
from `prev`, and with the topic contract and a registry whose nodes have
non-empty topics the walk goes on with a non-empty topic after every node. -/
theorem addNode_wired (env : Env) (node : Node) (prev : String) (rs : Ruleset)
    (p : PipeRule) (rs1 : Ruleset) (p1 : PipeRule)
    (h : addNode env node prev rs p = (.ok (), rs1, p1)) :
    ∃ ws, Follows rs.rules node ws ∧ Chained prev ws ∧ p1.nodes = p.nodes ++ wireNodes ws ∧
      rs1.bus = rs.bus ++ wireSubs p.Name ws ∧
      (TopicContract env → Topical rs → ∀ w ∈ ws, w.topic ≠ "") := by
  induction node, prev, rs, p using addNode.induct env with
  | case1 prev rs p =>
    simp only [addNode, Prod.mk.injEq, true_and] at h
    obtain ⟨e1, e2⟩ := h
    subst e1 e2
    exact ⟨[], rfl, trivial, by simp [wireNodes], by simp [wireSubs],
      fun _ _ w hw => by simp at hw⟩
  | case2 name params next rc prev rs p r rs2 p2 hs =>
    simp only [addNode, hs, Prod.mk.injEq] at h
    exact absurd h.1 (addFilter_ret env name params prev rs p r rs2 p2 hs)
  | case3 name params next rc prev rs p topic rs2 p2 hs ih =>
    simp only [addNode, hs] at h
    obtain ⟨ws, hfol, hch, hn, hb, ht⟩ := ih h
    obtain ⟨m, f, -, hf, htop, hp2, -, hrules, -, hbus⟩ :=
      addFilter_next env name params prev rs p _ _ _ hs
    subst htop
    rw [hp2] at hn hb
    simp only at hn hb
    rw [hrules] at hfol
    refine ⟨.own name f prev :: ws, ⟨f, prev, ws, rfl, hfol⟩, ⟨rfl, hch⟩, ?_, ?_, ?_⟩
    · rw [hn]; simp [wireNodes]
    · rw [hb, hbus]
      by_cases hprev : prev = "" <;> simp [wireSubs, Wire.sub, hprev]
    · intro hc htp w hw1
      rcases List.mem_cons.mp hw1 with hw1 | hw1
      · subst hw1; exact hc.1 _ _ _ _ hf
      · exact ht hc (fun n pr hpr => htp n pr (by rw [← hrules]; exact hpr)) w hw1
  | case4 name next prev rs p r rs2 p2 hs =>
    simp only [addNode, hs, Prod.mk.injEq] at h
    exact absurd h.1 (addRuleCall_ret env name prev rs p r rs2 p2 hs).1
  | case5 name next prev rs p topic rs2 p2 hs ih =>
    simp only [addNode, hs] at h
    obtain ⟨ws, hfol, hch, hn, hb, ht⟩ := ih h
    obtain ⟨T, last, hT, hlast, htop, hp2, -, hrules, -, hbus0, hbus1⟩ :=
      addRuleCall_next env name prev rs p _ _ _ hs
    subst htop
    rw [hp2] at hn hb
    rw [hrules] at hfol
    have hlast_mem : last ∈ T.nodes := getLast?_mem _ _ hlast
    have htopic : (Wire.call name T prev).topic = last.GetIdentifier := by
      simp only [Wire.topic, hlast]
    refine ⟨.call name T prev :: ws, ⟨T, prev, ws, hT, rfl, hfol⟩,
      ⟨rfl, by rw [htopic]; exact hch⟩, ?_, ?_, ?_⟩
    · rw [hn]; simp [wireNodes]
    · rw [hb]
      by_cases hprev : prev = ""
      · rw [hbus0 hprev]; simp [wireSubs, Wire.sub, hprev]
      · obtain ⟨-, first, hfirst, hbus⟩ := hbus1 hprev
        rw [hbus]; simp [wireSubs, Wire.sub, hprev, hfirst]
    · intro hc htp w hw1
      rcases List.mem_cons.mp hw1 with hw1 | hw1
      · subst hw1; rw [htopic]; exact htp name T hT last hlast_mem
      · exact ht hc (fun n pr hpr => htp n pr (by rw [← hrules]; exact hpr)) w hw1
  | case6 prev rs p =>
    simp only [addNode, Prod.mk.injEq, true_and] at h
    obtain ⟨e1, e2⟩ := h
    subst e1 e2
    exact ⟨[], rfl, trivial, by simp [wireNodes], by simp [wireSubs],
      fun _ _ w hw => by simp at hw⟩

theorem wireNodes_topic (ws : List Wire) (ht : ∀ w ∈ ws, w.topic ≠ "") :
    ∀ n ∈ wireNodes ws, n.GetIdentifier ≠ "" := by
  induction ws with
  | nil => intro n hn; simp [wireNodes] at hn
  | cons w rest ih =>
    have htr : ∀ x ∈ rest, x.topic ≠ "" := fun x hx => ht x (List.mem_cons_of_mem _ hx)
    cases w with
    | own name f up =>
      intro n hn
      simp only [wireNodes, List.mem_cons] at hn
      rcases hn with hn | hn
      · subst hn; exact ht (.own name f up) (List.mem_cons_self _ _)
      · exact ih htr n hn
    | call name T up =>
      intro n hn
      simp only [wireNodes] at hn
      exact ih htr n hn

/-- A successful compilation has a record that follows the tree's chain: the bus
gained the subscriptions of the record, the nodes are those of the record, after
the feeder if the tree declares one, and the upstream topics are chained from the
empty topic, or from the feeder's. -/
theorem NewPipeRule_wired (env : Env) (node : RuleNode) (config : Configuration)
    (rs rs1 : Ruleset) (pr : PipeRule) (h : NewPipeRule env node config rs = (.ok pr, rs1)) :
    ∃ ws, Follows rs.rules node.chain ws ∧ rs1.bus = rs.bus ++ wireSubs node.Identifier ws ∧
      (TopicContract env → Topical rs → ∀ w ∈ ws, w.topic ≠ "") ∧
      (node.Feeder = none → pr.nodes = wireNodes ws ∧ Chained "" ws) ∧
      (node.Feeder.isSome = true → ∃ f kind cfg id, env.NewFeeder kind cfg id = .ok f ∧
        pr.nodes = .feeder f :: wireNodes ws ∧ Chained f.GetIdentifier ws) := by
  unfold NewPipeRule at h
  unfold RuleNode.chain
  cases hfd : node.Feeder with
  | none =>
    rw [hfd] at h
    simp only at h ⊢
    obtain ⟨ws, hfol, hch, hn, hb, ht⟩ := addNode_wired env _ _ _ _ _ _ (finish_ok_eq _ _ _ h)
    exact ⟨ws, hfol, hb, ht, fun _ => ⟨by simpa using hn, hch⟩, fun hc => by simp at hc⟩
  | some fd =>
    rw [hfd] at h
    simp only at h ⊢
    rcases addFeeder_spec env node.Identifier fd config rs with
      h1 | ⟨e, c, -, h1⟩ | ⟨f, cfg, c, -, -, -, hf, -, h1⟩
    · rw [h1] at h; simp [finish] at h
    · rw [h1] at h; simp [finish] at h
    · rw [h1] at h
      simp only at h
      obtain ⟨ws, hfol, hch, hn, hb, ht⟩ := addNode_wired env _ _ _ _ _ _ (finish_ok_eq _ _ _ h)
      refine ⟨ws, hfol, hb, fun hc htp => ht hc (fun n q hq => htp n q hq),
        fun hc => by simp at hc, fun _ => ⟨f, _, _, _, hf, by simpa using hn, hch⟩⟩

theorem AddRule_topical (env : Env) (hc : TopicContract env) (node : Option RuleNode)
    (config : Configuration) (rs : Ruleset) (ht : Topical rs) :
    Topical (AddRule env node config rs).2 := by
  by_cases hok : (AddRule env node config rs).1 = .ok ()
  · obtain ⟨n, pr, rs0, -, -, -, hnew, hrs1⟩ :=
      AddRule_ok_inv env node config rs (AddRule env node config rs).2 (by rw [← hok])
    rw [hrs1]
    have hrules : rs0.rules = rs.rules := by
      have := (NewPipeRule_spec env n config rs).1
      rw [hnew] at this
      exact this
    obtain ⟨ws, -, -, htw, hnone, hsome⟩ := NewPipeRule_wired env n config rs rs0 pr hnew
    have hnodes : ∀ x ∈ pr.nodes, x.GetIdentifier ≠ "" := by
      have hws := wireNodes_topic ws (htw hc ht)
      cases hfd : n.Feeder with
      | none =>
        rw [(hnone hfd).1]
        exact hws
      | some fd =>
        obtain ⟨f, kind, cfg, id, hf, hn, -⟩ := hsome (by rw [hfd]; rfl)
        rw [hn]
        intro x hx
        rcases List.mem_cons.mp hx with hx | hx
        · subst hx; exact hc.2 _ _ _ _ hf
        · exact hws x hx
    intro name q hq
    simp only [lookupRule_storeRule] at hq
    by_cases hk : pr.Name = name
    · simp only [hk, if_true, Option.some.injEq] at hq
      subst hq
      exact hnodes
    · simp only [hk, if_false, hrules] at hq
      exact ht name q hq
  · rcases AddRule_failed_inv env node config rs hok with h | ⟨n, -, h⟩
    · rw [h]; exact ht
    · rw [h]
      intro name q hq
      rw [(NewPipeRule_spec env n config rs).1] at hq
      exact ht name q hq

theorem reachable_topical {env : Env} (hc : TopicContract env) {rs : Ruleset}
    (h : Reachable env rs) : Topical rs := by
  induction h with
  | init => intro name pr hpr; simp [RuleSetInstance, lookupRule] at hpr
  | step rs node config _ ih => exact AddRule_topical env hc node config rs ih

theorem demoEnv_topicContract : TopicContract demoEnv := by
  have key : ∀ kind : String, "topic:" ++ kind ≠ "" := by
    intro kind h
    have h1 := congrArg String.length h
    simp only [String.length_append] at h1
    have h2 : "topic:".length = 6 := by decide
    have h3 : "".length = 0 := by decide
    omega
  constructor
  · intro kind m id f hf
    simp only [demoEnv, Except.ok.injEq] at hf
    subst hf
    exact key kind
  · intro kind m id f hf
    simp only [demoEnv, Except.ok.injEq] at hf
    subst hf
    exact key kind

/-- C11 as stated fails: rule `B` starts with a call of rule `A`; its compiled
nodes are the single filter `Y`, which is therefore the first node, and the
compilation made one subscription for `Y`, on the topic of the last node of `A`. -/
theorem first_node_subscribed :
    (NewPipeRule demoEnv ruleB noConfig
      (run demoEnv [(some ruleA, noConfig)] RuleSetInstance)).1
      = .ok ⟨"B", false, [.filter ⟨"topic:Yfilter", 3⟩]⟩ ∧
    (NewPipeRule demoEnv ruleB noConfig
      (run demoEnv [(some ruleA, noConfig)] RuleSetInstance)).2.bus
      = (run demoEnv [(some ruleA, noConfig)] RuleSetInstance).bus ++
          [⟨"topic:Xfilter", ⟨"B", "Y", .filter ⟨"topic:Yfilter", 3⟩⟩⟩] := by
  decide

/-- C11, as the code has it: with factories that give every node a non-empty
topic, in every registry reachable through AddRule calls, a successful
compilation has a record that follows the tree's chain node by node, with one
entry per filter node and one per rule call (holding the rule registered under
the called name), such that: the nodes of the compiled rule are the filters of
the record, after the feeder if the tree declares one; the subscriptions added to
the bus are exactly those of the record, where an entry contributes none when its
upstream topic is empty and otherwise exactly one, on its upstream topic, whose
handler targets the entry's own filter (for a rule call: the first node of the
called rule); the upstream topic of every entry after the first is the topic the
entry before it left, that is the topic of the filter before it or of the last
node of the rule called before it, and it is never empty. The upstream topic of
the first entry is the topic of the feeder, which is not empty, or the empty
topic in a headless rule. So the feeder has no subscription; every filter of the
nodes that is not the first entry of the record has exactly one; and the first
node has none when the chain of a headless rule starts with it, and exactly one,
on the topic of the last node of the rule called just before it, when rule calls
come first. -/
theorem compiled_rule_subscriptions (env : Env) (hc : TopicContract env) (rs : Ruleset)
    (hr : Reachable env rs) (node : RuleNode) (config : Configuration) (pr : PipeRule)
    (rs1 : Ruleset) (h : NewPipeRule env node config rs = (.ok pr, rs1)) :
    ∃ ws, Follows rs.rules node.chain ws ∧
      rs1.bus = rs.bus ++ wireSubs pr.Name ws ∧
      (∀ w ∈ ws, w.topic ≠ "") ∧
      (∀ pre w1 w2 post, ws = pre ++ w1 :: w2 :: post → w2.up = w1.topic ∧ w2.up ≠ "") ∧
      (∀ name f up, Wire.own name f up ∈ ws → up ≠ "" →
        (Wire.own name f up).sub pr.Name = some ⟨up, ⟨pr.Name, name, .filter f⟩⟩) ∧
      (∀ name f, Wire.own name f "" ∈ ws → (Wire.own name f "").sub pr.Name = none) ∧
      (node.Feeder = none →
        pr.nodes = wireNodes ws ∧ (∀ w ∈ ws.head?, w.up = "") ∧ ∀ w ∈ ws.tail, w.up ≠ "") ∧
      (node.Feeder.isSome = true →
        ∃ f, pr.nodes = .feeder f :: wireNodes ws ∧ (∀ w ∈ ws.head?, w.up = f.GetIdentifier) ∧
          ∀ w ∈ ws, w.up ≠ "") := by
  obtain ⟨ws, hfol, hb, htw, hnone, hsome⟩ := NewPipeRule_wired env node config rs rs1 pr h
  have hname : pr.Name = node.Identifier := by
    obtain ⟨-, -, -, -, -, e6⟩ := NewPipeRule_spec env node config rs
    rw [h] at e6
    exact (e6 pr rfl).1
  have ht := htw hc (reachable_topical hc hr)
  have hchain : ∃ prev, Chained prev ws := by
    cases hfd : node.Feeder with
    | none => exact ⟨"", (hnone hfd).2⟩
    | some fd =>
      obtain ⟨f, _, _, _, _, _, hch⟩ := hsome (by rw [hfd]; rfl)
      exact ⟨_, hch⟩
  obtain ⟨prev0, hch0⟩ := hchain
  refine ⟨ws, hfol, by rw [hname]; exact hb, ht, ?_, ?_, ?_, ?_, ?_⟩
  · intro pre w1 w2 post hws
    have h1 := chained_consecutive ws prev0 hch0 pre w1 w2 post hws
    refine ⟨h1, ?_⟩
    rw [h1]
    exact ht w1 (by rw [hws]; simp)
  · intro name f up _ hup
    simp only [Wire.sub, ne_eq, hup, not_false_eq_true, if_true]
  · intro name f _
    simp only [Wire.sub, ne_eq, not_true_eq_false, if_false]
  · intro hfd
    obtain ⟨hn, hch⟩ := hnone hfd
    exact ⟨hn, chained_head ws hch ht⟩
  · intro hfd
    obtain ⟨f, kind, cfg, id, hf, hn, hch⟩ := hsome hfd
    refine ⟨f, hn, ?_, chained_up ws f.GetIdentifier hch (hc.2 _ _ _ _ hf) ht⟩
    intro w hw
    cases ws with
    | nil => simp at hw
    | cons x rest =>
      simp only [List.head?_cons, Option.mem_def, Option.some.injEq] at hw
      subst hw
      exact hch.1

/-- C11 at rule `B` (a call of rule `A`, then filter `Y`) compiled in the registry
that holds rule `A`: the record is the call of `A` followed by the filter `Y`, the
call has the empty upstream topic and no subscription, and `Y`, the first node of
`B`, has one. -/
theorem compiled_rule_subscriptions_witness :
    ∃ ws, Follows (run demoEnv [(some ruleA, noConfig)] RuleSetInstance).rules ruleB.chain ws ∧
      (NewPipeRule demoEnv ruleB noConfig
        (run demoEnv [(some ruleA, noConfig)] RuleSetInstance)).2.bus =
        (run demoEnv [(some ruleA, noConfig)] RuleSetInstance).bus ++ wireSubs "B" ws ∧
      (PipeRule.mk "B" false [.filter ⟨"topic:Yfilter", 3⟩]).nodes = wireNodes ws ∧
      (∀ w ∈ ws.head?, w.up = "") ∧ (∀ w ∈ ws.tail, w.up ≠ "") := by
  obtain ⟨ws, h1, h2, -, -, -, -, h7, -⟩ := compiled_rule_subscriptions demoEnv
    demoEnv_topicContract (run demoEnv [(some ruleA, noConfig)] RuleSetInstance)
    (reachable_run [(some ruleA, noConfig)] Reachable.init) ruleB noConfig
    ⟨"B", false, [.filter ⟨"topic:Yfilter", 3⟩]⟩
    (NewPipeRule demoEnv ruleB noConfig
      (run demoEnv [(some ruleA, noConfig)] RuleSetInstance)).2
    (by decide)
  exact ⟨ws, h1, h2, (h7 rfl).1, (h7 rfl).2.1, (h7 rfl).2.2⟩

end Driplane
